import Mathlib

/-
Shallow embedding of the Triton backend output responder
(src/backend_output_responder.cc).  The responder scatters one contiguous
source buffer holding a named output tensor back into per-response
destination buffers, optionally staging through an intermediate pinned
host buffer.

The cc file calls a handful of helpers declared elsewhere in the
repository (backend_common.h): CopyBuffer, GetByteSize, the
RESPOND_AND_SET_NULL_IF_ERROR macro, and the class header with the member
initializers.  Those parts are modelled from the spec, each with a doc
comment saying so; everything else below is translated directly from the
source of backend_output_responder.cc.

Bytes are modelled as natural numbers, buffers as lists of bytes.  The
asynchronous device copies are modelled as immediate writes together with
the cuda_used flag that the code latches into need_sync_; the sequence of
issued operations is recorded in an explicit trace.
-/

set_option maxHeartbeats 1000000

namespace Backend

/-- Memory domains of the server: host, page-locked host, and device. -/
inductive MemType
  | CPU
  | CPU_PINNED
  | GPU
deriving DecidableEq, Repr

/-- Modelled from the spec: the device copy primitive CopyBuffer (declared
in backend_common.h, which is not among the given source files) performs a
synchronous memcpy when both endpoints are host side and an asynchronous
stream copy otherwise, reporting through cuda_used whether the stream was
used. -/
def cudaUsed (srcMem dstMem : MemType) : Bool :=
  srcMem == MemType.GPU || dstMem == MemType.GPU

/-- Modelled from the spec: GetByteSize of a datatype and a shape (declared
in backend_common.h).  The datatype argument stands for its element byte
size, and the byte size of a tensor is the element size times the element
count. -/
def GetByteSize (datatype : Nat) (shape : List Nat) : Nat :=
  datatype * shape.prod

/-- The slice of size bytes of a buffer starting at a byte offset. -/
def sliceBytes (buf : List Nat) (off size : Nat) : List Nat :=
  (buf.drop off).take size

/-- The OutputData record pushed on the pending-pinned list
(backend_output_responder.cc lines 232 to 235): the output name, the
destination response buffer (identified here by the response index), its
byte size, and the actual memory type and id of the response buffer.  The
field srcOff is a ghost field recording the value of tensor_offset at the
time the fragment was recorded; the operational definitions never read it,
only invariant statements do. -/
structure OutputData where
  name : String
  bufferIdx : Nat
  size : Nat
  memType : MemType
  memTypeId : Int
  srcOff : Nat
deriving DecidableEq, Repr

/-- A deferred pinned block (the element type of deferred_pinned_): the
pinned buffer (identified by its allocation index), its byte size, and the
pending response fragments that will be fanned out by Finalize. -/
structure DeferredPinned where
  pid : Nat
  size : Nat
  frags : List (Nat × OutputData)
deriving DecidableEq, Repr

/-- A response slot of the responses vector.  alive models
response != nullptr; content models the bytes of the output buffer that
this response allocated for the processed tensor (none while nothing has
been copied into it). -/
structure Slot where
  alive : Bool
  content : Option (List Nat)
deriving DecidableEq, Repr

/-- Static properties of one request/response pair, the environment the cc
file reads through the TRITONBACKEND accessors: the ordered output names
the request asked for, the batch dimension of its first input (read at
lines 86 to 95), and the behaviour of TRITONBACKEND_OutputBuffer for this
response: the actual memory type it returns (the response may override the
suggestion) and whether it fails. -/
structure ReqEnv where
  requestedOutputs : List String
  batchDim : Nat
  allocMemType : MemType
  allocMemTypeId : Int
  allocFails : Bool
deriving DecidableEq, Repr

instance : Inhabited ReqEnv := ⟨⟨[], 0, MemType.CPU, 0, false⟩⟩

/-- The source of a copy: the tensor buffer at a byte offset, or a pinned
staging buffer at a byte offset. -/
inductive CopySrc
  | tensor (off : Nat)
  | pinnedBuf (pid : Nat) (off : Nat)
deriving DecidableEq, Repr

/-- The destination of a copy: a pinned staging buffer, or the output
buffer of a response slot. -/
inductive CopyDst
  | pinned (pid : Nat)
  | resp (idx : Nat)
deriving DecidableEq, Repr

/-- One CopyBuffer invocation as recorded in the trace. -/
structure CopyEv where
  src : CopySrc
  dst : CopyDst
  srcMem : MemType
  dstMem : MemType
  size : Nat
  cuda : Bool
  err : Bool
deriving DecidableEq, Repr

/-- An observable event of the responder: a CopyBuffer call, a pinned
allocation attempt, an error response send, a synchronization in Finalize
(on the event when onEvent is true, else on the stream), or a
cudaEventRecord. -/
inductive Ev
  | copy (c : CopyEv)
  | alloc (size : Nat) (ok : Bool)
  | send (idx : Nat)
  | sync (onEvent : Bool)
  | record
deriving DecidableEq, Repr

/-- The construction environment of the responder: max_batch_size of the
model, the pinned_enabled flag, whether an event was supplied, the request
environments, and the oracles for pinned allocation success (the i-th
allocation attempt succeeds unless the list says false) and CopyBuffer
failure (the i-th copy fails when the list says true). -/
structure Config where
  maxBatchSize : Nat
  pinnedEnabled : Bool
  hasEvent : Bool
  reqs : List ReqEnv
  pinnedAllocOk : List Bool
  copyErr : List Bool
deriving DecidableEq, Repr

/-- The arguments of one ProcessTensor call: output name, datatype
(standing for its element byte size), batchn shape, source buffer bytes,
and the source memory type and id. -/
structure TensorArgs where
  outputName : String
  datatype : Nat
  shape : List Nat
  buf : List Nat
  memType : MemType
  memTypeId : Int
deriving DecidableEq, Repr

/-- The mutable state of a BackendOutputResponder: need_sync_, the pending
pinned run (pending_pinned_byte_size_, pending_pinned_offset_,
pending_pinned_outputs_), deferred_pinned_, pinned_memories_, the contents
of the allocated pinned buffers, the responses vector, the number of
CopyBuffer calls and pinned allocation attempts so far (consumed by the
oracles), and the event trace. -/
structure RState where
  needSync : Bool
  pendingBytes : Nat
  pendingOffset : Nat
  pendingOutputs : List (Nat × OutputData)
  deferred : List DeferredPinned
  pinnedMemories : List Nat
  pinnedContents : List (List Nat)
  slots : List Slot
  copyCount : Nat
  allocCount : Nat
  trace : List Ev
deriving DecidableEq, Repr

/-- Modelled from the spec: the responder constructor (declared in the
class header, which is not among the given source files) starts with
need_sync_ false, an empty pending run, no deferred blocks and no pinned
memories, mirroring the member initializers shown for the sibling input
collector; the responses vector aliveness is given by the argument. -/
def initState (alive : List Bool) : RState :=
  { needSync := false
    pendingBytes := 0
    pendingOffset := 0
    pendingOutputs := []
    deferred := []
    pinnedMemories := []
    pinnedContents := []
    slots := alive.map (fun a => { alive := a, content := none })
    copyCount := 0
    allocCount := 0
    trace := [] }

/-- The slot at a response index (out of range reads give a dead slot). -/
def slotAt (s : RState) (idx : Nat) : Slot :=
  s.slots.getD idx ⟨false, none⟩

/-- Replace the slot at an index by a function of its current value. -/
def modifySlot (l : List Slot) (idx : Nat) (f : Slot → Slot) : List Slot :=
  l.set idx (f (l.getD idx ⟨false, none⟩))

/-- Modelled from the spec: the effect of failing a response (the
RESPOND_AND_SET_NULL_IF_ERROR macro of backend_common.h and the explicit
error loop at lines 314 to 323): when the slot is still live, the response
is sent with the complete-final flag carrying the error and the slot is
set to null; a slot that is already null is skipped. -/
def killSlot (s : RState) (idx : Nat) : RState :=
  if (slotAt s idx).alive then
    { s with
        slots := modifySlot s.slots idx (fun sl => { sl with alive := false })
        trace := s.trace ++ [Ev.send idx] }
  else s

/-- Fail every response slot of a fragment list (the error loop at lines
314 to 323 of FlushPendingPinned). -/
def killAll (s : RState) (frags : List (Nat × OutputData)) : RState :=
  match frags with
  | [] => s
  | (idx, _) :: rest => killAll (killSlot s idx) rest

/-- Modelled from the spec: one CopyBuffer call.  The copy error oracle is
consulted at the current copy counter; on success the destination (a
pinned buffer or a response output buffer) receives the given bytes and
cuda_used reports whether the stream was used; on failure nothing is
written and cuda_used is false.  The invocation is appended to the
trace. -/
def copyBuffer (cfg : Config) (srcMem dstMem : MemType) (size : Nat)
    (src : CopySrc) (dst : CopyDst) (bytes : List Nat) (s : RState) :
    RState × Bool × Bool :=
  let err := cfg.copyErr.getD s.copyCount false
  let cuda := if err then false else cudaUsed srcMem dstMem
  let s1 := { s with
      copyCount := s.copyCount + 1
      trace := s.trace ++ [Ev.copy ⟨src, dst, srcMem, dstMem, size, cuda, err⟩] }
  let s2 :=
    if err then s1
    else
      match dst with
      | CopyDst.pinned pid => { s1 with pinnedContents := s1.pinnedContents.set pid bytes }
      | CopyDst.resp idx =>
          { s1 with slots := modifySlot s1.slots idx (fun sl => { sl with content := some bytes }) }
  (s2, cuda, err)

/-- The pinned allocation attempt at the head of FlushPendingPinned (lines
266 to 276): only attempted when the pending byte size is positive; on
failure the pinned pointer stays null.  A successful allocation appends a
fresh (uninitialized, modelled as zero) buffer and returns its index. -/
def allocPinned (cfg : Config) (s : RState) : RState × Option Nat :=
  if s.pendingBytes > 0 then
    let ok := cfg.pinnedAllocOk.getD s.allocCount true
    let s1 := { s with
        allocCount := s.allocCount + 1
        trace := s.trace ++ [Ev.alloc s.pendingBytes ok] }
    if ok then
      ({ s1 with pinnedContents := s1.pinnedContents ++ [List.replicate s.pendingBytes 0] },
       some s1.pinnedContents.length)
    else (s1, none)
  else (s, none)

/-- The direct per-fragment copies of the allocation-failure path of
FlushPendingPinned (lines 280 to 299): each fragment is copied straight
from the tensor buffer at base plus the running offset into its response
buffer, failing the response on a copy error. -/
def directCopies (cfg : Config) (srcMem : MemType) (buf : List Nat) (base : Nat)
    (frags : List (Nat × OutputData)) (off : Nat) (s : RState) : RState × Bool :=
  match frags with
  | [] => (s, false)
  | (idx, od) :: rest =>
    let r := copyBuffer cfg srcMem od.memType od.size (CopySrc.tensor (base + off))
               (CopyDst.resp idx) (sliceBytes buf (base + off) od.size) s
    let s1 := if r.2.2 then killSlot r.1 idx else r.1
    let r2 := directCopies cfg srcMem buf base rest (off + od.size) s1
    (r2.1, r.2.1 || r2.2)

/-- The per-fragment copies out of a pinned buffer (lines 337 to 356 of
FlushPendingPinned, also the fan-out loop of Finalize at lines 163 to
184): each fragment receives the slice of the pinned buffer at the running
offset, failing the response on a copy error. -/
def fanoutCopies (cfg : Config) (pid : Nat) (frags : List (Nat × OutputData))
    (off : Nat) (s : RState) : RState × Bool :=
  match frags with
  | [] => (s, false)
  | (idx, od) :: rest =>
    let bytes := sliceBytes (s.pinnedContents.getD pid []) off od.size
    let r := copyBuffer cfg MemType.CPU_PINNED od.memType od.size
               (CopySrc.pinnedBuf pid off) (CopyDst.resp idx) bytes s
    let s1 := if r.2.2 then killSlot r.1 idx else r.1
    let r2 := fanoutCopies cfg pid rest (off + od.size) s1
    (r2.1, r.2.1 || r2.2)

/-- FlushPendingPinned (lines 254 to 376).  Attempt a pinned allocation;
without a pinned buffer fall back to direct per-fragment copies; with one,
issue a single bulk copy of the pending range into it, fail every pending
response if the bulk copy errors, then either immediately fan out (bulk
copy synchronous) or record a deferred pinned block (bulk copy
asynchronous).  The pending run is reset and an allocated pinned buffer is
retained on pinned_memories_. -/
def FlushPendingPinned (cfg : Config) (buf : List Nat) (tensorMem : MemType)
    (s : RState) : RState × Bool :=
  let a := allocPinned cfg s
  match a.2 with
  | none =>
    let r := directCopies cfg tensorMem buf a.1.pendingOffset a.1.pendingOutputs 0 a.1
    ({ r.1 with pendingBytes := 0, pendingOffset := 0, pendingOutputs := [] }, r.2)
  | some pid =>
    let r := copyBuffer cfg tensorMem MemType.CPU_PINNED a.1.pendingBytes
               (CopySrc.tensor a.1.pendingOffset) (CopyDst.pinned pid)
               (sliceBytes buf a.1.pendingOffset a.1.pendingBytes) a.1
    let s1 := if r.2.2 then killAll r.1 r.1.pendingOutputs else r.1
    let r2 :=
      if r.2.1 = false then fanoutCopies cfg pid s1.pendingOutputs 0 s1
      else ({ s1 with deferred := s1.deferred ++ [⟨pid, s1.pendingBytes, s1.pendingOutputs⟩] },
            false)
    ({ r2.1 with
        pendingBytes := 0, pendingOffset := 0, pendingOutputs := []
        pinnedMemories := r2.1.pinnedMemories ++ [pid] },
     r.2.1 || r2.2)

/-- The shape used for a response (lines 84 to 95): with a positive
max_batch_size the first dimension is replaced by the batch dimension of
that request's first input; otherwise batchn_shape is used verbatim. -/
def respShape (cfg : Config) (ta : TensorArgs) (idx : Nat) : List Nat :=
  if cfg.maxBatchSize ≠ 0 then (cfg.reqs.getD idx default).batchDim :: ta.shape.drop 1
  else ta.shape

/-- The byte size of the output tensor of one response (line 98). -/
def respSize (cfg : Config) (ta : TensorArgs) (idx : Nat) : Nat :=
  GetByteSize ta.datatype (respShape cfg ta idx)

/-- Whether the request at an index asked for the processed output name
(the name lookup loop at lines 108 to 115). -/
def requested (cfg : Config) (ta : TensorArgs) (idx : Nat) : Bool :=
  (cfg.reqs.getD idx default).requestedOutputs.contains ta.outputName

/-- Whether TRITONBACKEND_OutputBuffer fails for the response at an
index. -/
def allocFailsAt (cfg : Config) (idx : Nat) : Bool :=
  (cfg.reqs.getD idx default).allocFails

/-- SetFixedSizeOutputBuffer (lines 198 to 252).  Allocate the response
output buffer (the response may override the memory type; failure fails
the response and returns).  When the actual memory type matches
use_pinned_memory_type the response is recorded on the pending pinned run;
otherwise the slice of the tensor buffer is copied directly into the
response buffer. -/
def SetFixedSizeOutputBuffer (cfg : Config) (ta : TensorArgs) (up : MemType)
    (idx : Nat) (size off : Nat) (s : RState) : RState × Bool :=
  let req := cfg.reqs.getD idx default
  if req.allocFails then (killSlot s idx, false)
  else if up ≠ MemType.CPU_PINNED ∧ req.allocMemType = up then
    ({ s with
        pendingOffset := if s.pendingBytes = 0 then off else s.pendingOffset
        pendingBytes := s.pendingBytes + size
        pendingOutputs := s.pendingOutputs ++
          [(idx, ⟨ta.outputName, idx, size, req.allocMemType, req.allocMemTypeId, off⟩)] },
     false)
  else
    let r := copyBuffer cfg ta.memType req.allocMemType size (CopySrc.tensor off)
               (CopyDst.resp idx) (sliceBytes ta.buf off size) s
    (if r.2.2 then killSlot r.1 idx else r.1, r.2.1)

/-- Merge the cuda flag returned by a helper into need_sync_ (the
pattern need_sync_ |= f(...) at lines 81, 123 and 139). -/
def mergeSync (r : RState × Bool) : RState :=
  { r.1 with needSync := r.1.needSync || r.2 }

/-- The response handling body of one loop iteration of ProcessTensor
(lines 100 to 133): when the response is still live and the request asked
for this output (the accessors themselves are error free in this model),
the output is created and SetFixedSizeOutputBuffer runs; otherwise nothing
happens. -/
def respondStep (cfg : Config) (ta : TensorArgs) (up : MemType) (idx : Nat)
    (s : RState) (off : Nat) : RState :=
  if (slotAt s idx).alive = true ∧ requested cfg ta idx = true then
    mergeSync (SetFixedSizeOutputBuffer cfg ta up idx (respSize cfg ta idx) off s)
  else s

/-- The contiguity check at the top of one loop iteration (lines 78 to
82): a pending run that does not end exactly at the current tensor_offset
is flushed first. -/
def flushStep (cfg : Config) (ta : TensorArgs) (s : RState) (off : Nat) : RState :=
  if s.pendingBytes > 0 ∧ off ≠ s.pendingBytes + s.pendingOffset then
    mergeSync (FlushPendingPinned cfg ta.buf ta.memType s)
  else s

/-- One loop iteration of ProcessTensor (lines 70 to 136): conditional
flush, response handling, and the advance of tensor_offset by the byte
size of this response's output. -/
def processOne (cfg : Config) (ta : TensorArgs) (up : MemType) (idx : Nat)
    (s : RState) (off : Nat) : RState × Nat :=
  let s1 := flushStep cfg ta s off
  (respondStep cfg ta up idx s1 off, off + respSize cfg ta idx)

/-- The request loop of ProcessTensor over a list of response indices. -/
def processLoop (cfg : Config) (ta : TensorArgs) (up : MemType)
    (idxs : List Nat) (s : RState) (off : Nat) : RState × Nat :=
  match idxs with
  | [] => (s, off)
  | i :: rest =>
    let r := processOne cfg ta up i s off
    processLoop cfg ta up rest r.1 r.2

/-- The use_pinned_memory_type computation at lines 55 to 65: CPU_PINNED
means no staging; otherwise staging applies to responses whose actual
memory type is GPU for a CPU source and CPU for any other source. -/
def usePinnedMemoryType (pinnedEnabled : Bool) (memType : MemType) : MemType :=
  if pinnedEnabled = true ∧ memType ≠ MemType.CPU_PINNED then
    if memType = MemType.CPU then MemType.GPU else MemType.CPU
  else MemType.CPU_PINNED

/-- ProcessTensor (lines 49 to 145): iterate the responses, flush the
remaining pending run, and record the event when need_sync_ is set and an
event was supplied. -/
def ProcessTensor (cfg : Config) (ta : TensorArgs) (s : RState) : RState :=
  let up := usePinnedMemoryType cfg.pinnedEnabled ta.memType
  let r := processLoop cfg ta up (List.range s.slots.length) s 0
  let s1 := mergeSync (FlushPendingPinned cfg ta.buf ta.memType r.1)
  if s1.needSync = true ∧ cfg.hasEvent = true then
    { s1 with trace := s1.trace ++ [Ev.record] }
  else s1

/-- The fan-out over the deferred pinned blocks in Finalize (lines 163 to
185), latching need_sync_ with every cuda copy. -/
def finalizeBlocks (cfg : Config) (blocks : List DeferredPinned) (s : RState) : RState :=
  match blocks with
  | [] => s
  | b :: rest =>
    let r := fanoutCopies cfg b.pid b.frags 0 s
    finalizeBlocks cfg rest { r.1 with needSync := r.1.needSync || r.2 }

/-- Finalize (lines 147 to 196): synchronize (on the event when provided,
else on the stream) when deferred blocks exist and need_sync_ is set,
clearing need_sync_; fan out every deferred block; re-record the event
when new asynchronous copies were issued; clear the deferred list and
return need_sync_. -/
def Finalize (cfg : Config) (s : RState) : RState × Bool :=
  let s1 :=
    if s.deferred ≠ [] ∧ s.needSync = true then
      { s with needSync := false, trace := s.trace ++ [Ev.sync cfg.hasEvent] }
    else s
  let s2 := finalizeBlocks cfg s1.deferred s1
  let s3 :=
    if s2.deferred ≠ [] ∧ s2.needSync = true ∧ cfg.hasEvent = true then
      { s2 with trace := s2.trace ++ [Ev.record] }
    else s2
  let s4 := { s3 with deferred := [] }
  (s4, s4.needSync)

/-- The byte offset at which the output slice of response k starts: the
sum of the output byte sizes of all earlier responses (the running
tensor_offset of the loop). -/
def respOffset (cfg : Config) (ta : TensorArgs) (k : Nat) : Nat :=
  ((List.range k).map (respSize cfg ta)).sum

/-- The slice of the source buffer that belongs to response idx. -/
def expectedSlice (cfg : Config) (ta : TensorArgs) (idx : Nat) : List Nat :=
  sliceBytes ta.buf (respOffset cfg ta idx) (respSize cfg ta idx)

/-- A response index that will receive its output bytes: initially live,
its request asked for the output, and its buffer allocation succeeds. -/
def activeB (cfg : Config) (ta : TensorArgs) (alive0 : List Bool) (idx : Nat) : Bool :=
  alive0.getD idx false && requested cfg ta idx && !(allocFailsAt cfg idx)

/-- The aliveness of a slot after the first k responses were processed
with no copy errors: a slot dies exactly when its buffer allocation
failed. -/
def aliveSpec (cfg : Config) (ta : TensorArgs) (alive0 : List Bool) (k idx : Nat) : Bool :=
  alive0.getD idx false && !(decide (idx < k) && requested cfg ta idx && allocFailsAt cfg idx)

/-- The response indices recorded on the pending pinned run. -/
def pendingIdxs (s : RState) : List Nat :=
  s.pendingOutputs.map Prod.fst

/-- The response indices recorded in deferred pinned blocks. -/
def deferredIdxs (s : RState) : List Nat :=
  s.deferred.flatMap (fun b => b.frags.map Prod.fst)

/-- The total byte size of a fragment list. -/
def fragsSizes (frags : List (Nat × OutputData)) : Nat :=
  (frags.map (fun p => p.2.size)).sum

/-- The fragments of a pending run read the right bytes: walking the run
from byte position base, each fragment has the byte size of its response
and the tensor-buffer slice at its position equals the slice the response
expects. -/
def goodFrags (cfg : Config) (ta : TensorArgs) (base : Nat) :
    List (Nat × OutputData) → Prop
  | [] => True
  | (idx, od) :: rest =>
      od.size = respSize cfg ta idx ∧
      sliceBytes ta.buf base od.size = expectedSlice cfg ta idx ∧
      goodFrags cfg ta (base + od.size) rest

/-- The fragments of a deferred block read the right bytes out of the
pinned buffer contents pc. -/
def goodPinned (cfg : Config) (ta : TensorArgs) (pc : List Nat) (pos : Nat) :
    List (Nat × OutputData) → Prop
  | [] => True
  | (idx, od) :: rest =>
      od.size = respSize cfg ta idx ∧
      sliceBytes pc pos od.size = expectedSlice cfg ta idx ∧
      goodPinned cfg ta pc (pos + od.size) rest

/-- The fragments occupy consecutive positions of the destination tensor
starting at base (stated through the ghost field srcOff). -/
def contiguousFrags (base : Nat) : List (Nat × OutputData) → Prop
  | [] => True
  | (_, od) :: rest => od.srcOff = base ∧ contiguousFrags (base + od.size) rest

/-- The pending-run invariant of the spec: the recorded byte size is the
sum of the fragment sizes, the fragments occupy exactly the contiguous
range starting at the recorded offset, and every fragment is nonempty. -/
def pendingRunInv (s : RState) : Prop :=
  s.pendingBytes = fragsSizes s.pendingOutputs ∧
  contiguousFrags s.pendingOffset s.pendingOutputs ∧
  ∀ p ∈ s.pendingOutputs, 0 < p.2.size

/-- The trace of an error-free direct-copy fan-out from the tensor buffer. -/
def directEvents (srcMem : MemType) (base : Nat) :
    List (Nat × OutputData) → Nat → List Ev
  | [], _ => []
  | (idx, od) :: rest, off =>
      Ev.copy ⟨CopySrc.tensor (base + off), CopyDst.resp idx, srcMem, od.memType,
               od.size, cudaUsed srcMem od.memType, false⟩ ::
      directEvents srcMem base rest (off + od.size)

/-- The trace of an error-free fan-out from a pinned buffer. -/
def fanoutEvents (pid : Nat) : List (Nat × OutputData) → Nat → List Ev
  | [], _ => []
  | (idx, od) :: rest, off =>
      Ev.copy ⟨CopySrc.pinnedBuf pid off, CopyDst.resp idx, MemType.CPU_PINNED,
               od.memType, od.size, cudaUsed MemType.CPU_PINNED od.memType, false⟩ ::
      fanoutEvents pid rest (off + od.size)

/-- The trace of the error-free fan-out of a list of deferred blocks. -/
def deferredEvents : List DeferredPinned → List Ev
  | [] => []
  | b :: rest => fanoutEvents b.pid b.frags 0 ++ deferredEvents rest

/-- Whether any fragment of any block lands on device memory (those
fan-out copies are asynchronous). -/
def anyGPUFrag (blocks : List DeferredPinned) : Bool :=
  blocks.any (fun b => b.frags.any (fun p => p.2.memType == MemType.GPU))

/-! ### Generic list access lemmas -/

theorem getD_set_self {α : Type _} (l : List α) (i : Nat) (a d : α)
    (h : i < l.length) : (l.set i a).getD i d = a := by
  simp [List.getD, List.getElem?_set_eq_of_lt, h]

theorem getD_set_ne {α : Type _} (l : List α) (i j : Nat) (a d : α)
    (h : i ≠ j) : (l.set i a).getD j d = l.getD j d := by
  simp [List.getD, List.getElem?_set_ne h]

theorem getD_map_lt {α β : Type _} (l : List α) (f : α → β) (i : Nat) (d : β) (d' : α)
    (h : i < l.length) : (l.map f).getD i d = f (l.getD i d') := by
  simp [List.getD, List.getElem?_map, List.getElem?_eq_getElem h]

theorem getD_append_left {α : Type _} (l1 l2 : List α) (i : Nat) (d : α)
    (h : i < l1.length) : (l1 ++ l2).getD i d = l1.getD i d := by
  simp [List.getD, List.getElem?_append_left h]

theorem getD_ge {α : Type _} (l : List α) (i : Nat) (d : α)
    (h : l.length ≤ i) : l.getD i d = d := by
  simp [List.getD, List.getElem?_eq_none h]

theorem modifySlot_length (l : List Slot) (idx : Nat) (f : Slot → Slot) :
    (modifySlot l idx f).length = l.length := by
  simp [modifySlot]

theorem getD_modifySlot_self (l : List Slot) (idx : Nat) (f : Slot → Slot) (d : Slot)
    (h : idx < l.length) :
    (modifySlot l idx f).getD idx d = f (l.getD idx ⟨false, none⟩) := by
  unfold modifySlot
  rw [getD_set_self _ _ _ _ h]

theorem getD_modifySlot_ne (l : List Slot) (idx j : Nat) (f : Slot → Slot) (d : Slot)
    (h : idx ≠ j) : (modifySlot l idx f).getD j d = l.getD j d := by
  unfold modifySlot
  rw [getD_set_ne _ _ _ _ _ h]

theorem modifySlot_ge (l : List Slot) (idx : Nat) (f : Slot → Slot)
    (h : l.length ≤ idx) : modifySlot l idx f = l :=
  List.set_eq_of_length_le h

/-! ### Frame lemmas for killSlot -/

theorem killSlot_fields (s : RState) (idx : Nat) :
    (killSlot s idx).pendingBytes = s.pendingBytes ∧
    (killSlot s idx).pendingOffset = s.pendingOffset ∧
    (killSlot s idx).pendingOutputs = s.pendingOutputs ∧
    (killSlot s idx).deferred = s.deferred ∧
    (killSlot s idx).pinnedMemories = s.pinnedMemories ∧
    (killSlot s idx).pinnedContents = s.pinnedContents ∧
    (killSlot s idx).needSync = s.needSync ∧
    (killSlot s idx).copyCount = s.copyCount ∧
    (killSlot s idx).allocCount = s.allocCount := by
  unfold killSlot; split <;> simp

theorem killSlot_slots_length (s : RState) (idx : Nat) :
    (killSlot s idx).slots.length = s.slots.length := by
  unfold killSlot; split <;> simp [modifySlot_length]

theorem slotAt_killSlot_content (s : RState) (idx j : Nat) :
    (slotAt (killSlot s idx) j).content = (slotAt s j).content := by
  unfold killSlot
  split
  · by_cases hi : idx < s.slots.length
    · by_cases hj : idx = j
      · subst hj
        simp only [slotAt]
        rw [getD_modifySlot_self _ _ _ _ hi]
      · simp only [slotAt]
        rw [getD_modifySlot_ne _ _ _ _ _ hj]
    · simp only [slotAt]
      rw [modifySlot_ge _ _ _ (Nat.le_of_not_lt hi)]
  · rfl

theorem slotAt_killSlot_ne (s : RState) (idx j : Nat) (h : j ≠ idx) :
    slotAt (killSlot s idx) j = slotAt s j := by
  unfold killSlot
  split
  · simp only [slotAt]
    rw [getD_modifySlot_ne _ _ _ _ _ (Ne.symm h)]
  · rfl

theorem slotAt_killSlot_alive_self (s : RState) (idx : Nat) :
    (slotAt (killSlot s idx) idx).alive = false := by
  unfold killSlot
  split
  · rename_i ha
    by_cases hi : idx < s.slots.length
    · simp only [slotAt]
      rw [getD_modifySlot_self _ _ _ _ hi]
    · exfalso
      rw [slotAt, getD_ge _ _ _ (Nat.le_of_not_lt hi)] at ha
      simp at ha
  · rename_i ha
    simpa using ha

theorem killSlot_alive_mono (s : RState) (idx j : Nat)
    (h : (slotAt s j).alive = false) : (slotAt (killSlot s idx) j).alive = false := by
  by_cases hj : j = idx
  · subst hj; exact slotAt_killSlot_alive_self s j
  · rw [slotAt_killSlot_ne s idx j hj]; exact h

theorem killSlot_trace (s : RState) (idx : Nat) :
    (killSlot s idx).trace =
      s.trace ++ (if (slotAt s idx).alive then [Ev.send idx] else []) := by
  unfold killSlot
  split <;> simp_all

/-! ### Frame lemmas for copyBuffer -/

theorem copyBuffer_fields (cfg : Config) (sm dm : MemType) (size : Nat)
    (src : CopySrc) (dst : CopyDst) (bytes : List Nat) (s : RState) :
    (copyBuffer cfg sm dm size src dst bytes s).1.pendingBytes = s.pendingBytes ∧
    (copyBuffer cfg sm dm size src dst bytes s).1.pendingOffset = s.pendingOffset ∧
    (copyBuffer cfg sm dm size src dst bytes s).1.pendingOutputs = s.pendingOutputs ∧
    (copyBuffer cfg sm dm size src dst bytes s).1.deferred = s.deferred ∧
    (copyBuffer cfg sm dm size src dst bytes s).1.pinnedMemories = s.pinnedMemories ∧
    (copyBuffer cfg sm dm size src dst bytes s).1.needSync = s.needSync ∧
    (copyBuffer cfg sm dm size src dst bytes s).1.allocCount = s.allocCount ∧
    (copyBuffer cfg sm dm size src dst bytes s).1.copyCount = s.copyCount + 1 := by
  unfold copyBuffer
  dsimp only
  split
  · simp
  · cases dst <;> simp

theorem copyBuffer_err (cfg : Config) (sm dm : MemType) (size : Nat)
    (src : CopySrc) (dst : CopyDst) (bytes : List Nat) (s : RState) :
    (copyBuffer cfg sm dm size src dst bytes s).2.2 =
      cfg.copyErr.getD s.copyCount false := by
  unfold copyBuffer
  dsimp only

theorem copyBuffer_cuda (cfg : Config) (sm dm : MemType) (size : Nat)
    (src : CopySrc) (dst : CopyDst) (bytes : List Nat) (s : RState) :
    (copyBuffer cfg sm dm size src dst bytes s).2.1 =
      (if cfg.copyErr.getD s.copyCount false then false else cudaUsed sm dm) := by
  unfold copyBuffer
  dsimp only

theorem copyBuffer_trace (cfg : Config) (sm dm : MemType) (size : Nat)
    (src : CopySrc) (dst : CopyDst) (bytes : List Nat) (s : RState) :
    (copyBuffer cfg sm dm size src dst bytes s).1.trace =
      s.trace ++ [Ev.copy ⟨src, dst, sm, dm, size,
        (if cfg.copyErr.getD s.copyCount false then false else cudaUsed sm dm),
        cfg.copyErr.getD s.copyCount false⟩] := by
  unfold copyBuffer
  dsimp only
  split
  · simp
  · cases dst <;> simp

theorem copyBuffer_slots_length (cfg : Config) (sm dm : MemType) (size : Nat)
    (src : CopySrc) (dst : CopyDst) (bytes : List Nat) (s : RState) :
    (copyBuffer cfg sm dm size src dst bytes s).1.slots.length = s.slots.length := by
  unfold copyBuffer
  dsimp only
  split
  · rfl
  · cases dst <;> simp [modifySlot_length]

theorem copyBuffer_pinned_slots (cfg : Config) (sm dm : MemType) (size : Nat)
    (src : CopySrc) (pid : Nat) (bytes : List Nat) (s : RState) :
    (copyBuffer cfg sm dm size src (CopyDst.pinned pid) bytes s).1.slots = s.slots := by
  unfold copyBuffer
  dsimp only
  split <;> rfl

theorem copyBuffer_resp_pinnedContents (cfg : Config) (sm dm : MemType) (size : Nat)
    (src : CopySrc) (idx : Nat) (bytes : List Nat) (s : RState) :
    (copyBuffer cfg sm dm size src (CopyDst.resp idx) bytes s).1.pinnedContents =
      s.pinnedContents := by
  unfold copyBuffer
  dsimp only
  split <;> rfl

theorem copyBuffer_noerr_pinned_write (cfg : Config) (sm dm : MemType) (size : Nat)
    (src : CopySrc) (pid : Nat) (bytes : List Nat) (s : RState)
    (h : cfg.copyErr.getD s.copyCount false = false) :
    (copyBuffer cfg sm dm size src (CopyDst.pinned pid) bytes s).1.pinnedContents =
      s.pinnedContents.set pid bytes := by
  unfold copyBuffer
  dsimp only
  rw [if_neg (by rw [h]; simp)]

theorem copyBuffer_err_state (cfg : Config) (sm dm : MemType) (size : Nat)
    (src : CopySrc) (dst : CopyDst) (bytes : List Nat) (s : RState)
    (h : cfg.copyErr.getD s.copyCount false = true) :
    (copyBuffer cfg sm dm size src dst bytes s).1.slots = s.slots ∧
    (copyBuffer cfg sm dm size src dst bytes s).1.pinnedContents = s.pinnedContents := by
  unfold copyBuffer
  dsimp only
  rw [if_pos h]
  exact ⟨rfl, rfl⟩

theorem copyBuffer_noerr_resp_write (cfg : Config) (sm dm : MemType) (size : Nat)
    (src : CopySrc) (idx : Nat) (bytes : List Nat) (s : RState)
    (h : cfg.copyErr.getD s.copyCount false = false) :
    (∀ j, (slotAt (copyBuffer cfg sm dm size src (CopyDst.resp idx) bytes s).1 j).alive =
      (slotAt s j).alive) ∧
    (∀ j, j ≠ idx →
      slotAt (copyBuffer cfg sm dm size src (CopyDst.resp idx) bytes s).1 j = slotAt s j) ∧
    (idx < s.slots.length →
      (slotAt (copyBuffer cfg sm dm size src (CopyDst.resp idx) bytes s).1 idx).content =
        some bytes) := by
  unfold copyBuffer
  dsimp only
  rw [if_neg (by rw [h]; simp)]
  refine ⟨?_, ?_, ?_⟩
  · intro j
    by_cases hj : j = idx
    · subst hj
      by_cases hi : j < s.slots.length
      · simp only [slotAt]
        rw [getD_modifySlot_self _ _ _ _ hi]
      · simp only [slotAt]
        rw [modifySlot_ge _ _ _ (Nat.le_of_not_lt hi)]
    · simp only [slotAt]
      rw [getD_modifySlot_ne _ _ _ _ _ (Ne.symm hj)]
  · intro j hj
    simp only [slotAt]
    rw [getD_modifySlot_ne _ _ _ _ _ (Ne.symm hj)]
  · intro hi
    simp only [slotAt]
    rw [getD_modifySlot_self _ _ _ _ hi]

/-! ### Frame lemmas for killAll -/

theorem killAll_fields (frags : List (Nat × OutputData)) (s : RState) :
    (killAll s frags).pendingBytes = s.pendingBytes ∧
    (killAll s frags).pendingOffset = s.pendingOffset ∧
    (killAll s frags).pendingOutputs = s.pendingOutputs ∧
    (killAll s frags).deferred = s.deferred ∧
    (killAll s frags).pinnedMemories = s.pinnedMemories ∧
    (killAll s frags).pinnedContents = s.pinnedContents ∧
    (killAll s frags).needSync = s.needSync ∧
    (killAll s frags).copyCount = s.copyCount ∧
    (killAll s frags).allocCount = s.allocCount ∧
    (killAll s frags).slots.length = s.slots.length := by
  induction frags generalizing s with
  | nil => simp [killAll]
  | cons p rest ih =>
    obtain ⟨idx, od⟩ := p
    obtain ⟨b1, b2, b3, b4, b5, b6, b7, b8, b9⟩ := killSlot_fields s idx
    have b10 := killSlot_slots_length s idx
    obtain ⟨a1, a2, a3, a4, a5, a6, a7, a8, a9, a10⟩ := ih (killSlot s idx)
    simp only [killAll]
    exact ⟨a1.trans b1, a2.trans b2, a3.trans b3, a4.trans b4, a5.trans b5,
      a6.trans b6, a7.trans b7, a8.trans b8, a9.trans b9, a10.trans b10⟩

theorem slotAt_killAll_content (frags : List (Nat × OutputData)) (s : RState) (j : Nat) :
    (slotAt (killAll s frags) j).content = (slotAt s j).content := by
  induction frags generalizing s with
  | nil => rfl
  | cons p rest ih =>
    obtain ⟨idx, od⟩ := p
    simp only [killAll]
    rw [ih (killSlot s idx), slotAt_killSlot_content]

theorem slotAt_killAll_ne (frags : List (Nat × OutputData)) (s : RState) (j : Nat)
    (h : j ∉ frags.map Prod.fst) : slotAt (killAll s frags) j = slotAt s j := by
  induction frags generalizing s with
  | nil => rfl
  | cons p rest ih =>
    obtain ⟨idx, od⟩ := p
    simp only [List.map_cons, List.mem_cons, not_or] at h
    simp only [killAll]
    rw [ih (killSlot s idx) h.2, slotAt_killSlot_ne _ _ _ h.1]

theorem killAll_alive_mono (frags : List (Nat × OutputData)) (s : RState) (j : Nat)
    (h : (slotAt s j).alive = false) : (slotAt (killAll s frags) j).alive = false := by
  induction frags generalizing s with
  | nil => exact h
  | cons p rest ih =>
    obtain ⟨idx, od⟩ := p
    simp only [killAll]
    exact ih (killSlot s idx) (killSlot_alive_mono s idx j h)

theorem slotAt_killAll_alive_mem (frags : List (Nat × OutputData)) (s : RState)
    (p : Nat × OutputData) (hp : p ∈ frags) :
    (slotAt (killAll s frags) p.1).alive = false := by
  induction frags generalizing s with
  | nil => cases hp
  | cons q rest ih =>
    obtain ⟨idx, od⟩ := q
    simp only [killAll]
    rcases List.mem_cons.mp hp with h | h
    · rw [h]
      exact killAll_alive_mono rest (killSlot s idx) idx (slotAt_killSlot_alive_self s idx)
    · exact ih (killSlot s idx) h

theorem killAll_trace (frags : List (Nat × OutputData)) (s : RState) :
    ∃ evs, (killAll s frags).trace = s.trace ++ evs ∧
      (∀ i, Ev.send i ∈ evs ↔ (i ∈ frags.map Prod.fst ∧ (slotAt s i).alive = true)) ∧
      (∀ e ∈ evs, ∃ i, e = Ev.send i) := by
  induction frags generalizing s with
  | nil =>
    refine ⟨[], by simp [killAll], ?_, by simp⟩
    intro i
    simp
  | cons p rest ih =>
    obtain ⟨idx, od⟩ := p
    obtain ⟨evs1, h1, h2, h3⟩ := ih (killSlot s idx)
    refine ⟨(if (slotAt s idx).alive then [Ev.send idx] else []) ++ evs1, ?_, ?_, ?_⟩
    · simp only [killAll]
      rw [h1, killSlot_trace, List.append_assoc]
    · intro i
      have hmap : (((idx, od) :: rest).map Prod.fst) = idx :: rest.map Prod.fst := rfl
      rw [hmap]
      constructor
      · intro hmem
        rcases List.mem_append.mp hmem with hm | hm
        · by_cases ha : (slotAt s idx).alive = true
          · rw [if_pos ha] at hm
            have hii : i = idx := by
              have := List.mem_singleton.mp hm
              injection this
            rw [hii]
            exact ⟨List.mem_cons_self _ _, ha⟩
          · rw [if_neg ha] at hm
            cases hm
        · obtain ⟨hmr, har⟩ := (h2 i).mp hm
          refine ⟨List.mem_cons_of_mem _ hmr, ?_⟩
          by_cases hij : i = idx
          · exfalso
            rw [hij, slotAt_killSlot_alive_self] at har
            exact Bool.noConfusion har
          · rwa [slotAt_killSlot_ne _ _ _ hij] at har
      · rintro ⟨hmem, halive⟩
        rcases List.mem_cons.mp hmem with hm | hm
        · apply List.mem_append.mpr
          left
          rw [hm] at halive
          rw [hm, if_pos halive]
          exact List.mem_singleton.mpr rfl
        · by_cases hij : i = idx
          · apply List.mem_append.mpr
            left
            rw [hij] at halive
            rw [hij, if_pos halive]
            exact List.mem_singleton.mpr rfl
          · apply List.mem_append.mpr
            right
            apply (h2 i).mpr
            exact ⟨hm, by rw [slotAt_killSlot_ne _ _ _ hij]; exact halive⟩
    · intro e he
      rcases List.mem_append.mp he with hm | hm
      · by_cases ha : (slotAt s idx).alive = true
        · rw [if_pos ha] at hm
          exact ⟨idx, List.mem_singleton.mp hm⟩
        · rw [if_neg ha] at hm
          cases hm
      · exact h3 e hm

/-! ### Frames preserved by response-directed copies -/

/-- The state components that a response-directed copy or a response kill
can never change. -/
structure Frame where
  pendingBytes : Nat
  pendingOffset : Nat
  pendingOutputs : List (Nat × OutputData)
  deferred : List DeferredPinned
  pinnedMemories : List Nat
  pinnedContents : List (List Nat)
  needSync : Bool
  allocCount : Nat
  slotsLen : Nat
deriving DecidableEq

/-- Project the preserved frame out of a state. -/
def frameOf (s : RState) : Frame :=
  ⟨s.pendingBytes, s.pendingOffset, s.pendingOutputs, s.deferred, s.pinnedMemories,
   s.pinnedContents, s.needSync, s.allocCount, s.slots.length⟩

theorem frameOf_killSlot (s : RState) (idx : Nat) :
    frameOf (killSlot s idx) = frameOf s := by
  obtain ⟨h1, h2, h3, h4, h5, h6, h7, h8, h9⟩ := killSlot_fields s idx
  have h10 := killSlot_slots_length s idx
  simp [frameOf, h1, h2, h3, h4, h5, h6, h7, h8, h9, h10]

theorem frameOf_copyBuffer_resp (cfg : Config) (sm dm : MemType) (size : Nat)
    (src : CopySrc) (idx : Nat) (bytes : List Nat) (s : RState) :
    frameOf (copyBuffer cfg sm dm size src (CopyDst.resp idx) bytes s).1 = frameOf s := by
  obtain ⟨h1, h2, h3, h4, h5, h6, h7, h8⟩ :=
    copyBuffer_fields cfg sm dm size src (CopyDst.resp idx) bytes s
  have h9 := copyBuffer_resp_pinnedContents cfg sm dm size src idx bytes s
  have h10 := copyBuffer_slots_length cfg sm dm size src (CopyDst.resp idx) bytes s
  simp [frameOf, h1, h2, h3, h4, h5, h6, h7, h9, h10]

theorem frameOf_killAll (s : RState) (frags : List (Nat × OutputData)) :
    frameOf (killAll s frags) = frameOf s := by
  obtain ⟨h1, h2, h3, h4, h5, h6, h7, h8, h9, h10⟩ := killAll_fields frags s
  simp [frameOf, h1, h2, h3, h4, h5, h6, h7, h9, h10]

theorem frameOf_directCopies (cfg : Config) (sm : MemType) (buf : List Nat) (base : Nat)
    (frags : List (Nat × OutputData)) (off : Nat) (s : RState) :
    frameOf (directCopies cfg sm buf base frags off s).1 = frameOf s := by
  induction frags generalizing off s with
  | nil => rfl
  | cons p rest ih =>
    obtain ⟨idx, od⟩ := p
    simp only [directCopies]
    refine ((ih _ _).trans ?_)
    split
    · rw [frameOf_killSlot, frameOf_copyBuffer_resp]
    · rw [frameOf_copyBuffer_resp]

theorem frameOf_fanoutCopies (cfg : Config) (pid : Nat)
    (frags : List (Nat × OutputData)) (off : Nat) (s : RState) :
    frameOf (fanoutCopies cfg pid frags off s).1 = frameOf s := by
  induction frags generalizing off s with
  | nil => rfl
  | cons p rest ih =>
    obtain ⟨idx, od⟩ := p
    simp only [fanoutCopies]
    refine ((ih _ _).trans ?_)
    split
    · rw [frameOf_killSlot, frameOf_copyBuffer_resp]
    · rw [frameOf_copyBuffer_resp]

/-- A copy never changes the aliveness of any slot. -/
theorem copyBuffer_alive (cfg : Config) (sm dm : MemType) (size : Nat)
    (src : CopySrc) (dst : CopyDst) (bytes : List Nat) (s : RState) (j : Nat) :
    (slotAt (copyBuffer cfg sm dm size src dst bytes s).1 j).alive = (slotAt s j).alive := by
  unfold copyBuffer
  dsimp only
  split
  · rfl
  · cases dst with
    | pinned pid => rfl
    | resp idx =>
      by_cases hj : j = idx
      · subst hj
        by_cases hi : j < s.slots.length
        · simp only [slotAt]
          rw [getD_modifySlot_self _ _ _ _ hi]
        · simp only [slotAt]
          rw [modifySlot_ge _ _ _ (Nat.le_of_not_lt hi)]
      · simp only [slotAt]
        rw [getD_modifySlot_ne _ _ _ _ _ (Ne.symm hj)]

/-- A copy to a response other than j leaves the slot of j unchanged. -/
theorem copyBuffer_slot_ne (cfg : Config) (sm dm : MemType) (size : Nat)
    (src : CopySrc) (idx : Nat) (bytes : List Nat) (s : RState) (j : Nat) (hj : j ≠ idx) :
    slotAt (copyBuffer cfg sm dm size src (CopyDst.resp idx) bytes s).1 j = slotAt s j := by
  unfold copyBuffer
  dsimp only
  split
  · rfl
  · simp only [slotAt]
    rw [getD_modifySlot_ne _ _ _ _ _ (Ne.symm hj)]

/-- With an empty error oracle no copy ever fails. -/
theorem copyErr_none (cfg : Config) (hE : cfg.copyErr = []) (c : Nat) :
    cfg.copyErr.getD c false = false := by
  rw [hE]
  simp [List.getD]

/-- Behaviour of the direct-copy fallback under an error-free copy oracle:
aliveness is untouched, every fragment index receives exactly its expected
slice of the source buffer, the returned flag is true exactly when some
fragment sits in device memory, and the trace grows by the direct copy
events. -/
theorem directCopies_spec (cfg : Config) (ta : TensorArgs) (sm : MemType) (base : Nat)
    (hE : cfg.copyErr = []) :
    ∀ (frags : List (Nat × OutputData)) (off : Nat) (s : RState),
    goodFrags cfg ta (base + off) frags →
    (∀ p ∈ frags, p.1 < s.slots.length) →
    (∀ j, (slotAt (directCopies cfg sm ta.buf base frags off s).1 j).alive =
      (slotAt s j).alive) ∧
    (∀ j, (slotAt (directCopies cfg sm ta.buf base frags off s).1 j).content =
      if j ∈ frags.map Prod.fst then some (expectedSlice cfg ta j)
      else (slotAt s j).content) ∧
    ((directCopies cfg sm ta.buf base frags off s).2 =
      frags.any (fun p => cudaUsed sm p.2.memType)) ∧
    ((directCopies cfg sm ta.buf base frags off s).1.trace =
      s.trace ++ directEvents sm base frags off) := by
  intro frags
  induction frags with
  | nil =>
    intro off s _ _
    exact ⟨fun j => rfl, fun j => by simp [directCopies, directEvents],
      by simp [directCopies], by simp [directCopies, directEvents]⟩
  | cons p rest ih =>
    obtain ⟨idx, od⟩ := p
    intro off s hgood hlen
    obtain ⟨hsz, hslice, hrest⟩ := hgood
    have herr := copyErr_none cfg hE s.copyCount
    have hrerr : (copyBuffer cfg sm od.memType od.size (CopySrc.tensor (base + off))
        (CopyDst.resp idx) (sliceBytes ta.buf (base + off) od.size) s).2.2 = false := by
      rw [copyBuffer_err]
      exact herr
    have hgood2 : goodFrags cfg ta (base + (off + od.size)) rest := by
      rw [← Nat.add_assoc]
      exact hrest
    have hlen2 : ∀ q ∈ rest, q.1 < (copyBuffer cfg sm od.memType od.size
        (CopySrc.tensor (base + off)) (CopyDst.resp idx)
        (sliceBytes ta.buf (base + off) od.size) s).1.slots.length := by
      intro q hq
      rw [copyBuffer_slots_length]
      exact hlen q (List.mem_cons_of_mem _ hq)
    obtain ⟨ha, hc, hcu, ht⟩ := ih (off + od.size) _ hgood2 hlen2
    obtain ⟨hwa, hwne, hwc⟩ := copyBuffer_noerr_resp_write cfg sm od.memType od.size
      (CopySrc.tensor (base + off)) idx (sliceBytes ta.buf (base + off) od.size) s herr
    simp only [directCopies, hrerr, Bool.false_eq_true, if_false]
    refine ⟨?_, ?_, ?_, ?_⟩
    · intro j
      exact (ha j).trans (hwa j)
    · intro j
      rw [hc j]
      by_cases hjr : j ∈ rest.map Prod.fst
      · rw [if_pos hjr, if_pos (by exact List.mem_cons_of_mem _ hjr)]
      · rw [if_neg hjr]
        by_cases hji : j = idx
        · subst hji
          have hin : j ∈ ((j, od) :: rest).map Prod.fst := List.mem_cons_self _ _
          rw [if_pos hin]
          rw [hwc (hlen _ (List.mem_cons_self _ _))]
          rw [hslice]
        · rw [hwne j hji]
          have hnin : j ∉ ((idx, od) :: rest).map Prod.fst := by
            intro hjin
            rcases List.mem_cons.mp hjin with h | h
            · exact hji h
            · exact hjr h
          rw [if_neg hnin]
    · rw [hcu, copyBuffer_cuda, herr, if_neg (by simp)]
      rfl
    · rw [ht, copyBuffer_trace, herr]
      simp only [Bool.false_eq_true, if_false]
      rw [List.append_assoc]
      rfl
/-- Behaviour of the pinned fan-out under an error-free copy oracle:
aliveness and pinned contents are untouched, every fragment index receives
exactly its expected slice, the returned flag is true exactly when some
fragment sits in device memory, and the trace grows by the fan-out
events. -/
theorem fanoutCopies_spec (cfg : Config) (ta : TensorArgs) (pid : Nat)
    (hE : cfg.copyErr = []) :
    ∀ (frags : List (Nat × OutputData)) (off : Nat) (s : RState),
    goodPinned cfg ta (s.pinnedContents.getD pid []) off frags →
    (∀ p ∈ frags, p.1 < s.slots.length) →
    (∀ j, (slotAt (fanoutCopies cfg pid frags off s).1 j).alive = (slotAt s j).alive) ∧
    (∀ j, (slotAt (fanoutCopies cfg pid frags off s).1 j).content =
      if j ∈ frags.map Prod.fst then some (expectedSlice cfg ta j)
      else (slotAt s j).content) ∧
    ((fanoutCopies cfg pid frags off s).2 =
      frags.any (fun p => cudaUsed MemType.CPU_PINNED p.2.memType)) ∧
    ((fanoutCopies cfg pid frags off s).1.trace =
      s.trace ++ fanoutEvents pid frags off) := by
  intro frags
  induction frags with
  | nil =>
    intro off s _ _
    exact ⟨fun j => rfl, fun j => by simp [fanoutCopies, fanoutEvents],
      by simp [fanoutCopies], by simp [fanoutCopies, fanoutEvents]⟩
  | cons p rest ih =>
    obtain ⟨idx, od⟩ := p
    intro off s hgood hlen
    obtain ⟨hsz, hslice, hrest⟩ := hgood
    have herr := copyErr_none cfg hE s.copyCount
    have hrerr : (copyBuffer cfg MemType.CPU_PINNED od.memType od.size
        (CopySrc.pinnedBuf pid off) (CopyDst.resp idx)
        (sliceBytes (s.pinnedContents.getD pid []) off od.size) s).2.2 = false := by
      rw [copyBuffer_err]
      exact herr
    have hpc : (copyBuffer cfg MemType.CPU_PINNED od.memType od.size
        (CopySrc.pinnedBuf pid off) (CopyDst.resp idx)
        (sliceBytes (s.pinnedContents.getD pid []) off od.size) s).1.pinnedContents =
        s.pinnedContents :=
      copyBuffer_resp_pinnedContents _ _ _ _ _ _ _ _
    have hgood2 : goodPinned cfg ta
        ((copyBuffer cfg MemType.CPU_PINNED od.memType od.size
          (CopySrc.pinnedBuf pid off) (CopyDst.resp idx)
          (sliceBytes (s.pinnedContents.getD pid []) off od.size) s).1.pinnedContents.getD
            pid []) (off + od.size) rest := by
      rw [hpc]
      exact hrest
    have hlen2 : ∀ q ∈ rest, q.1 < (copyBuffer cfg MemType.CPU_PINNED od.memType od.size
        (CopySrc.pinnedBuf pid off) (CopyDst.resp idx)
        (sliceBytes (s.pinnedContents.getD pid []) off od.size) s).1.slots.length := by
      intro q hq
      rw [copyBuffer_slots_length]
      exact hlen q (List.mem_cons_of_mem _ hq)
    obtain ⟨ha, hc, hcu, ht⟩ := ih (off + od.size) _ hgood2 hlen2
    obtain ⟨hwa, hwne, hwc⟩ := copyBuffer_noerr_resp_write cfg MemType.CPU_PINNED od.memType
      od.size (CopySrc.pinnedBuf pid off) idx
      (sliceBytes (s.pinnedContents.getD pid []) off od.size) s herr
    simp only [fanoutCopies, hrerr, Bool.false_eq_true, if_false]
    refine ⟨?_, ?_, ?_, ?_⟩
    · intro j
      exact (ha j).trans (hwa j)
    · intro j
      rw [hc j]
      by_cases hjr : j ∈ rest.map Prod.fst
      · rw [if_pos hjr, if_pos (by exact List.mem_cons_of_mem _ hjr)]
      · rw [if_neg hjr]
        by_cases hji : j = idx
        · subst hji
          have hin : j ∈ ((j, od) :: rest).map Prod.fst := List.mem_cons_self _ _
          rw [if_pos hin]
          rw [hwc (hlen _ (List.mem_cons_self _ _))]
          rw [hslice]
        · rw [hwne j hji]
          have hnin : j ∉ ((idx, od) :: rest).map Prod.fst := by
            intro hjin
            rcases List.mem_cons.mp hjin with h | h
            · exact hji h
            · exact hjr h
          rw [if_neg hnin]
    · rw [hcu, copyBuffer_cuda, herr, if_neg (by simp)]
      rfl
    · rw [ht, copyBuffer_trace, herr]
      simp only [Bool.false_eq_true, if_false]
      rw [List.append_assoc]
      rfl

/-- A fan-out never resurrects a dead slot, whatever the copy oracle. -/
theorem fanoutCopies_alive_mono (cfg : Config) (pid : Nat) :
    ∀ (frags : List (Nat × OutputData)) (off : Nat) (s : RState) (j : Nat),
    (slotAt s j).alive = false →
    (slotAt (fanoutCopies cfg pid frags off s).1 j).alive = false := by
  intro frags
  induction frags with
  | nil => intro off s j h; exact h
  | cons p rest ih =>
    obtain ⟨idx, od⟩ := p
    intro off s j h
    simp only [fanoutCopies]
    apply ih
    split
    · apply killSlot_alive_mono
      rw [copyBuffer_alive]
      exact h
    · rw [copyBuffer_alive]
      exact h

/-- A fan-out leaves the slots outside its fragment list unchanged,
whatever the copy oracle. -/
theorem fanoutCopies_slot_ne (cfg : Config) (pid : Nat) :
    ∀ (frags : List (Nat × OutputData)) (off : Nat) (s : RState) (j : Nat),
    j ∉ frags.map Prod.fst →
    slotAt (fanoutCopies cfg pid frags off s).1 j = slotAt s j := by
  intro frags
  induction frags with
  | nil => intro off s j _; rfl
  | cons p rest ih =>
    obtain ⟨idx, od⟩ := p
    intro off s j h
    have hj : j ≠ idx := by
      intro hh
      exact h (by rw [hh]; exact List.mem_cons_self _ _)
    have hr : j ∉ rest.map Prod.fst := by
      intro hh
      exact h (List.mem_cons_of_mem _ hh)
    simp only [fanoutCopies]
    rw [ih _ _ _ hr]
    split
    · rw [slotAt_killSlot_ne _ _ _ hj, copyBuffer_slot_ne _ _ _ _ _ _ _ _ _ hj]
    · rw [copyBuffer_slot_ne _ _ _ _ _ _ _ _ _ hj]

/-- When every fragment slot is already dead, a fan-out sends no error
response, whatever the copy oracle. -/
theorem fanoutCopies_no_send (cfg : Config) (pid : Nat) :
    ∀ (frags : List (Nat × OutputData)) (off : Nat) (s : RState),
    (∀ p ∈ frags, (slotAt s p.1).alive = false) →
    ∃ evs, (fanoutCopies cfg pid frags off s).1.trace = s.trace ++ evs ∧
      ∀ i, Ev.send i ∉ evs := by
  intro frags
  induction frags with
  | nil =>
    intro off s _
    exact ⟨[], by simp [fanoutCopies], by simp⟩
  | cons p rest ih =>
    obtain ⟨idx, od⟩ := p
    intro off s hdead
    have hdeadidx : (slotAt s idx).alive = false := hdead _ (List.mem_cons_self _ _)
    simp only [fanoutCopies]
    set r := copyBuffer cfg MemType.CPU_PINNED od.memType od.size
      (CopySrc.pinnedBuf pid off) (CopyDst.resp idx)
      (sliceBytes (s.pinnedContents.getD pid []) off od.size) s with hrdef
    have hralive : ∀ j, (slotAt r.1 j).alive = (slotAt s j).alive := by
      intro j
      rw [hrdef, copyBuffer_alive]
    have hrtrace : r.1.trace = s.trace ++ [Ev.copy ⟨CopySrc.pinnedBuf pid off,
        CopyDst.resp idx, MemType.CPU_PINNED, od.memType, od.size,
        (if cfg.copyErr.getD s.copyCount false then false else
          cudaUsed MemType.CPU_PINNED od.memType), cfg.copyErr.getD s.copyCount false⟩] := by
      rw [hrdef, copyBuffer_trace]
    by_cases he : r.2.2 = true
    · rw [if_pos he]
      have hs1alive : ∀ q ∈ rest, (slotAt (killSlot r.1 idx) q.1).alive = false := by
        intro q hq
        apply killSlot_alive_mono
        rw [hralive]
        exact hdead _ (List.mem_cons_of_mem _ hq)
      obtain ⟨evs1, hev1, hev2⟩ := ih (off + od.size) (killSlot r.1 idx) hs1alive
      have hkt : (killSlot r.1 idx).trace = r.1.trace := by
        rw [killSlot_trace, hralive, hdeadidx]
        simp
      refine ⟨[Ev.copy ⟨CopySrc.pinnedBuf pid off, CopyDst.resp idx, MemType.CPU_PINNED,
        od.memType, od.size,
        (if cfg.copyErr.getD s.copyCount false then false else
          cudaUsed MemType.CPU_PINNED od.memType),
        cfg.copyErr.getD s.copyCount false⟩] ++ evs1, ?_, ?_⟩
      · rw [hev1, hkt, hrtrace, List.append_assoc]
      · intro i hi
        rcases List.mem_append.mp hi with hm | hm
        · simp at hm
        · exact hev2 i hm
    · rw [if_neg he]
      have hs1alive : ∀ q ∈ rest, (slotAt r.1 q.1).alive = false := by
        intro q hq
        rw [hralive]
        exact hdead _ (List.mem_cons_of_mem _ hq)
      obtain ⟨evs1, hev1, hev2⟩ := ih (off + od.size) r.1 hs1alive
      refine ⟨[Ev.copy ⟨CopySrc.pinnedBuf pid off, CopyDst.resp idx, MemType.CPU_PINNED,
        od.memType, od.size,
        (if cfg.copyErr.getD s.copyCount false then false else
          cudaUsed MemType.CPU_PINNED od.memType),
        cfg.copyErr.getD s.copyCount false⟩] ++ evs1, ?_, ?_⟩
      · rw [hev1, hrtrace, List.append_assoc]
      · intro i hi
        rcases List.mem_append.mp hi with hm | hm
        · simp at hm
        · exact hev2 i hm

/-! ### Slice composition and staging through a pinned block -/

theorem sliceBytes_sliceBytes (buf : List Nat) (B T pos sz : Nat) (h : pos + sz ≤ T) :
    sliceBytes (sliceBytes buf B T) pos sz = sliceBytes buf (B + pos) sz := by
  unfold sliceBytes
  rw [List.drop_take T pos (buf.drop B)]
  rw [List.take_take]
  rw [List.drop_drop pos B buf]
  have hmin : min sz (T - pos) = sz := Nat.min_eq_left (by omega)
  rw [hmin]

/-- A fragment list reading good slices of the tensor buffer starting at
B + pos reads good slices of the staged copy of the block
starting at B, at relative position pos. -/
theorem goodPinned_of_goodFrags (cfg : Config) (ta : TensorArgs) (B T : Nat) :
    ∀ (frags : List (Nat × OutputData)) (pos : Nat),
    goodFrags cfg ta (B + pos) frags → pos + fragsSizes frags ≤ T →
    goodPinned cfg ta (sliceBytes ta.buf B T) pos frags := by
  intro frags
  induction frags with
  | nil => intro pos _ _; trivial
  | cons p rest ih =>
    obtain ⟨idx, od⟩ := p
    intro pos hgood hle
    obtain ⟨hsz, hslice, hrest⟩ := hgood
    have hszle : pos + od.size ≤ T := by
      have : fragsSizes ((idx, od) :: rest) = od.size + fragsSizes rest := by
        simp [fragsSizes]
      omega
    refine ⟨hsz, ?_, ?_⟩
    · rw [sliceBytes_sliceBytes _ _ _ _ _ hszle]
      exact hslice
    · apply ih
      · rw [← Nat.add_assoc]
        exact hrest
      · have : fragsSizes ((idx, od) :: rest) = od.size + fragsSizes rest := by
          simp [fragsSizes]
        omega

/-! ### Equations for the pinned allocation attempt -/

theorem allocPinned_zero (cfg : Config) (s : RState) (h : s.pendingBytes = 0) :
    allocPinned cfg s = (s, none) := by
  unfold allocPinned
  rw [if_neg]
  omega

theorem allocPinned_ok (cfg : Config) (s : RState) (h : 0 < s.pendingBytes)
    (hok : cfg.pinnedAllocOk.getD s.allocCount true = true) :
    allocPinned cfg s =
      ({ s with
          allocCount := s.allocCount + 1
          trace := s.trace ++ [Ev.alloc s.pendingBytes true]
          pinnedContents := s.pinnedContents ++ [List.replicate s.pendingBytes 0] },
       some s.pinnedContents.length) := by
  unfold allocPinned
  rw [if_pos h]
  dsimp only
  rw [hok, if_pos rfl]

theorem allocPinned_fail (cfg : Config) (s : RState) (h : 0 < s.pendingBytes)
    (hok : cfg.pinnedAllocOk.getD s.allocCount true = false) :
    allocPinned cfg s =
      ({ s with
          allocCount := s.allocCount + 1
          trace := s.trace ++ [Ev.alloc s.pendingBytes false] },
       none) := by
  unfold allocPinned
  rw [if_pos h]
  dsimp only
  rw [hok, if_neg (by simp)]

/-! ### Path equations for FlushPendingPinned -/

theorem FlushPendingPinned_none (cfg : Config) (buf : List Nat) (mem : MemType)
    (s s1 : RState) (ha : allocPinned cfg s = (s1, none)) :
    FlushPendingPinned cfg buf mem s =
      ({ (directCopies cfg mem buf s1.pendingOffset s1.pendingOutputs 0 s1).1 with
          pendingBytes := 0, pendingOffset := 0, pendingOutputs := [] },
       (directCopies cfg mem buf s1.pendingOffset s1.pendingOutputs 0 s1).2) := by
  unfold FlushPendingPinned
  dsimp only
  rw [ha]

theorem FlushPendingPinned_some (cfg : Config) (buf : List Nat) (mem : MemType)
    (s s1 : RState) (pid : Nat) (ha : allocPinned cfg s = (s1, some pid)) :
    FlushPendingPinned cfg buf mem s =
      (let r := copyBuffer cfg mem MemType.CPU_PINNED s1.pendingBytes
          (CopySrc.tensor s1.pendingOffset) (CopyDst.pinned pid)
          (sliceBytes buf s1.pendingOffset s1.pendingBytes) s1
       let s2 := if r.2.2 then killAll r.1 r.1.pendingOutputs else r.1
       let r2 := if r.2.1 = false then fanoutCopies cfg pid s2.pendingOutputs 0 s2
         else ({ s2 with
                  deferred := s2.deferred ++ [⟨pid, s2.pendingBytes, s2.pendingOutputs⟩] },
               false)
       ({ r2.1 with
           pendingBytes := 0, pendingOffset := 0, pendingOutputs := []
           pinnedMemories := r2.1.pinnedMemories ++ [pid] },
        r.2.1 || r2.2)) := by
  unfold FlushPendingPinned
  dsimp only
  rw [ha]

theorem frame_eq_fields {s t : RState} (h : frameOf s = frameOf t) :
    s.pendingBytes = t.pendingBytes ∧ s.pendingOffset = t.pendingOffset ∧
    s.pendingOutputs = t.pendingOutputs ∧ s.deferred = t.deferred ∧
    s.pinnedMemories = t.pinnedMemories ∧ s.pinnedContents = t.pinnedContents ∧
    s.needSync = t.needSync ∧ s.allocCount = t.allocCount ∧
    s.slots.length = t.slots.length :=
  ⟨congrArg Frame.pendingBytes h, congrArg Frame.pendingOffset h,
   congrArg Frame.pendingOutputs h, congrArg Frame.deferred h,
   congrArg Frame.pinnedMemories h, congrArg Frame.pinnedContents h,
   congrArg Frame.needSync h, congrArg Frame.allocCount h,
   congrArg Frame.slotsLen h⟩

/-- Effect of a flush on the content-preservation invariant, under an
error-free copy oracle: the pending run is cleared, aliveness and old
pinned contents are preserved, and either every pending index received its
expected slice (direct or synchronous pinned path) or the slots are
untouched and one deferred block holding good pinned data was appended
(asynchronous pinned path). -/
theorem flush_master (cfg : Config) (ta : TensorArgs) (hE : cfg.copyErr = []) (s : RState)
    (hbytes : s.pendingBytes = fragsSizes s.pendingOutputs)
    (hgood : goodFrags cfg ta s.pendingOffset s.pendingOutputs)
    (hlen : ∀ p ∈ s.pendingOutputs, p.1 < s.slots.length) :
    (FlushPendingPinned cfg ta.buf ta.memType s).1.pendingBytes = 0 ∧
    (FlushPendingPinned cfg ta.buf ta.memType s).1.pendingOutputs = [] ∧
    (FlushPendingPinned cfg ta.buf ta.memType s).1.slots.length = s.slots.length ∧
    (FlushPendingPinned cfg ta.buf ta.memType s).1.needSync = s.needSync ∧
    (∀ j, (slotAt (FlushPendingPinned cfg ta.buf ta.memType s).1 j).alive =
      (slotAt s j).alive) ∧
    (∀ q, q < s.pinnedContents.length →
      (FlushPendingPinned cfg ta.buf ta.memType s).1.pinnedContents.getD q [] =
        s.pinnedContents.getD q [] ∧
      q < (FlushPendingPinned cfg ta.buf ta.memType s).1.pinnedContents.length) ∧
    (((∀ j, (slotAt (FlushPendingPinned cfg ta.buf ta.memType s).1 j).content =
        if j ∈ pendingIdxs s then some (expectedSlice cfg ta j)
        else (slotAt s j).content) ∧
      (FlushPendingPinned cfg ta.buf ta.memType s).1.deferred = s.deferred)
     ∨
     ((∀ j, (slotAt (FlushPendingPinned cfg ta.buf ta.memType s).1 j).content =
        (slotAt s j).content) ∧
      ∃ b, (FlushPendingPinned cfg ta.buf ta.memType s).1.deferred = s.deferred ++ [b] ∧
        b.frags = s.pendingOutputs ∧
        b.pid < (FlushPendingPinned cfg ta.buf ta.memType s).1.pinnedContents.length ∧
        goodPinned cfg ta
          ((FlushPendingPinned cfg ta.buf ta.memType s).1.pinnedContents.getD b.pid [])
          0 b.frags)) := by
  have hgood0 : goodFrags cfg ta (s.pendingOffset + 0) s.pendingOutputs := by
    rw [Nat.add_zero]; exact hgood
  by_cases hok : s.pendingBytes = 0 ∨ cfg.pinnedAllocOk.getD s.allocCount true = false
  · -- the pinned buffer is not allocated: direct copies
    have ⟨s1, ha, hs1slots, hs1po, hs1pb, hs1pout, hs1def, hs1pc, hs1ns⟩ :
        ∃ s1, allocPinned cfg s = (s1, none) ∧ s1.slots = s.slots ∧
          s1.pendingOffset = s.pendingOffset ∧ s1.pendingBytes = s.pendingBytes ∧
          s1.pendingOutputs = s.pendingOutputs ∧ s1.deferred = s.deferred ∧
          s1.pinnedContents = s.pinnedContents ∧ s1.needSync = s.needSync := by
      rcases hok with hz | hf
      · exact ⟨s, allocPinned_zero cfg s hz, rfl, rfl, rfl, rfl, rfl, rfl, rfl⟩
      · by_cases hz : s.pendingBytes = 0
        · exact ⟨s, allocPinned_zero cfg s hz, rfl, rfl, rfl, rfl, rfl, rfl, rfl⟩
        · exact ⟨_, allocPinned_fail cfg s (Nat.pos_of_ne_zero hz) hf,
            rfl, rfl, rfl, rfl, rfl, rfl, rfl⟩
    rw [FlushPendingPinned_none cfg ta.buf ta.memType s s1 ha]
    have hslot1 : ∀ j, slotAt s1 j = slotAt s j := by
      intro j
      simp only [slotAt, hs1slots]
    obtain ⟨ha', hc', _, _⟩ := directCopies_spec cfg ta ta.memType s1.pendingOffset hE
      s1.pendingOutputs 0 s1
      (by rw [hs1pout, hs1po]; exact hgood0)
      (by intro p hp; rw [hs1slots]; exact hlen p (by rwa [hs1pout] at hp))
    have hfr := frame_eq_fields
      (frameOf_directCopies cfg ta.memType ta.buf s1.pendingOffset s1.pendingOutputs 0 s1)
    refine ⟨rfl, rfl, ?_, ?_, ?_, ?_, Or.inl ⟨?_, ?_⟩⟩
    · show (directCopies cfg ta.memType ta.buf s1.pendingOffset s1.pendingOutputs 0 s1).1.slots.length = _
      rw [hfr.2.2.2.2.2.2.2.2, hs1slots]
    · show (directCopies cfg ta.memType ta.buf s1.pendingOffset s1.pendingOutputs 0 s1).1.needSync = _
      rw [hfr.2.2.2.2.2.2.1, hs1ns]
    · intro j
      show (slotAt (directCopies cfg ta.memType ta.buf s1.pendingOffset s1.pendingOutputs 0 s1).1 j).alive = _
      rw [ha' j, hslot1 j]
    · intro q hq
      constructor
      · show (directCopies cfg ta.memType ta.buf s1.pendingOffset s1.pendingOutputs 0 s1).1.pinnedContents.getD q [] = _
        rw [hfr.2.2.2.2.2.1, hs1pc]
      · show q < (directCopies cfg ta.memType ta.buf s1.pendingOffset s1.pendingOutputs 0 s1).1.pinnedContents.length
        rw [hfr.2.2.2.2.2.1, hs1pc]
        exact hq
    · intro j
      show (slotAt (directCopies cfg ta.memType ta.buf s1.pendingOffset s1.pendingOutputs 0 s1).1 j).content = _
      rw [hc' j, hslot1 j, hs1pout]
      rfl
    · show (directCopies cfg ta.memType ta.buf s1.pendingOffset s1.pendingOutputs 0 s1).1.deferred = _
      rw [hfr.2.2.2.1, hs1def]
  · -- the pinned buffer is allocated
    push_neg at hok
    obtain ⟨hz, hth⟩ := hok
    have hpos : 0 < s.pendingBytes := Nat.pos_of_ne_zero hz
    have hoktrue : cfg.pinnedAllocOk.getD s.allocCount true = true := by
      cases h : cfg.pinnedAllocOk.getD s.allocCount true
      · exact absurd h hth
      · rfl
    have ha := allocPinned_ok cfg s hpos hoktrue
    rw [FlushPendingPinned_some cfg ta.buf ta.memType s _ s.pinnedContents.length ha]
    dsimp only
    have herr := copyErr_none cfg hE s.copyCount
    -- the bulk copy
    have hrerr : (copyBuffer cfg ta.memType MemType.CPU_PINNED s.pendingBytes
        (CopySrc.tensor s.pendingOffset) (CopyDst.pinned s.pinnedContents.length)
        (sliceBytes ta.buf s.pendingOffset s.pendingBytes)
        { s with
            allocCount := s.allocCount + 1
            trace := s.trace ++ [Ev.alloc s.pendingBytes true]
            pinnedContents := s.pinnedContents ++ [List.replicate s.pendingBytes 0] }).2.2
        = false := by
      rw [copyBuffer_err]
      exact herr
    rw [hrerr]
    simp only [Bool.false_eq_true, if_false]
    set s1 : RState := { s with
        allocCount := s.allocCount + 1
        trace := s.trace ++ [Ev.alloc s.pendingBytes true]
        pinnedContents := s.pinnedContents ++ [List.replicate s.pendingBytes 0] } with hs1
    set r := copyBuffer cfg ta.memType MemType.CPU_PINNED s.pendingBytes
        (CopySrc.tensor s.pendingOffset) (CopyDst.pinned s.pinnedContents.length)
        (sliceBytes ta.buf s.pendingOffset s.pendingBytes) s1 with hrd
    have hrslots : r.1.slots = s.slots := by
      rw [hrd, copyBuffer_pinned_slots]
    have hslotr : ∀ j, slotAt r.1 j = slotAt s j := by
      intro j
      simp only [slotAt, hrslots]
    obtain ⟨hf1, hf2, hf3, hf4, hf5, hf6, hf7, hf8⟩ :=
      copyBuffer_fields cfg ta.memType MemType.CPU_PINNED s.pendingBytes
        (CopySrc.tensor s.pendingOffset) (CopyDst.pinned s.pinnedContents.length)
        (sliceBytes ta.buf s.pendingOffset s.pendingBytes) s1
    have hrpc : r.1.pinnedContents =
        (s.pinnedContents ++ [List.replicate s.pendingBytes 0]).set
          s.pinnedContents.length (sliceBytes ta.buf s.pendingOffset s.pendingBytes) := by
      rw [hrd, copyBuffer_noerr_pinned_write cfg ta.memType MemType.CPU_PINNED
        s.pendingBytes (CopySrc.tensor s.pendingOffset) s.pinnedContents.length
        (sliceBytes ta.buf s.pendingOffset s.pendingBytes) s1
        (show cfg.copyErr.getD s1.copyCount false = false from herr)]
    have hpidlt : s.pinnedContents.length < r.1.pinnedContents.length := by
      rw [hrpc]
      simp
    have hgetpid : r.1.pinnedContents.getD s.pinnedContents.length [] =
        sliceBytes ta.buf s.pendingOffset s.pendingBytes := by
      rw [hrpc]
      exact getD_set_self _ _ _ _ (by simp)
    have hgetold : ∀ q, q < s.pinnedContents.length →
        r.1.pinnedContents.getD q [] = s.pinnedContents.getD q [] := by
      intro q hq
      rw [hrpc, getD_set_ne _ _ _ _ _ (by omega), getD_append_left _ _ _ _ hq]
    have hgoodpin : goodPinned cfg ta
        (r.1.pinnedContents.getD s.pinnedContents.length []) 0 s.pendingOutputs := by
      rw [hgetpid]
      exact goodPinned_of_goodFrags cfg ta s.pendingOffset s.pendingBytes
        s.pendingOutputs 0 hgood0 (by omega)
    have hrcuda : r.2.1 = cudaUsed ta.memType MemType.CPU_PINNED := by
      rw [hrd, copyBuffer_cuda, herr, if_neg (by simp)]
    cases hcu : cudaUsed ta.memType MemType.CPU_PINNED with
    | false =>
      rw [hrcuda, hcu]
      simp only [if_pos rfl]
      -- synchronous bulk copy: immediate fan-out
      have hrpout : r.1.pendingOutputs = s.pendingOutputs := hf3
      obtain ⟨hfa, hfc, _, _⟩ := fanoutCopies_spec cfg ta s.pinnedContents.length hE
        r.1.pendingOutputs 0 r.1
        (by rw [hrpout]; exact hgoodpin)
        (by intro p hp; rw [hrslots]; exact hlen p (by rwa [hrpout] at hp))
      have hff := frame_eq_fields
        (frameOf_fanoutCopies cfg s.pinnedContents.length r.1.pendingOutputs 0 r.1)
      refine ⟨trivial, trivial, ?_, ?_, ?_, ?_, Or.inl ⟨?_, ?_⟩⟩
      · show (fanoutCopies cfg s.pinnedContents.length r.1.pendingOutputs 0 r.1).1.slots.length = _
        rw [hff.2.2.2.2.2.2.2.2, hrslots]
      · show (fanoutCopies cfg s.pinnedContents.length r.1.pendingOutputs 0 r.1).1.needSync = _
        rw [hff.2.2.2.2.2.2.1, hf6]
      · intro j
        show (slotAt (fanoutCopies cfg s.pinnedContents.length r.1.pendingOutputs 0 r.1).1 j).alive = _
        rw [hfa j, hslotr j]
      · intro q hq
        constructor
        · show (fanoutCopies cfg s.pinnedContents.length r.1.pendingOutputs 0 r.1).1.pinnedContents.getD q [] = _
          rw [hff.2.2.2.2.2.1]
          exact hgetold q hq
        · show q < (fanoutCopies cfg s.pinnedContents.length r.1.pendingOutputs 0 r.1).1.pinnedContents.length
          rw [hff.2.2.2.2.2.1]
          omega
      · intro j
        show (slotAt (fanoutCopies cfg s.pinnedContents.length r.1.pendingOutputs 0 r.1).1 j).content = _
        rw [hfc j, hslotr j, hrpout]
        rfl
      · show (fanoutCopies cfg s.pinnedContents.length r.1.pendingOutputs 0 r.1).1.deferred = _
        rw [hff.2.2.2.1, hf4]
    | true =>
      rw [hrcuda, hcu]
      simp only [Bool.true_eq_false, if_false]
      refine ⟨trivial, trivial, ?_, ?_, ?_, ?_, Or.inr ⟨?_, ?_⟩⟩
      · show r.1.slots.length = s.slots.length
        rw [hrslots]
      · show r.1.needSync = s.needSync
        exact hf6
      · intro j
        exact congrArg Slot.alive (hslotr j)
      · intro q hq
        refine ⟨hgetold q hq, ?_⟩
        show q < r.1.pinnedContents.length
        omega
      · intro j
        exact congrArg Slot.content (hslotr j)
      · refine ⟨⟨s.pinnedContents.length, r.1.pendingBytes, r.1.pendingOutputs⟩, ?_, ?_, ?_, ?_⟩
        · show r.1.deferred ++ _ = s.deferred ++ _
          rw [hf4]
        · show r.1.pendingOutputs = s.pendingOutputs
          exact hf3
        · show s.pinnedContents.length < r.1.pinnedContents.length
          exact hpidlt
        · show goodPinned cfg ta (r.1.pinnedContents.getD s.pinnedContents.length []) 0
            r.1.pendingOutputs
          rw [hf3]
          exact hgoodpin
/-! ### The content-preservation invariant of the ProcessTensor loop -/

theorem sliceBytes_zero (buf : List Nat) (off : Nat) : sliceBytes buf off 0 = [] := by
  simp [sliceBytes]

theorem fragsSizes_append (l : List (Nat × OutputData)) (x : Nat × OutputData) :
    fragsSizes (l ++ [x]) = fragsSizes l + x.2.size := by
  simp [fragsSizes]

theorem respOffset_succ (cfg : Config) (ta : TensorArgs) (k : Nat) :
    respOffset cfg ta (k + 1) = respOffset cfg ta k + respSize cfg ta k := by
  unfold respOffset
  rw [List.range_succ, List.map_append, List.sum_append]
  simp

theorem goodFrags_append_single (cfg : Config) (ta : TensorArgs) :
    ∀ (l : List (Nat × OutputData)) (base : Nat) (x : Nat × OutputData),
    goodFrags cfg ta base l →
    x.2.size = respSize cfg ta x.1 →
    sliceBytes ta.buf (base + fragsSizes l) x.2.size = expectedSlice cfg ta x.1 →
    goodFrags cfg ta base (l ++ [x]) := by
  intro l
  induction l with
  | nil =>
    intro base x _ h1 h2
    obtain ⟨i, od⟩ := x
    refine ⟨h1, ?_, trivial⟩
    have : base + fragsSizes [] = base := by simp [fragsSizes]
    rwa [this] at h2
  | cons p rest ih =>
    obtain ⟨i, od⟩ := p
    intro base x hg h1 h2
    obtain ⟨ha, hb, hc⟩ := hg
    refine ⟨ha, hb, ?_⟩
    apply ih _ _ hc h1
    have : base + od.size + fragsSizes rest = base + fragsSizes ((i, od) :: rest) := by
      simp [fragsSizes]
      omega
    rw [this]
    exact h2

theorem goodFrags_zero_shift (cfg : Config) (ta : TensorArgs) :
    ∀ (l : List (Nat × OutputData)) (base base' : Nat),
    goodFrags cfg ta base l → fragsSizes l = 0 → goodFrags cfg ta base' l := by
  intro l
  induction l with
  | nil => intro base base' _ _; trivial
  | cons p rest ih =>
    obtain ⟨i, od⟩ := p
    intro base base' hg hz
    obtain ⟨ha, hb, hc⟩ := hg
    have hsz : od.size = 0 ∧ fragsSizes rest = 0 := by
      have : fragsSizes ((i, od) :: rest) = od.size + fragsSizes rest := by
        simp [fragsSizes]
      omega
    refine ⟨ha, ?_, ?_⟩
    · rw [hsz.1, sliceBytes_zero]
      rw [hsz.1, sliceBytes_zero] at hb
      exact hb
    · exact ih _ _ hc hsz.2

/-- The loop invariant of content preservation, after the first k responses
have been processed: the pending run reads good slices and holds active
indices below k, every deferred block holds good pinned data for active
indices below k, pending and deferred indices are disjoint, a slot is
alive exactly as predicted, an inactive slot has no content, and an active
processed slot that is in no pending or deferred list already holds its
expected slice. -/
structure MInv (cfg : Config) (ta : TensorArgs) (alive0 : List Bool) (k : Nat)
    (s : RState) : Prop where
  hlen : s.slots.length = alive0.length
  hbytes : s.pendingBytes = fragsSizes s.pendingOutputs
  hgood : goodFrags cfg ta s.pendingOffset s.pendingOutputs
  hPidx : ∀ p ∈ s.pendingOutputs, p.1 < k ∧ activeB cfg ta alive0 p.1 = true
  hdefG : ∀ b ∈ s.deferred, b.pid < s.pinnedContents.length ∧
    goodPinned cfg ta (s.pinnedContents.getD b.pid []) 0 b.frags ∧
    ∀ p ∈ b.frags, p.1 < k ∧ activeB cfg ta alive0 p.1 = true
  hdisj : ∀ p ∈ s.pendingOutputs, p.1 ∉ deferredIdxs s
  halive : ∀ idx, (slotAt s idx).alive = aliveSpec cfg ta alive0 k idx
  hnone : ∀ idx, activeB cfg ta alive0 idx = false → (slotAt s idx).content = none
  hdone : ∀ idx, activeB cfg ta alive0 idx = true → idx < k → idx ∉ pendingIdxs s →
    idx ∉ deferredIdxs s → (slotAt s idx).content = some (expectedSlice cfg ta idx)

/-- A flush (with its need_sync merge) preserves the invariant and clears
the pending run. -/
theorem flush_MInv (cfg : Config) (ta : TensorArgs) (alive0 : List Bool) (k : Nat)
    (hE : cfg.copyErr = []) (hk : k ≤ alive0.length) (s : RState)
    (inv : MInv cfg ta alive0 k s) :
    MInv cfg ta alive0 k (mergeSync (FlushPendingPinned cfg ta.buf ta.memType s)) ∧
    (mergeSync (FlushPendingPinned cfg ta.buf ta.memType s)).pendingBytes = 0 ∧
    (mergeSync (FlushPendingPinned cfg ta.buf ta.memType s)).pendingOutputs = [] := by
  have hplen : ∀ p ∈ s.pendingOutputs, p.1 < s.slots.length := by
    intro p hp
    rw [inv.hlen]
    exact Nat.lt_of_lt_of_le (inv.hPidx p hp).1 hk
  obtain ⟨m1, m2, m3, m4, m5, m6, m7⟩ :=
    flush_master cfg ta hE s inv.hbytes inv.hgood hplen
  set F := FlushPendingPinned cfg ta.buf ta.memType s with hF
  have hslotM : ∀ j, slotAt (mergeSync F) j = slotAt F.1 j := fun j => rfl
  refine ⟨⟨?_, ?_, ?_, ?_, ?_, ?_, ?_, ?_, ?_⟩, m1, m2⟩
  · show F.1.slots.length = alive0.length
    rw [m3, inv.hlen]
  · show F.1.pendingBytes = fragsSizes F.1.pendingOutputs
    rw [m1, m2]
    rfl
  · show goodFrags cfg ta F.1.pendingOffset F.1.pendingOutputs
    rw [m2]
    trivial
  · show ∀ p ∈ F.1.pendingOutputs, _
    rw [m2]
    intro p hp
    cases hp
  · -- deferred blocks stay good
    show ∀ b ∈ F.1.deferred, b.pid < F.1.pinnedContents.length ∧
      goodPinned cfg ta (F.1.pinnedContents.getD b.pid []) 0 b.frags ∧
      ∀ p ∈ b.frags, p.1 < k ∧ activeB cfg ta alive0 p.1 = true
    rcases m7 with ⟨hc, hdef⟩ | ⟨hc, b0, hdef, hbf, hbpid, hbgood⟩
    · rw [hdef]
      intro b hb
      obtain ⟨hb1, hb2, hb3⟩ := inv.hdefG b hb
      obtain ⟨hq1, hq2⟩ := m6 b.pid hb1
      exact ⟨hq2, by rw [hq1]; exact hb2, hb3⟩
    · rw [hdef]
      intro b hb
      rcases List.mem_append.mp hb with hm | hm
      · obtain ⟨hb1, hb2, hb3⟩ := inv.hdefG b hm
        obtain ⟨hq1, hq2⟩ := m6 b.pid hb1
        exact ⟨hq2, by rw [hq1]; exact hb2, hb3⟩
      · have : b = b0 := by simpa using hm
        subst this
        refine ⟨hbpid, hbgood, ?_⟩
        rw [hbf]
        exact inv.hPidx
  · show ∀ p ∈ F.1.pendingOutputs, _
    rw [m2]
    intro p hp
    cases hp
  · intro idx
    rw [hslotM idx, m5 idx]
    exact inv.halive idx
  · intro idx hidx
    rw [hslotM idx]
    rcases m7 with ⟨hc, _⟩ | ⟨hc, _⟩
    · rw [hc idx]
      have : idx ∉ pendingIdxs s := by
        intro hmem
        obtain ⟨p, hp, hp2⟩ := List.mem_map.mp hmem
        have := (inv.hPidx p hp).2
        rw [hp2] at this
        rw [this] at hidx
        cases hidx
      rw [if_neg this]
      exact inv.hnone idx hidx
    · rw [hc idx]
      exact inv.hnone idx hidx
  · intro idx hact hk' _ hdefmem
    rw [hslotM idx]
    rcases m7 with ⟨hc, hdef⟩ | ⟨hc, b0, hdef, hbf, _, _⟩
    · rw [hc idx]
      by_cases hpend : idx ∈ pendingIdxs s
      · rw [if_pos hpend]
      · rw [if_neg hpend]
        apply inv.hdone idx hact hk' hpend
        intro hmem
        apply hdefmem
        show idx ∈ deferredIdxs (mergeSync F)
        have : deferredIdxs (mergeSync F) = deferredIdxs s := by
          unfold deferredIdxs
          rw [show (mergeSync F).deferred = F.1.deferred from rfl, hdef]
        rw [this]
        exact hmem
    · rw [hc idx]
      have hdimem : deferredIdxs (mergeSync F) =
          deferredIdxs s ++ b0.frags.map Prod.fst := by
        unfold deferredIdxs
        rw [show (mergeSync F).deferred = F.1.deferred from rfl, hdef]
        simp
      rw [hdimem] at hdefmem
      have hnotold : idx ∉ deferredIdxs s := fun hm => hdefmem (List.mem_append.mpr (Or.inl hm))
      have hnotpend : idx ∉ pendingIdxs s := by
        intro hm
        apply hdefmem
        apply List.mem_append.mpr
        right
        rw [hbf]
        exact hm
      exact inv.hdone idx hact hk' hnotpend hnotold

theorem aliveSpec_succ_ne (cfg : Config) (ta : TensorArgs) (alive0 : List Bool)
    (k idx : Nat) (h : idx ≠ k) :
    aliveSpec cfg ta alive0 (k + 1) idx = aliveSpec cfg ta alive0 k idx := by
  unfold aliveSpec
  by_cases hlt : idx < k
  · rw [decide_eq_true hlt, decide_eq_true (by omega : idx < k + 1)]
  · rw [decide_eq_false hlt, decide_eq_false (by omega : ¬idx < k + 1)]

theorem aliveSpec_self (cfg : Config) (ta : TensorArgs) (alive0 : List Bool) (k : Nat) :
    aliveSpec cfg ta alive0 k k = alive0.getD k false := by
  unfold aliveSpec
  rw [decide_eq_false (by omega : ¬k < k)]
  simp

theorem aliveSpec_succ_self (cfg : Config) (ta : TensorArgs) (alive0 : List Bool) (k : Nat) :
    aliveSpec cfg ta alive0 (k + 1) k =
      (alive0.getD k false && !(requested cfg ta k && allocFailsAt cfg k)) := by
  unfold aliveSpec
  rw [decide_eq_true (by omega : k < k + 1)]
  simp

/-- The flush at the head of a loop iteration preserves the invariant and
leaves either no pending run or one ending exactly at the current
offset. -/
theorem flushStep_MInv (cfg : Config) (ta : TensorArgs) (alive0 : List Bool) (k : Nat)
    (hE : cfg.copyErr = []) (hk : k ≤ alive0.length) (s : RState) (off : Nat)
    (inv : MInv cfg ta alive0 k s) :
    MInv cfg ta alive0 k (flushStep cfg ta s off) ∧
    ((flushStep cfg ta s off).pendingBytes = 0 ∨
      off = (flushStep cfg ta s off).pendingBytes + (flushStep cfg ta s off).pendingOffset) := by
  unfold flushStep
  split
  · obtain ⟨inv2, hb, _⟩ := flush_MInv cfg ta alive0 k hE hk s inv
    exact ⟨inv2, Or.inl hb⟩
  · rename_i hcond
    push_neg at hcond
    refine ⟨inv, ?_⟩
    by_cases hz : s.pendingBytes = 0
    · exact Or.inl hz
    · exact Or.inr (hcond (Nat.pos_of_ne_zero hz))

theorem activeB_eq_true (cfg : Config) (ta : TensorArgs) (alive0 : List Bool) (idx : Nat) :
    activeB cfg ta alive0 idx = true ↔
      (alive0.getD idx false = true ∧ requested cfg ta idx = true ∧
       allocFailsAt cfg idx = false) := by
  unfold activeB
  simp [Bool.and_eq_true, Bool.not_eq_true', and_assoc]

theorem mem_deferredIdxs (s : RState) (i : Nat) :
    i ∈ deferredIdxs s ↔ ∃ b ∈ s.deferred, ∃ p ∈ b.frags, p.1 = i := by
  unfold deferredIdxs
  simp [List.mem_flatMap, List.mem_map]

/-- Indices inside the deferred blocks are below the loop counter, so the
current index is never among them. -/
theorem curr_notin_deferredIdxs (cfg : Config) (ta : TensorArgs) (alive0 : List Bool)
    (k : Nat) (t : RState) (inv : MInv cfg ta alive0 k t) : k ∉ deferredIdxs t := by
  intro hm
  obtain ⟨b, hb, p, hp, hpk⟩ := (mem_deferredIdxs t k).mp hm
  have := ((inv.hdefG b hb).2.2 p hp).1
  omega

/-- The response-handling part of one iteration preserves the invariant,
advancing the processed count. -/
theorem respond_MInv (cfg : Config) (ta : TensorArgs) (alive0 : List Bool) (up : MemType)
    (hE : cfg.copyErr = []) (k : Nat) (t : RState) (hk : k < alive0.length)
    (inv : MInv cfg ta alive0 k t)
    (hoff : t.pendingBytes = 0 ∨ respOffset cfg ta k = t.pendingBytes + t.pendingOffset) :
    MInv cfg ta alive0 (k + 1) (respondStep cfg ta up k t (respOffset cfg ta k)) := by
  unfold respondStep
  split
  case isFalse hcond =>
    refine ⟨inv.hlen, inv.hbytes, inv.hgood, ?_, ?_, inv.hdisj, ?_, inv.hnone, ?_⟩
    · intro p hp
      obtain ⟨h1, h2⟩ := inv.hPidx p hp
      exact ⟨by omega, h2⟩
    · intro b hb
      obtain ⟨h1, h2, h3⟩ := inv.hdefG b hb
      exact ⟨h1, h2, fun p hp => ⟨Nat.lt_succ_of_lt (h3 p hp).1, (h3 p hp).2⟩⟩
    · intro idx
      by_cases hik : idx = k
      · subst hik
        rw [inv.halive idx, aliveSpec_self, aliveSpec_succ_self]
        cases ha0 : alive0.getD idx false
        · simp
        · cases hreq : requested cfg ta idx
          · simp [hreq]
          · exfalso
            apply hcond
            exact ⟨by rw [inv.halive idx, aliveSpec_self, ha0], hreq⟩
      · rw [aliveSpec_succ_ne _ _ _ _ _ hik]
        exact inv.halive idx
    · intro idx hact hlt hp hd
      by_cases hik : idx = k
      · exfalso
        subst hik
        obtain ⟨h1, h2, _⟩ := (activeB_eq_true cfg ta alive0 idx).mp hact
        exact hcond ⟨by rw [inv.halive idx, aliveSpec_self, h1], h2⟩
      · exact inv.hdone idx hact (by omega) hp hd
  case isTrue hcond =>
    obtain ⟨hal, hreq⟩ := hcond
    have ha0 : alive0.getD k false = true := by
      have := inv.halive k
      rw [aliveSpec_self] at this
      rw [this] at hal
      exact hal
    unfold SetFixedSizeOutputBuffer
    dsimp only
    by_cases hfail : (cfg.reqs.getD k default).allocFails = true
    · rw [if_pos hfail]
      -- the output buffer allocation fails; the response is failed
      obtain ⟨kf1, kf2, kf3, kf4, kf5, kf6, kf7, kf8, kf9⟩ := killSlot_fields t k
      have hnact : activeB cfg ta alive0 k = false := by
        cases h : activeB cfg ta alive0 k
        · rfl
        · obtain ⟨_, _, h3⟩ := (activeB_eq_true cfg ta alive0 k).mp h
          rw [show allocFailsAt cfg k = (cfg.reqs.getD k default).allocFails from rfl,
            hfail] at h3
          cases h3
      have hdix : deferredIdxs (mergeSync (killSlot t k, false)) = deferredIdxs t := by
        unfold deferredIdxs
        rw [show (mergeSync (killSlot t k, false)).deferred = (killSlot t k).deferred from rfl,
          kf4]
      have hpix : pendingIdxs (mergeSync (killSlot t k, false)) = pendingIdxs t := by
        unfold pendingIdxs
        rw [show (mergeSync (killSlot t k, false)).pendingOutputs =
          (killSlot t k).pendingOutputs from rfl, kf3]
      refine ⟨?_, ?_, ?_, ?_, ?_, ?_, ?_, ?_, ?_⟩
      · show (killSlot t k).slots.length = alive0.length
        rw [killSlot_slots_length, inv.hlen]
      · show (killSlot t k).pendingBytes = fragsSizes (killSlot t k).pendingOutputs
        rw [kf1, kf3]
        exact inv.hbytes
      · show goodFrags cfg ta (killSlot t k).pendingOffset (killSlot t k).pendingOutputs
        rw [kf2, kf3]
        exact inv.hgood
      · show ∀ p ∈ (killSlot t k).pendingOutputs, _
        rw [kf3]
        intro p hp
        obtain ⟨h1, h2⟩ := inv.hPidx p hp
        exact ⟨by omega, h2⟩
      · show ∀ b ∈ (killSlot t k).deferred,
          b.pid < (killSlot t k).pinnedContents.length ∧
          goodPinned cfg ta ((killSlot t k).pinnedContents.getD b.pid []) 0 b.frags ∧
          ∀ p ∈ b.frags, p.1 < k + 1 ∧ activeB cfg ta alive0 p.1 = true
        rw [kf4, kf6]
        intro b hb
        obtain ⟨h1, h2, h3⟩ := inv.hdefG b hb
        exact ⟨h1, h2, fun p hp => ⟨Nat.lt_succ_of_lt (h3 p hp).1, (h3 p hp).2⟩⟩
      · intro p hp
        rw [hdix]
        rw [show (mergeSync (killSlot t k, false)).pendingOutputs =
          (killSlot t k).pendingOutputs from rfl, kf3] at hp
        exact inv.hdisj p hp
      · intro idx
        by_cases hik : idx = k
        · subst hik
          rw [show slotAt (mergeSync (killSlot t idx, false)) idx =
            slotAt (killSlot t idx) idx from rfl]
          rw [slotAt_killSlot_alive_self, aliveSpec_succ_self, ha0, hreq]
          rw [show allocFailsAt cfg idx = (cfg.reqs.getD idx default).allocFails from rfl,
            hfail]
          rfl
        · rw [show slotAt (mergeSync (killSlot t k, false)) idx =
            slotAt (killSlot t k) idx from rfl]
          rw [slotAt_killSlot_ne _ _ _ hik, aliveSpec_succ_ne _ _ _ _ _ hik]
          exact inv.halive idx
      · intro idx hidx
        rw [show (slotAt (mergeSync (killSlot t k, false)) idx).content =
          (slotAt (killSlot t k) idx).content from rfl]
        rw [slotAt_killSlot_content]
        exact inv.hnone idx hidx
      · intro idx hact hlt hp hd
        by_cases hik : idx = k
        · exfalso
          rw [hik, hnact] at hact
          cases hact
        · rw [show (slotAt (mergeSync (killSlot t k, false)) idx).content =
            (slotAt (killSlot t k) idx).content from rfl]
          rw [slotAt_killSlot_content]
          rw [hpix] at hp
          rw [hdix] at hd
          exact inv.hdone idx hact (by omega) hp hd
    · rw [if_neg hfail]
      have hfailF : allocFailsAt cfg k = false := by
        rw [show allocFailsAt cfg k = (cfg.reqs.getD k default).allocFails from rfl]
        cases h : (cfg.reqs.getD k default).allocFails
        · rfl
        · exact absurd h hfail
      have hactk : activeB cfg ta alive0 k = true :=
        (activeB_eq_true cfg ta alive0 k).mpr ⟨ha0, hreq, hfailF⟩
      by_cases hstage : up ≠ MemType.CPU_PINNED ∧ (cfg.reqs.getD k default).allocMemType = up
      · rw [if_pos hstage]
        -- the response is recorded on the pending pinned run
        set od : OutputData := ⟨ta.outputName, k, respSize cfg ta k,
          (cfg.reqs.getD k default).allocMemType,
          (cfg.reqs.getD k default).allocMemTypeId, respOffset cfg ta k⟩ with hod
        refine ⟨?_, ?_, ?_, ?_, ?_, ?_, ?_, ?_, ?_⟩
        · show t.slots.length = alive0.length
          exact inv.hlen
        · show t.pendingBytes + respSize cfg ta k =
            fragsSizes (t.pendingOutputs ++ [(k, od)])
          rw [fragsSizes_append, inv.hbytes]
        · show goodFrags cfg ta
            (if t.pendingBytes = 0 then respOffset cfg ta k else t.pendingOffset)
            (t.pendingOutputs ++ [(k, od)])
          by_cases hz : t.pendingBytes = 0
          · rw [if_pos hz]
            have hzero : fragsSizes t.pendingOutputs = 0 := by
              rw [← inv.hbytes]
              exact hz
            apply goodFrags_append_single cfg ta t.pendingOutputs (respOffset cfg ta k)
              (k, od) (goodFrags_zero_shift cfg ta t.pendingOutputs t.pendingOffset
                (respOffset cfg ta k) inv.hgood hzero) rfl
            rw [hzero, Nat.add_zero]
            rfl
          · rw [if_neg hz]
            have hoffR : respOffset cfg ta k = t.pendingBytes + t.pendingOffset := by
              rcases hoff with h | h
              · exact absurd h hz
              · exact h
            apply goodFrags_append_single cfg ta t.pendingOutputs t.pendingOffset
              (k, od) inv.hgood rfl
            have : t.pendingOffset + fragsSizes t.pendingOutputs = respOffset cfg ta k := by
              rw [← inv.hbytes]
              omega
            rw [this]
            rfl
        · intro p hp
          rcases List.mem_append.mp hp with hm | hm
          · obtain ⟨h1, h2⟩ := inv.hPidx p hm
            exact ⟨by omega, h2⟩
          · have : p = (k, od) := by simpa using hm
            rw [this]
            exact ⟨by omega, hactk⟩
        · show ∀ b ∈ t.deferred, b.pid < t.pinnedContents.length ∧
            goodPinned cfg ta (t.pinnedContents.getD b.pid []) 0 b.frags ∧
            ∀ p ∈ b.frags, p.1 < k + 1 ∧ activeB cfg ta alive0 p.1 = true
          intro b hb
          obtain ⟨h1, h2, h3⟩ := inv.hdefG b hb
          exact ⟨h1, h2, fun p hp => ⟨Nat.lt_succ_of_lt (h3 p hp).1, (h3 p hp).2⟩⟩
        · intro p hp
          show p.1 ∉ deferredIdxs t
          rcases List.mem_append.mp hp with hm | hm
          · exact inv.hdisj p hm
          · have : p = (k, od) := by simpa using hm
            rw [this]
            exact curr_notin_deferredIdxs cfg ta alive0 k t inv
        · intro idx
          show (slotAt t idx).alive = aliveSpec cfg ta alive0 (k + 1) idx
          by_cases hik : idx = k
          · subst hik
            rw [inv.halive idx, aliveSpec_self, aliveSpec_succ_self, ha0, hreq, hfailF]
            rfl
          · rw [aliveSpec_succ_ne _ _ _ _ _ hik]
            exact inv.halive idx
        · intro idx hidx
          show (slotAt t idx).content = none
          exact inv.hnone idx hidx
        · intro idx hact hlt hp hd
          show (slotAt t idx).content = some (expectedSlice cfg ta idx)
          have hpix : pendingIdxs (mergeSync
              ({ t with
                  pendingOffset := if t.pendingBytes = 0 then respOffset cfg ta k
                    else t.pendingOffset
                  pendingBytes := t.pendingBytes + respSize cfg ta k
                  pendingOutputs := t.pendingOutputs ++ [(k, od)] }, false)) =
              pendingIdxs t ++ [k] := by
            unfold pendingIdxs
            show (t.pendingOutputs ++ [(k, od)]).map Prod.fst =
              t.pendingOutputs.map Prod.fst ++ [k]
            simp
          rw [hpix] at hp
          by_cases hik : idx = k
          · exfalso
            apply hp
            apply List.mem_append.mpr
            right
            rw [hik]
            simp
          · have hp2 : idx ∉ pendingIdxs t := fun hm => hp (List.mem_append.mpr (Or.inl hm))
            exact inv.hdone idx hact (by omega) hp2 hd
      · rw [if_neg hstage]
        -- direct copy into the response buffer
        have herr := copyErr_none cfg hE t.copyCount
        have hrerr : (copyBuffer cfg ta.memType (cfg.reqs.getD k default).allocMemType
            (respSize cfg ta k) (CopySrc.tensor (respOffset cfg ta k)) (CopyDst.resp k)
            (sliceBytes ta.buf (respOffset cfg ta k) (respSize cfg ta k)) t).2.2 = false := by
          rw [copyBuffer_err]
          exact herr
        rw [hrerr]
        simp only [Bool.false_eq_true, if_false]
        set r := copyBuffer cfg ta.memType (cfg.reqs.getD k default).allocMemType
          (respSize cfg ta k) (CopySrc.tensor (respOffset cfg ta k)) (CopyDst.resp k)
          (sliceBytes ta.buf (respOffset cfg ta k) (respSize cfg ta k)) t with hrd
        obtain ⟨cf1, cf2, cf3, cf4, cf5, cf6, cf7, cf8⟩ := copyBuffer_fields cfg ta.memType
          (cfg.reqs.getD k default).allocMemType (respSize cfg ta k)
          (CopySrc.tensor (respOffset cfg ta k)) (CopyDst.resp k)
          (sliceBytes ta.buf (respOffset cfg ta k) (respSize cfg ta k)) t
        obtain ⟨hwa, hwne, hwc⟩ := copyBuffer_noerr_resp_write cfg ta.memType
          (cfg.reqs.getD k default).allocMemType (respSize cfg ta k)
          (CopySrc.tensor (respOffset cfg ta k)) k
          (sliceBytes ta.buf (respOffset cfg ta k) (respSize cfg ta k)) t herr
        have hpcr := copyBuffer_resp_pinnedContents cfg ta.memType
          (cfg.reqs.getD k default).allocMemType (respSize cfg ta k)
          (CopySrc.tensor (respOffset cfg ta k)) k
          (sliceBytes ta.buf (respOffset cfg ta k) (respSize cfg ta k)) t
        have hslr := copyBuffer_slots_length cfg ta.memType
          (cfg.reqs.getD k default).allocMemType (respSize cfg ta k)
          (CopySrc.tensor (respOffset cfg ta k)) (CopyDst.resp k)
          (sliceBytes ta.buf (respOffset cfg ta k) (respSize cfg ta k)) t
        refine ⟨?_, ?_, ?_, ?_, ?_, ?_, ?_, ?_, ?_⟩
        · show r.1.slots.length = alive0.length
          rw [hrd]
          rw [hslr, inv.hlen]
        · show r.1.pendingBytes = fragsSizes r.1.pendingOutputs
          rw [cf1, cf3]
          exact inv.hbytes
        · show goodFrags cfg ta r.1.pendingOffset r.1.pendingOutputs
          rw [cf2, cf3]
          exact inv.hgood
        · show ∀ p ∈ r.1.pendingOutputs, _
          rw [cf3]
          intro p hp
          obtain ⟨h1, h2⟩ := inv.hPidx p hp
          exact ⟨by omega, h2⟩
        · show ∀ b ∈ r.1.deferred, b.pid < r.1.pinnedContents.length ∧
            goodPinned cfg ta (r.1.pinnedContents.getD b.pid []) 0 b.frags ∧
            ∀ p ∈ b.frags, p.1 < k + 1 ∧ activeB cfg ta alive0 p.1 = true
          rw [cf4]
          rw [hrd, hpcr]
          intro b hb
          obtain ⟨h1, h2, h3⟩ := inv.hdefG b hb
          exact ⟨h1, h2, fun p hp => ⟨Nat.lt_succ_of_lt (h3 p hp).1, (h3 p hp).2⟩⟩
        · intro p hp
          show p.1 ∉ deferredIdxs (mergeSync (r.1, r.2.1))
          have hdix : deferredIdxs (mergeSync (r.1, r.2.1)) = deferredIdxs t := by
            unfold deferredIdxs
            rw [show (mergeSync (r.1, r.2.1)).deferred = r.1.deferred from rfl, cf4]
          rw [hdix]
          rw [show (mergeSync (r.1, r.2.1)).pendingOutputs = r.1.pendingOutputs from rfl,
            cf3] at hp
          exact inv.hdisj p hp
        · intro idx
          show (slotAt r.1 idx).alive = aliveSpec cfg ta alive0 (k + 1) idx
          rw [hrd] at *
          rw [hwa idx]
          by_cases hik : idx = k
          · subst hik
            rw [inv.halive idx, aliveSpec_self, aliveSpec_succ_self, ha0, hreq, hfailF]
            rfl
          · rw [aliveSpec_succ_ne _ _ _ _ _ hik]
            exact inv.halive idx
        · intro idx hidx
          show (slotAt r.1 idx).content = none
          by_cases hik : idx = k
          · exfalso
            rw [hik, hactk] at hidx
            cases hidx
          · rw [hrd, hwne idx hik]
            exact inv.hnone idx hidx
        · intro idx hact hlt hp hd
          show (slotAt r.1 idx).content = some (expectedSlice cfg ta idx)
          by_cases hik : idx = k
          · subst hik
            rw [hrd]
            exact hwc (by rw [inv.hlen]; exact hk)
          · rw [hrd, hwne idx hik]
            rw [show pendingIdxs (mergeSync (r.1, r.2.1)) = pendingIdxs t from by
              unfold pendingIdxs
              rw [show (mergeSync (r.1, r.2.1)).pendingOutputs = r.1.pendingOutputs from rfl,
                cf3]] at hp
            rw [show deferredIdxs (mergeSync (r.1, r.2.1)) = deferredIdxs t from by
              unfold deferredIdxs
              rw [show (mergeSync (r.1, r.2.1)).deferred = r.1.deferred from rfl, cf4]] at hd
            exact inv.hdone idx hact (by omega) hp hd

theorem processOne_MInv (cfg : Config) (ta : TensorArgs) (alive0 : List Bool)
    (up : MemType) (hE : cfg.copyErr = []) (k : Nat) (s : RState)
    (hk : k < alive0.length) (inv : MInv cfg ta alive0 k s) :
    MInv cfg ta alive0 (k + 1) (processOne cfg ta up k s (respOffset cfg ta k)).1 ∧
    (processOne cfg ta up k s (respOffset cfg ta k)).2 = respOffset cfg ta (k + 1) := by
  unfold processOne
  dsimp only
  obtain ⟨inv1, hoff⟩ :=
    flushStep_MInv cfg ta alive0 k hE (Nat.le_of_lt hk) s (respOffset cfg ta k) inv
  exact ⟨respond_MInv cfg ta alive0 up hE k _ hk inv1 hoff, (respOffset_succ cfg ta k).symm⟩

theorem processLoop_MInv (cfg : Config) (ta : TensorArgs) (alive0 : List Bool)
    (up : MemType) (hE : cfg.copyErr = []) :
    ∀ (m k : Nat) (s : RState), k + m = alive0.length →
    MInv cfg ta alive0 k s →
    MInv cfg ta alive0 alive0.length
      (processLoop cfg ta up (List.range' k m) s (respOffset cfg ta k)).1 := by
  intro m
  induction m with
  | zero =>
    intro k s hkm inv
    have hke : k = alive0.length := by omega
    subst hke
    exact inv
  | succ m ih =>
    intro k s hkm inv
    rw [List.range'_succ k m 1]
    simp only [processLoop]
    obtain ⟨inv2, hoff2⟩ := processOne_MInv cfg ta alive0 up hE k s (by omega) inv
    rw [hoff2]
    exact ih (k + 1) _ (by omega) inv2

theorem initState_slots_length (alive0 : List Bool) :
    (initState alive0).slots.length = alive0.length := by
  simp [initState]

theorem MInv_init (cfg : Config) (ta : TensorArgs) (alive0 : List Bool) :
    MInv cfg ta alive0 0 (initState alive0) := by
  refine ⟨initState_slots_length alive0, rfl, trivial, ?_, ?_, ?_, ?_, ?_, ?_⟩
  · intro p hp
    cases hp
  · intro b hb
    cases hb
  · intro p hp
    cases hp
  · intro idx
    unfold aliveSpec
    rw [decide_eq_false (by omega : ¬idx < 0)]
    by_cases hi : idx < alive0.length
    · show ((initState alive0).slots.getD idx ⟨false, none⟩).alive = _
      unfold initState
      dsimp only
      rw [getD_map_lt alive0 (fun a => Slot.mk a none) idx (Slot.mk false none) false hi]
      simp
    · show ((initState alive0).slots.getD idx ⟨false, none⟩).alive = _
      rw [getD_ge _ _ _ (by rw [initState_slots_length]; omega)]
      rw [getD_ge _ _ _ (by omega)]
      simp
  · intro idx _
    by_cases hi : idx < alive0.length
    · show ((initState alive0).slots.getD idx ⟨false, none⟩).content = none
      unfold initState
      dsimp only
      rw [getD_map_lt alive0 (fun a => Slot.mk a none) idx (Slot.mk false none) false hi]
    · show ((initState alive0).slots.getD idx ⟨false, none⟩).content = none
      rw [getD_ge _ _ _ (by rw [initState_slots_length]; omega)]
  · intro idx _ hlt _ _
    omega

theorem respOffset_zero (cfg : Config) (ta : TensorArgs) : respOffset cfg ta 0 = 0 := rfl

/-- A state transformation that only extends the trace keeps the invariant. -/
theorem MInv_trace (cfg : Config) (ta : TensorArgs) (alive0 : List Bool) (k : Nat)
    (s : RState) (tr : List Ev) (inv : MInv cfg ta alive0 k s) :
    MInv cfg ta alive0 k { s with trace := tr } :=
  ⟨inv.hlen, inv.hbytes, inv.hgood, inv.hPidx, inv.hdefG, inv.hdisj, inv.halive,
   inv.hnone, inv.hdone⟩

/-- After a full ProcessTensor from a fresh state the invariant holds at
the full count and the pending run is gone. -/
theorem ProcessTensor_MInv (cfg : Config) (ta : TensorArgs) (alive0 : List Bool)
    (hE : cfg.copyErr = []) :
    MInv cfg ta alive0 alive0.length (ProcessTensor cfg ta (initState alive0)) ∧
    (ProcessTensor cfg ta (initState alive0)).pendingBytes = 0 ∧
    (ProcessTensor cfg ta (initState alive0)).pendingOutputs = [] := by
  unfold ProcessTensor
  dsimp only
  rw [initState_slots_length alive0, List.range_eq_range' alive0.length]
  have hloop := processLoop_MInv cfg ta alive0
    (usePinnedMemoryType cfg.pinnedEnabled ta.memType) hE alive0.length 0
    (initState alive0) (by omega) (MInv_init cfg ta alive0)
  rw [respOffset_zero] at hloop
  obtain ⟨invF, hb, ho⟩ := flush_MInv cfg ta alive0 alive0.length hE (Nat.le_refl _) _ hloop
  split
  · exact ⟨MInv_trace _ _ _ _ _ _ invF, hb, ho⟩
  · exact ⟨invF, hb, ho⟩

/-- Fan-out over a list of deferred blocks: every fragment index receives
its expected slice, other slots keep their content, aliveness is
untouched. -/
theorem finalizeBlocks_master (cfg : Config) (ta : TensorArgs) (hE : cfg.copyErr = []) :
    ∀ (blocks : List DeferredPinned) (s : RState),
    (∀ b ∈ blocks, b.pid < s.pinnedContents.length ∧
      goodPinned cfg ta (s.pinnedContents.getD b.pid []) 0 b.frags ∧
      ∀ p ∈ b.frags, p.1 < s.slots.length) →
    (∀ j, (slotAt (finalizeBlocks cfg blocks s) j).alive = (slotAt s j).alive) ∧
    (∀ j, (slotAt (finalizeBlocks cfg blocks s) j).content =
      if j ∈ blocks.flatMap (fun b => b.frags.map Prod.fst)
      then some (expectedSlice cfg ta j) else (slotAt s j).content) := by
  intro blocks
  induction blocks with
  | nil =>
    intro s _
    exact ⟨fun j => rfl, fun j => by simp [finalizeBlocks]⟩
  | cons b rest ih =>
    intro s hyp
    obtain ⟨hb1, hb2, hb3⟩ := hyp b (List.mem_cons_self _ _)
    obtain ⟨hfa, hfc, _, _⟩ := fanoutCopies_spec cfg ta b.pid hE b.frags 0 s hb2 hb3
    simp only [finalizeBlocks]
    set r := fanoutCopies cfg b.pid b.frags 0 s with hrdef
    have hfr := frame_eq_fields (frameOf_fanoutCopies cfg b.pid b.frags 0 s)
    set s2 : RState := { r.1 with needSync := r.1.needSync || r.2 } with hs2
    have hs2slot : ∀ j, slotAt s2 j = slotAt r.1 j := fun j => rfl
    have hs2pc : s2.pinnedContents = s.pinnedContents := hfr.2.2.2.2.2.1
    have hs2sl : s2.slots.length = s.slots.length := hfr.2.2.2.2.2.2.2.2
    obtain ⟨iha, ihc⟩ := ih s2 (by
      intro b2 hb2m
      obtain ⟨g1, g2, g3⟩ := hyp b2 (List.mem_cons_of_mem _ hb2m)
      refine ⟨by rw [hs2pc]; exact g1, by rw [hs2pc]; exact g2, ?_⟩
      intro p hp
      rw [hs2sl]
      exact g3 p hp)
    constructor
    · intro j
      rw [iha j, hs2slot j, hfa j]
    · intro j
      rw [ihc j]
      by_cases hjr : j ∈ rest.flatMap (fun b => b.frags.map Prod.fst)
      · rw [if_pos hjr, if_pos (by simp [List.mem_flatMap] at hjr ⊢; right; exact hjr)]
      · rw [if_neg hjr, hs2slot j, hfc j]
        by_cases hjb : j ∈ b.frags.map Prod.fst
        · rw [if_pos hjb, if_pos (by simp [List.mem_flatMap] at hjb ⊢; left; exact hjb)]
        · rw [if_neg hjb, if_neg (by
            intro hm
            simp only [List.flatMap_cons, List.mem_append] at hm
            rcases hm with hm | hm
            · exact hjb hm
            · exact hjr hm)]

theorem getD_true_lt (alive0 : List Bool) (j : Nat) (h : alive0.getD j false = true) :
    j < alive0.length := by
  by_contra hc
  rw [getD_ge _ _ _ (by omega)] at h
  cases h

/-- Finalize completes every active slot with its expected slice. -/
theorem Finalize_master (cfg : Config) (ta : TensorArgs) (alive0 : List Bool)
    (hE : cfg.copyErr = []) (s : RState)
    (inv : MInv cfg ta alive0 alive0.length s) (hp : s.pendingOutputs = []) :
    (∀ j, (slotAt (Finalize cfg s).1 j).alive = aliveSpec cfg ta alive0 alive0.length j) ∧
    (∀ j, (slotAt (Finalize cfg s).1 j).content =
      if activeB cfg ta alive0 j = true then some (expectedSlice cfg ta j) else none) := by
  unfold Finalize
  dsimp only
  set s1 := if s.deferred ≠ [] ∧ s.needSync = true then
    { s with needSync := false, trace := s.trace ++ [Ev.sync cfg.hasEvent] } else s with hs1
  have h1 : s1.slots = s.slots ∧ s1.deferred = s.deferred ∧
      s1.pinnedContents = s.pinnedContents := by
    rw [hs1]
    split <;> exact ⟨rfl, rfl, rfl⟩
  have h1slot : ∀ j, slotAt s1 j = slotAt s j := by
    intro j
    simp only [slotAt, h1.1]
  obtain ⟨ba, bc⟩ := finalizeBlocks_master cfg ta hE s1.deferred s1 (by
    rw [h1.2.1]
    intro b hb
    obtain ⟨g1, g2, g3⟩ := inv.hdefG b hb
    refine ⟨by rw [h1.2.2]; exact g1, by rw [h1.2.2]; exact g2, ?_⟩
    intro p hpm
    rw [h1.1, inv.hlen]
    exact Nat.lt_of_lt_of_le (g3 p hpm).1 (Nat.le_refl _))
  set s2 := finalizeBlocks cfg s1.deferred s1 with hs2
  set s3 := if s2.deferred ≠ [] ∧ s2.needSync = true ∧ cfg.hasEvent = true then
    { s2 with trace := s2.trace ++ [Ev.record] } else s2 with hs3
  have h3slot : ∀ j, slotAt s3 j = slotAt s2 j := by
    intro j
    rw [hs3]
    split <;> rfl
  have h4slot : ∀ j, slotAt { s3 with deferred := ([] : List DeferredPinned) } j =
      slotAt s3 j := fun j => rfl
  constructor
  · intro j
    rw [h4slot j, h3slot j, ba j, h1slot j]
    exact inv.halive j
  · intro j
    rw [h4slot j, h3slot j, bc j]
    have hdix : s1.deferred.flatMap (fun b => b.frags.map Prod.fst) = deferredIdxs s := by
      unfold deferredIdxs
      rw [h1.2.1]
    cases hact : activeB cfg ta alive0 j
    · rw [if_neg (show ¬((false : Bool) = true) by simp)]
      have hno : (slotAt s j).content = none := inv.hnone j hact
      by_cases hmem : j ∈ s1.deferred.flatMap (fun b => b.frags.map Prod.fst)
      · exfalso
        rw [hdix] at hmem
        obtain ⟨b, hb, p, hpm, hpe⟩ := (mem_deferredIdxs s j).mp hmem
        have := ((inv.hdefG b hb).2.2 p hpm).2
        rw [hpe, hact] at this
        cases this
      · rw [if_neg hmem, h1slot j]
        exact hno
    · rw [if_pos (show (true : Bool) = true from rfl)]
      by_cases hmem : j ∈ s1.deferred.flatMap (fun b => b.frags.map Prod.fst)
      · rw [if_pos hmem]
      · rw [if_neg hmem, h1slot j]
        obtain ⟨g1, g2, g3⟩ := (activeB_eq_true cfg ta alive0 j).mp hact
        apply inv.hdone j hact (getD_true_lt alive0 j g1)
        · unfold pendingIdxs
          rw [hp]
          simp
        · rw [hdix] at hmem
          exact hmem

/-- The end-to-end characterization: after ProcessTensor on a fresh
responder followed by Finalize, with no copy errors, a slot is alive
unless its buffer allocation failed, and it holds exactly the expected
slice of the source buffer when it is active (initially live, requested
the output, allocation succeeded), nothing otherwise. -/
theorem responder_master (cfg : Config) (ta : TensorArgs) (alive0 : List Bool)
    (hE : cfg.copyErr = []) :
    (∀ j, (slotAt (Finalize cfg (ProcessTensor cfg ta (initState alive0))).1 j).alive =
      aliveSpec cfg ta alive0 alive0.length j) ∧
    (∀ j, (slotAt (Finalize cfg (ProcessTensor cfg ta (initState alive0))).1 j).content =
      if activeB cfg ta alive0 j = true then some (expectedSlice cfg ta j) else none) := by
  obtain ⟨inv, _, hpo⟩ := ProcessTensor_MInv cfg ta alive0 hE
  exact Finalize_master cfg ta alive0 hE _ inv hpo

/-- The state after one ProcessTensor call on a fresh responder followed
by Finalize (the synchronization its return value demands is part of the
copy model: copies land immediately, need_sync tracks the obligation). -/
def finalState (cfg : Config) (ta : TensorArgs) (alive0 : List Bool) : RState :=
  (Finalize cfg (ProcessTensor cfg ta (initState alive0))).1

/-- C1: Content preservation, output direction.  For every batch (request
environments, initial aliveness) and every source buffer, after
ProcessTensor and Finalize with no copy errors, the concatenation of the
response output buffers, taken in request order over exactly the non-null
responses that requested the output, equals the concatenation of the
corresponding slices of the source buffer at the running tensor_offset. -/
theorem C1_content_preservation (cfg : Config) (ta : TensorArgs) (alive0 : List Bool)
    (hE : cfg.copyErr = []) :
    (((List.range alive0.length).filter (fun i =>
        (slotAt (finalState cfg ta alive0) i).alive && requested cfg ta i)).map
      (fun i => ((slotAt (finalState cfg ta alive0) i).content.getD []))).flatten =
    (((List.range alive0.length).filter (fun i =>
        (slotAt (finalState cfg ta alive0) i).alive && requested cfg ta i)).map
      (fun i => sliceBytes ta.buf (respOffset cfg ta i) (respSize cfg ta i))).flatten := by
  obtain ⟨ma, mc⟩ := responder_master cfg ta alive0 hE
  apply congrArg List.flatten
  apply List.map_congr_left
  intro i hi
  have hp := List.of_mem_filter hi
  have hlt : i < alive0.length := List.mem_range.mp (List.mem_of_mem_filter hi)
  have hpa : (slotAt (finalState cfg ta alive0) i).alive = true ∧
      requested cfg ta i = true := by
    simpa [Bool.and_eq_true] using hp
  have mai : (slotAt (finalState cfg ta alive0) i).alive =
      aliveSpec cfg ta alive0 alive0.length i := ma i
  have mci : (slotAt (finalState cfg ta alive0) i).content =
      (if activeB cfg ta alive0 i = true then some (expectedSlice cfg ta i) else none) :=
    mc i
  have hact : activeB cfg ta alive0 i = true := by
    have key := hpa.1
    rw [mai] at key
    unfold aliveSpec at key
    rw [decide_eq_true hlt, hpa.2] at key
    unfold activeB
    rw [hpa.2]
    cases ha : alive0.getD i false <;> cases hf : allocFailsAt cfg i <;> simp_all
  rw [mci, if_pos hact]
  rfl

/-- Concrete inputs for the closed witnesses. -/
def cfgW : Config :=
  { maxBatchSize := 0, pinnedEnabled := true, hasEvent := false,
    reqs := [⟨["O"], 1, MemType.CPU, 0, false⟩, ⟨["O"], 1, MemType.CPU, 0, false⟩],
    pinnedAllocOk := [], copyErr := [] }

def taW : TensorArgs :=
  { outputName := "O", datatype := 2, shape := [3],
    buf := [1, 2, 3, 4, 5, 6, 7, 8, 9, 10, 11, 12], memType := MemType.GPU, memTypeId := 0 }

theorem C1_content_preservation_witness :
    cfgW.copyErr = [] ∧
    ((((List.range ([true, true] : List Bool).length).filter (fun i =>
        (slotAt (finalState cfgW taW [true, true]) i).alive && requested cfgW taW i)).map
      (fun i => ((slotAt (finalState cfgW taW [true, true]) i).content.getD []))).flatten =
    (((List.range ([true, true] : List Bool).length).filter (fun i =>
        (slotAt (finalState cfgW taW [true, true]) i).alive && requested cfgW taW i)).map
      (fun i => sliceBytes taW.buf (respOffset cfgW taW i) (respSize cfgW taW i))).flatten) :=
  ⟨rfl, C1_content_preservation cfgW taW [true, true] rfl⟩

/-- C2: Pinned staging is semantically transparent.  With no copy errors,
the response buffer contents after ProcessTensor plus Finalize do not
depend on pinned_enabled nor on the pinned-allocation oracle at all: the
pinned_enabled=true run (under any allocation oracle, including one that
always fails) is byte-identical to the pinned_enabled=false run. -/
theorem C2_pinned_equivalence (cfg : Config) (ta : TensorArgs) (alive0 : List Bool)
    (hE : cfg.copyErr = []) (pok1 pok2 : List Bool) (j : Nat) :
    (slotAt (finalState { cfg with pinnedEnabled := true, pinnedAllocOk := pok1 }
      ta alive0) j).content =
    (slotAt (finalState { cfg with pinnedEnabled := false, pinnedAllocOk := pok2 }
      ta alive0) j).content := by
  obtain ⟨_, mc1⟩ := responder_master
    { cfg with pinnedEnabled := true, pinnedAllocOk := pok1 } ta alive0 hE
  obtain ⟨_, mc2⟩ := responder_master
    { cfg with pinnedEnabled := false, pinnedAllocOk := pok2 } ta alive0 hE
  have h1 : (slotAt (finalState { cfg with pinnedEnabled := true, pinnedAllocOk := pok1 }
      ta alive0) j).content =
      (if activeB { cfg with pinnedEnabled := true, pinnedAllocOk := pok1 } ta alive0 j = true
       then some (expectedSlice { cfg with pinnedEnabled := true, pinnedAllocOk := pok1 } ta j)
       else none) := mc1 j
  have h2 : (slotAt (finalState { cfg with pinnedEnabled := false, pinnedAllocOk := pok2 }
      ta alive0) j).content =
      (if activeB { cfg with pinnedEnabled := false, pinnedAllocOk := pok2 } ta alive0 j = true
       then some (expectedSlice { cfg with pinnedEnabled := false, pinnedAllocOk := pok2 } ta j)
       else none) := mc2 j
  rw [h1, h2]
  rfl

theorem C2_pinned_equivalence_witness :
    cfgW.copyErr = [] ∧
    ((slotAt (finalState { cfgW with pinnedEnabled := true, pinnedAllocOk := [false, false] }
      taW [true, true]) 0).content =
    (slotAt (finalState { cfgW with pinnedEnabled := false, pinnedAllocOk := [] }
      taW [true, true]) 0).content) :=
  ⟨rfl, C2_pinned_equivalence cfgW taW [true, true] rfl [false, false] [] 0⟩

/-- C8: a response slot that is null or whose request did not ask for the
processed output is handled without any allocation or copy (the state is
left completely unchanged by the response-handling body), yet
tensor_offset still advances by that response's tensor byte size, so the
source slices of subsequent responses are unaffected. -/
theorem C8_skipped_slots (cfg : Config) (ta : TensorArgs) (up : MemType) (idx : Nat)
    (s : RState) (off : Nat)
    (h : (slotAt s idx).alive = false ∨ requested cfg ta idx = false) :
    respondStep cfg ta up idx s off = s ∧
    (processOne cfg ta up idx s off).2 = off + respSize cfg ta idx := by
  constructor
  · unfold respondStep
    rw [if_neg]
    rintro ⟨h1, h2⟩
    rcases h with hh | hh
    · rw [h1] at hh
      cases hh
    · rw [h2] at hh
      cases hh
  · rfl

theorem C8_skipped_slots_witness :
    ((slotAt (initState [false, true]) 0).alive = false ∨
      requested cfgW taW 0 = false) ∧
    (respondStep cfgW taW MemType.CPU 0 (initState [false, true]) 0 = initState [false, true] ∧
     (processOne cfgW taW MemType.CPU 0 (initState [false, true]) 0).2 =
       0 + respSize cfgW taW 0) :=
  ⟨Or.inl (by decide),
   C8_skipped_slots cfgW taW MemType.CPU 0 (initState [false, true]) 0 (Or.inl (by decide))⟩

/-! ### C7: the pending-run invariant -/

theorem contiguousFrags_append_single :
    ∀ (l : List (Nat × OutputData)) (base : Nat) (x : Nat × OutputData),
    contiguousFrags base l → x.2.srcOff = base + fragsSizes l →
    contiguousFrags base (l ++ [x]) := by
  intro l
  induction l with
  | nil =>
    intro base x _ hx
    refine ⟨?_, trivial⟩
    rw [hx]
    simp [fragsSizes]
  | cons p rest ih =>
    obtain ⟨i, od⟩ := p
    intro base x hg hx
    obtain ⟨h1, h2⟩ := hg
    refine ⟨h1, ?_⟩
    apply ih _ _ h2
    rw [hx]
    simp [fragsSizes]
    omega

theorem fragsSizes_pos_nil (l : List (Nat × OutputData))
    (hz : fragsSizes l = 0) (hpos : ∀ p ∈ l, 0 < p.2.size) : l = [] := by
  cases l with
  | nil => rfl
  | cons p rest =>
    exfalso
    have h1 := hpos p (List.mem_cons_self _ _)
    have h2 : fragsSizes (p :: rest) = p.2.size + fragsSizes rest := by
      simp [fragsSizes]
    omega

/-- Every flush path (direct fallback, allocation failure, bulk error,
synchronous fan-out, deferral) resets the pending run. -/
theorem flush_clears (cfg : Config) (buf : List Nat) (mem : MemType) (s : RState) :
    (FlushPendingPinned cfg buf mem s).1.pendingBytes = 0 ∧
    (FlushPendingPinned cfg buf mem s).1.pendingOutputs = [] ∧
    (FlushPendingPinned cfg buf mem s).1.pendingOffset = 0 := by
  unfold FlushPendingPinned
  dsimp only
  cases (allocPinned cfg s).2 <;> exact ⟨rfl, rfl, rfl⟩

/-- After ProcessTensor returns, whatever the starting state, no pending
pinned run exists. -/
theorem ProcessTensor_clears (cfg : Config) (ta : TensorArgs) (s : RState) :
    (ProcessTensor cfg ta s).pendingBytes = 0 ∧
    (ProcessTensor cfg ta s).pendingOutputs = [] := by
  unfold ProcessTensor
  dsimp only
  obtain ⟨c1, c2, _⟩ := flush_clears cfg ta.buf ta.memType
    (processLoop cfg ta (usePinnedMemoryType cfg.pinnedEnabled ta.memType)
      (List.range s.slots.length) s 0).1
  split <;> exact ⟨c1, c2⟩

theorem pendingRunInv_empty (s : RState) (h1 : s.pendingBytes = 0)
    (h2 : s.pendingOutputs = []) : pendingRunInv s := by
  refine ⟨?_, ?_, ?_⟩
  · rw [h1, h2]
    rfl
  · rw [h2]
    trivial
  · rw [h2]
    intro p hp
    cases hp

/-- One loop iteration preserves the pending-run invariant (for any copy
and allocation oracle), provided the processed response's byte size is
positive. -/
theorem pendingRunInv_processOne (cfg : Config) (ta : TensorArgs) (up : MemType)
    (idx : Nat) (s : RState) (off : Nat) (hpos : 0 < respSize cfg ta idx)
    (inv : pendingRunInv s) : pendingRunInv (processOne cfg ta up idx s off).1 := by
  unfold processOne
  dsimp only
  have hT : pendingRunInv (flushStep cfg ta s off) ∧
      ((flushStep cfg ta s off).pendingBytes = 0 ∨
        off = (flushStep cfg ta s off).pendingBytes +
          (flushStep cfg ta s off).pendingOffset) := by
    unfold flushStep
    split
    · obtain ⟨c1, c2, _⟩ := flush_clears cfg ta.buf ta.memType s
      exact ⟨pendingRunInv_empty _ c1 c2, Or.inl c1⟩
    · rename_i hcond
      push_neg at hcond
      refine ⟨inv, ?_⟩
      by_cases hz : s.pendingBytes = 0
      · exact Or.inl hz
      · exact Or.inr (hcond (Nat.pos_of_ne_zero hz))
  set t := flushStep cfg ta s off with ht
  obtain ⟨invT, hoffT⟩ := hT
  unfold respondStep
  split
  · unfold SetFixedSizeOutputBuffer
    dsimp only
    split
    · -- allocation failure: the slot is failed, pending untouched
      obtain ⟨kf1, kf2, kf3, _⟩ := killSlot_fields t idx
      refine ⟨?_, ?_, ?_⟩
      · show (killSlot t idx).pendingBytes = fragsSizes (killSlot t idx).pendingOutputs
        rw [kf1, kf3]
        exact invT.1
      · show contiguousFrags (killSlot t idx).pendingOffset (killSlot t idx).pendingOutputs
        rw [kf2, kf3]
        exact invT.2.1
      · show ∀ p ∈ (killSlot t idx).pendingOutputs, 0 < p.2.size
        rw [kf3]
        exact invT.2.2
    · split
      · -- staged on the pending run
        refine ⟨?_, ?_, ?_⟩
        · show t.pendingBytes + respSize cfg ta idx =
            fragsSizes (t.pendingOutputs ++ [(idx, _)])
          rw [fragsSizes_append, invT.1]
        · show contiguousFrags
            (if t.pendingBytes = 0 then off else t.pendingOffset)
            (t.pendingOutputs ++ [(idx, _)])
          by_cases hz : t.pendingBytes = 0
          · rw [if_pos hz]
            have hnil : t.pendingOutputs = [] :=
              fragsSizes_pos_nil _ (by rw [← invT.1]; exact hz) invT.2.2
            rw [hnil]
            exact ⟨rfl, trivial⟩
          · rw [if_neg hz]
            apply contiguousFrags_append_single _ _ _ invT.2.1
            show off = t.pendingOffset + fragsSizes t.pendingOutputs
            rcases hoffT with h | h
            · exact absurd h hz
            · rw [← invT.1]
              omega
        · intro p hp
          rcases List.mem_append.mp hp with hm | hm
          · exact invT.2.2 p hm
          · have : p = (idx, ⟨ta.outputName, idx, respSize cfg ta idx,
                (cfg.reqs.getD idx default).allocMemType,
                (cfg.reqs.getD idx default).allocMemTypeId, off⟩) := by
              simpa using hm
            rw [this]
            exact hpos
      · -- direct copy: pending untouched
        obtain ⟨cf1, cf2, cf3, _⟩ := copyBuffer_fields cfg ta.memType
          (cfg.reqs.getD idx default).allocMemType (respSize cfg ta idx)
          (CopySrc.tensor off) (CopyDst.resp idx)
          (sliceBytes ta.buf off (respSize cfg ta idx)) t
        split
        · obtain ⟨kf1, kf2, kf3, _⟩ := killSlot_fields (copyBuffer cfg ta.memType
            (cfg.reqs.getD idx default).allocMemType (respSize cfg ta idx)
            (CopySrc.tensor off) (CopyDst.resp idx)
            (sliceBytes ta.buf off (respSize cfg ta idx)) t).1 idx
          refine ⟨?_, ?_, ?_⟩
          · show (killSlot (copyBuffer cfg ta.memType
              (cfg.reqs.getD idx default).allocMemType (respSize cfg ta idx)
              (CopySrc.tensor off) (CopyDst.resp idx)
              (sliceBytes ta.buf off (respSize cfg ta idx)) t).1 idx).pendingBytes =
              fragsSizes (killSlot (copyBuffer cfg ta.memType
              (cfg.reqs.getD idx default).allocMemType (respSize cfg ta idx)
              (CopySrc.tensor off) (CopyDst.resp idx)
              (sliceBytes ta.buf off (respSize cfg ta idx)) t).1 idx).pendingOutputs
            rw [kf1, kf3, cf1, cf3]
            exact invT.1
          · show contiguousFrags (killSlot (copyBuffer cfg ta.memType
              (cfg.reqs.getD idx default).allocMemType (respSize cfg ta idx)
              (CopySrc.tensor off) (CopyDst.resp idx)
              (sliceBytes ta.buf off (respSize cfg ta idx)) t).1 idx).pendingOffset
              (killSlot (copyBuffer cfg ta.memType
              (cfg.reqs.getD idx default).allocMemType (respSize cfg ta idx)
              (CopySrc.tensor off) (CopyDst.resp idx)
              (sliceBytes ta.buf off (respSize cfg ta idx)) t).1 idx).pendingOutputs
            rw [kf2, kf3, cf2, cf3]
            exact invT.2.1
          · show ∀ p ∈ (killSlot (copyBuffer cfg ta.memType
              (cfg.reqs.getD idx default).allocMemType (respSize cfg ta idx)
              (CopySrc.tensor off) (CopyDst.resp idx)
              (sliceBytes ta.buf off (respSize cfg ta idx)) t).1 idx).pendingOutputs,
              0 < p.2.size
            rw [kf3, cf3]
            exact invT.2.2
        · refine ⟨?_, ?_, ?_⟩
          · show (copyBuffer cfg ta.memType
              (cfg.reqs.getD idx default).allocMemType (respSize cfg ta idx)
              (CopySrc.tensor off) (CopyDst.resp idx)
              (sliceBytes ta.buf off (respSize cfg ta idx)) t).1.pendingBytes =
              fragsSizes (copyBuffer cfg ta.memType
              (cfg.reqs.getD idx default).allocMemType (respSize cfg ta idx)
              (CopySrc.tensor off) (CopyDst.resp idx)
              (sliceBytes ta.buf off (respSize cfg ta idx)) t).1.pendingOutputs
            rw [cf1, cf3]
            exact invT.1
          · show contiguousFrags (copyBuffer cfg ta.memType
              (cfg.reqs.getD idx default).allocMemType (respSize cfg ta idx)
              (CopySrc.tensor off) (CopyDst.resp idx)
              (sliceBytes ta.buf off (respSize cfg ta idx)) t).1.pendingOffset
              (copyBuffer cfg ta.memType
              (cfg.reqs.getD idx default).allocMemType (respSize cfg ta idx)
              (CopySrc.tensor off) (CopyDst.resp idx)
              (sliceBytes ta.buf off (respSize cfg ta idx)) t).1.pendingOutputs
            rw [cf2, cf3]
            exact invT.2.1
          · show ∀ p ∈ (copyBuffer cfg ta.memType
              (cfg.reqs.getD idx default).allocMemType (respSize cfg ta idx)
              (CopySrc.tensor off) (CopyDst.resp idx)
              (sliceBytes ta.buf off (respSize cfg ta idx)) t).1.pendingOutputs,
              0 < p.2.size
            rw [cf3]
            exact invT.2.2
  · exact invT

/-- C7: the pending-run invariant.  One loop iteration preserves it (for
nonempty outputs); a response whose slice breaks contiguity forces a flush
before its handling; every flush path resets the run; after ProcessTensor
returns no pending run exists. -/
theorem C7_pending_run_invariant (cfg : Config) (ta : TensorArgs) (up : MemType) :
    (∀ (s : RState) (off idx : Nat), pendingRunInv s → 0 < respSize cfg ta idx →
      pendingRunInv (processOne cfg ta up idx s off).1) ∧
    (∀ (s : RState) (off idx : Nat),
      s.pendingBytes > 0 → off ≠ s.pendingBytes + s.pendingOffset →
      processOne cfg ta up idx s off =
        (respondStep cfg ta up idx
          (mergeSync (FlushPendingPinned cfg ta.buf ta.memType s)) off,
         off + respSize cfg ta idx)) ∧
    (∀ (buf : List Nat) (mem : MemType) (s : RState),
      (FlushPendingPinned cfg buf mem s).1.pendingBytes = 0 ∧
      (FlushPendingPinned cfg buf mem s).1.pendingOutputs = []) ∧
    (∀ (s : RState), (ProcessTensor cfg ta s).pendingBytes = 0 ∧
      (ProcessTensor cfg ta s).pendingOutputs = []) := by
  refine ⟨?_, ?_, ?_, ?_⟩
  · intro s off idx hinv hpos
    exact pendingRunInv_processOne cfg ta up idx s off hpos hinv
  · intro s off idx h1 h2
    unfold processOne flushStep
    rw [if_pos ⟨h1, h2⟩]
  · intro buf mem s
    obtain ⟨c1, c2, _⟩ := flush_clears cfg buf mem s
    exact ⟨c1, c2⟩
  · exact ProcessTensor_clears cfg ta

theorem C7_pending_run_invariant_witness :
    (pendingRunInv (initState [true, true]) → 0 < respSize cfgW taW 0 →
      pendingRunInv (processOne cfgW taW MemType.CPU 0 (initState [true, true]) 0).1) ∧
    (pendingRunInv (processOne cfgW taW MemType.CPU 0 (initState [true, true]) 0).1) ∧
    ((ProcessTensor cfgW taW (initState [true, true])).pendingBytes = 0 ∧
      (ProcessTensor cfgW taW (initState [true, true])).pendingOutputs = []) := by
  have h := C7_pending_run_invariant cfgW taW MemType.CPU
  refine ⟨h.1 (initState [true, true]) 0 0, ?_, h.2.2.2 (initState [true, true])⟩
  exact h.1 (initState [true, true]) 0 0 (pendingRunInv_empty _ rfl rfl) (by decide)

/-! ### C10: a CPU_PINNED source disables staging -/

theorem mergeSync_proj (r : RState × Bool) :
    (mergeSync r).pendingBytes = r.1.pendingBytes ∧
    (mergeSync r).pendingOffset = r.1.pendingOffset ∧
    (mergeSync r).pendingOutputs = r.1.pendingOutputs ∧
    (mergeSync r).deferred = r.1.deferred ∧
    (mergeSync r).pinnedMemories = r.1.pinnedMemories ∧
    (mergeSync r).pinnedContents = r.1.pinnedContents ∧
    (mergeSync r).allocCount = r.1.allocCount ∧
    (mergeSync r).copyCount = r.1.copyCount ∧
    (mergeSync r).slots = r.1.slots ∧
    (mergeSync r).trace = r.1.trace :=
  ⟨rfl, rfl, rfl, rfl, rfl, rfl, rfl, rfl, rfl, rfl⟩

theorem usePinned_pinned (pe : Bool) :
    usePinnedMemoryType pe MemType.CPU_PINNED = MemType.CPU_PINNED := by
  unfold usePinnedMemoryType
  rw [if_neg]
  intro h
  exact h.2 rfl

/-- An event is neither an allocation nor a staging-related copy: not an
alloc event, and if a copy then straight from the tensor buffer into a
response buffer. -/
def directOnlyEv (e : Ev) : Prop :=
  (∀ sz ok, e ≠ Ev.alloc sz ok) ∧
  (∀ c : CopyEv, e = Ev.copy c →
    (∃ o, c.src = CopySrc.tensor o) ∧ ∃ i, c.dst = CopyDst.resp i)

theorem processOne_pinnedSrc (cfg : Config) (ta : TensorArgs) (idx : Nat)
    (s : RState) (off : Nat) (hz : s.pendingBytes = 0) (ho : s.pendingOutputs = []) :
    (processOne cfg ta MemType.CPU_PINNED idx s off).1.allocCount = s.allocCount ∧
    (processOne cfg ta MemType.CPU_PINNED idx s off).1.pinnedMemories = s.pinnedMemories ∧
    (processOne cfg ta MemType.CPU_PINNED idx s off).1.pinnedContents = s.pinnedContents ∧
    (processOne cfg ta MemType.CPU_PINNED idx s off).1.deferred = s.deferred ∧
    (processOne cfg ta MemType.CPU_PINNED idx s off).1.pendingBytes = 0 ∧
    (processOne cfg ta MemType.CPU_PINNED idx s off).1.pendingOutputs = [] ∧
    ∃ evs, (processOne cfg ta MemType.CPU_PINNED idx s off).1.trace = s.trace ++ evs ∧
      ∀ e ∈ evs, directOnlyEv e := by
  unfold processOne
  dsimp only
  have hfs : flushStep cfg ta s off = s := by
    unfold flushStep
    rw [if_neg]
    intro h
    omega
  rw [hfs]
  unfold respondStep
  split
  · unfold SetFixedSizeOutputBuffer
    dsimp only
    split
    · -- allocation failure path
      obtain ⟨kf1, kf2, kf3, kf4, kf5, kf6, kf7, kf8, kf9⟩ := killSlot_fields s idx
      obtain ⟨mp1, mp2, mp3, mp4, mp5, mp6, mp7, mp8, mp9, mp10⟩ :=
        mergeSync_proj (killSlot s idx, false)
      refine ⟨by rw [mp7]; exact kf9, by rw [mp5]; exact kf5, by rw [mp6]; exact kf6,
        by rw [mp4]; exact kf4, by rw [mp1, kf1]; exact hz, by rw [mp3, kf3]; exact ho, ?_⟩
      refine ⟨(if (slotAt s idx).alive then [Ev.send idx] else []),
        by rw [mp10]; exact killSlot_trace s idx, ?_⟩
      intro e he
      split at he
      · have : e = Ev.send idx := by simpa using he
        rw [this]
        exact ⟨fun sz ok h => Ev.noConfusion h, fun c h => Ev.noConfusion h⟩
      · cases he
    · split
      · -- staging branch is unreachable: use_pinned is CPU_PINNED
        rename_i hstage
        exact absurd rfl hstage.1
      · -- direct copy, possibly followed by a response failure
        obtain ⟨cf1, cf2, cf3, cf4, cf5, cf6, cf7, cf8⟩ := copyBuffer_fields cfg
          ta.memType (cfg.reqs.getD idx default).allocMemType (respSize cfg ta idx)
          (CopySrc.tensor off) (CopyDst.resp idx)
          (sliceBytes ta.buf off (respSize cfg ta idx)) s
        have hct := copyBuffer_trace cfg ta.memType
          (cfg.reqs.getD idx default).allocMemType (respSize cfg ta idx)
          (CopySrc.tensor off) (CopyDst.resp idx)
          (sliceBytes ta.buf off (respSize cfg ta idx)) s
        have hcpc := copyBuffer_resp_pinnedContents cfg ta.memType
          (cfg.reqs.getD idx default).allocMemType (respSize cfg ta idx)
          (CopySrc.tensor off) idx
          (sliceBytes ta.buf off (respSize cfg ta idx)) s
        set r := copyBuffer cfg ta.memType (cfg.reqs.getD idx default).allocMemType
          (respSize cfg ta idx) (CopySrc.tensor off) (CopyDst.resp idx)
          (sliceBytes ta.buf off (respSize cfg ta idx)) s with hrd
        have hcopyev : directOnlyEv (Ev.copy ⟨CopySrc.tensor off, CopyDst.resp idx,
            ta.memType, (cfg.reqs.getD idx default).allocMemType, respSize cfg ta idx,
            (if cfg.copyErr.getD s.copyCount false then false
             else cudaUsed ta.memType (cfg.reqs.getD idx default).allocMemType),
            cfg.copyErr.getD s.copyCount false⟩) := by
          refine ⟨fun sz ok h => Ev.noConfusion h, fun c h => ?_⟩
          have : c = ⟨CopySrc.tensor off, CopyDst.resp idx, ta.memType,
            (cfg.reqs.getD idx default).allocMemType, respSize cfg ta idx,
            (if cfg.copyErr.getD s.copyCount false then false
             else cudaUsed ta.memType (cfg.reqs.getD idx default).allocMemType),
            cfg.copyErr.getD s.copyCount false⟩ := by
            injection h with h1
            exact h1.symm
          rw [this]
          exact ⟨⟨off, rfl⟩, ⟨idx, rfl⟩⟩
        split
        · obtain ⟨kf1, kf2, kf3, kf4, kf5, kf6, kf7, kf8, kf9⟩ := killSlot_fields r.1 idx
          obtain ⟨mp1, mp2, mp3, mp4, mp5, mp6, mp7, mp8, mp9, mp10⟩ :=
            mergeSync_proj (killSlot r.1 idx, r.2.1)
          refine ⟨by rw [mp7, kf9, hrd, cf7], by rw [mp5, kf5, hrd, cf5],
            by rw [mp6, kf6, hrd, hcpc], by rw [mp4, kf4, hrd, cf4],
            by rw [mp1, kf1, hrd, cf1]; exact hz,
            by rw [mp3, kf3, hrd, cf3]; exact ho, ?_⟩
          refine ⟨[Ev.copy ⟨CopySrc.tensor off, CopyDst.resp idx, ta.memType,
            (cfg.reqs.getD idx default).allocMemType, respSize cfg ta idx,
            (if cfg.copyErr.getD s.copyCount false then false
             else cudaUsed ta.memType (cfg.reqs.getD idx default).allocMemType),
            cfg.copyErr.getD s.copyCount false⟩] ++
            (if (slotAt r.1 idx).alive then [Ev.send idx] else []), ?_, ?_⟩
          · rw [mp10, killSlot_trace r.1 idx]
            rw [show r.1.trace = s.trace ++ [Ev.copy ⟨CopySrc.tensor off, CopyDst.resp idx,
              ta.memType, (cfg.reqs.getD idx default).allocMemType, respSize cfg ta idx,
              (if cfg.copyErr.getD s.copyCount false then false
               else cudaUsed ta.memType (cfg.reqs.getD idx default).allocMemType),
              cfg.copyErr.getD s.copyCount false⟩] from by rw [hrd]; exact hct]
            rw [List.append_assoc]
          · intro e he
            rcases List.mem_append.mp he with hm | hm
            · have : e = Ev.copy ⟨CopySrc.tensor off, CopyDst.resp idx, ta.memType,
                (cfg.reqs.getD idx default).allocMemType, respSize cfg ta idx,
                (if cfg.copyErr.getD s.copyCount false then false
                 else cudaUsed ta.memType (cfg.reqs.getD idx default).allocMemType),
                cfg.copyErr.getD s.copyCount false⟩ := by simpa using hm
              rw [this]
              exact hcopyev
            · split at hm
              · have : e = Ev.send idx := by simpa using hm
                rw [this]
                exact ⟨fun sz ok h => Ev.noConfusion h, fun c h => Ev.noConfusion h⟩
              · cases hm
        · obtain ⟨mp1, mp2, mp3, mp4, mp5, mp6, mp7, mp8, mp9, mp10⟩ :=
            mergeSync_proj (r.1, r.2.1)
          refine ⟨by rw [mp7, hrd, cf7], by rw [mp5, hrd, cf5], by rw [mp6, hrd, hcpc],
            by rw [mp4, hrd, cf4], by rw [mp1, hrd, cf1]; exact hz,
            by rw [mp3, hrd, cf3]; exact ho, ?_⟩
          refine ⟨[Ev.copy ⟨CopySrc.tensor off, CopyDst.resp idx, ta.memType,
            (cfg.reqs.getD idx default).allocMemType, respSize cfg ta idx,
            (if cfg.copyErr.getD s.copyCount false then false
             else cudaUsed ta.memType (cfg.reqs.getD idx default).allocMemType),
            cfg.copyErr.getD s.copyCount false⟩], by rw [mp10, hrd]; exact hct, ?_⟩
          intro e he
          have : e = Ev.copy ⟨CopySrc.tensor off, CopyDst.resp idx, ta.memType,
            (cfg.reqs.getD idx default).allocMemType, respSize cfg ta idx,
            (if cfg.copyErr.getD s.copyCount false then false
             else cudaUsed ta.memType (cfg.reqs.getD idx default).allocMemType),
            cfg.copyErr.getD s.copyCount false⟩ := by simpa using he
          rw [this]
          exact hcopyev
  · exact ⟨rfl, rfl, rfl, rfl, hz, ho, ⟨[], by simp, by simp⟩⟩

theorem processLoop_pinnedSrc (cfg : Config) (ta : TensorArgs) :
    ∀ (idxs : List Nat) (s : RState) (off : Nat),
    s.pendingBytes = 0 → s.pendingOutputs = [] →
    (processLoop cfg ta MemType.CPU_PINNED idxs s off).1.allocCount = s.allocCount ∧
    (processLoop cfg ta MemType.CPU_PINNED idxs s off).1.pinnedMemories = s.pinnedMemories ∧
    (processLoop cfg ta MemType.CPU_PINNED idxs s off).1.pinnedContents = s.pinnedContents ∧
    (processLoop cfg ta MemType.CPU_PINNED idxs s off).1.deferred = s.deferred ∧
    (processLoop cfg ta MemType.CPU_PINNED idxs s off).1.pendingBytes = 0 ∧
    (processLoop cfg ta MemType.CPU_PINNED idxs s off).1.pendingOutputs = [] ∧
    ∃ evs, (processLoop cfg ta MemType.CPU_PINNED idxs s off).1.trace = s.trace ++ evs ∧
      ∀ e ∈ evs, directOnlyEv e := by
  intro idxs
  induction idxs with
  | nil =>
    intro s off hz ho
    exact ⟨rfl, rfl, rfl, rfl, hz, ho, ⟨[], by simp [processLoop], by simp⟩⟩
  | cons i rest ih =>
    intro s off hz ho
    simp only [processLoop]
    obtain ⟨p1, p2, p3, p4, p5, p6, pevs, ptr, pde⟩ :=
      processOne_pinnedSrc cfg ta i s off hz ho
    obtain ⟨q1, q2, q3, q4, q5, q6, qevs, qtr, qde⟩ :=
      ih (processOne cfg ta MemType.CPU_PINNED i s off).1
        (processOne cfg ta MemType.CPU_PINNED i s off).2 p5 p6
    refine ⟨q1.trans p1, q2.trans p2, q3.trans p3, q4.trans p4, q5, q6,
      ⟨pevs ++ qevs, ?_, ?_⟩⟩
    · rw [qtr, ptr, List.append_assoc]
    · intro e he
      rcases List.mem_append.mp he with hm | hm
      · exact pde e hm
      · exact qde e hm

theorem flush_noop (cfg : Config) (buf : List Nat) (mem : MemType) (s : RState)
    (hz : s.pendingBytes = 0) (ho : s.pendingOutputs = []) :
    FlushPendingPinned cfg buf mem s =
      ({ s with pendingBytes := 0, pendingOffset := 0, pendingOutputs := [] }, false) := by
  rw [FlushPendingPinned_none cfg buf mem s s (allocPinned_zero cfg s hz)]
  rw [ho]
  rfl

/-- C10: when the source tensor lives in CPU_PINNED memory, pinned staging
is disabled for the whole ProcessTensor call even with pinned_enabled
true: no pinned allocation happens, no pinned buffer or deferred block is
created, no pending run survives, and every copy issued goes directly
from the tensor buffer into a response buffer. -/
theorem C10_pinned_source_disables_staging (cfg : Config) (ta : TensorArgs) (s : RState)
    (hmem : ta.memType = MemType.CPU_PINNED)
    (hz : s.pendingBytes = 0) (ho : s.pendingOutputs = []) :
    (ProcessTensor cfg ta s).allocCount = s.allocCount ∧
    (ProcessTensor cfg ta s).pinnedMemories = s.pinnedMemories ∧
    (ProcessTensor cfg ta s).pinnedContents = s.pinnedContents ∧
    (ProcessTensor cfg ta s).deferred = s.deferred ∧
    (ProcessTensor cfg ta s).pendingBytes = 0 ∧
    (ProcessTensor cfg ta s).pendingOutputs = [] ∧
    ∃ evs, (ProcessTensor cfg ta s).trace = s.trace ++ evs ∧
      ∀ e ∈ evs, directOnlyEv e := by
  unfold ProcessTensor
  dsimp only
  rw [hmem, usePinned_pinned]
  obtain ⟨l1, l2, l3, l4, l5, l6, levs, ltr, lde⟩ :=
    processLoop_pinnedSrc cfg ta (List.range s.slots.length) s 0 hz ho
  set r := processLoop cfg ta MemType.CPU_PINNED (List.range s.slots.length) s 0 with hr
  rw [flush_noop cfg ta.buf MemType.CPU_PINNED r.1 l5 l6]
  split
  · refine ⟨l1, l2, l3, l4, rfl, rfl, ⟨levs ++ [Ev.record], ?_, ?_⟩⟩
    · show (mergeSync ({ r.1 with
        pendingBytes := 0, pendingOffset := 0, pendingOutputs := [] },
        false)).trace ++ [Ev.record] = s.trace ++ (levs ++ [Ev.record])
      show r.1.trace ++ [Ev.record] = s.trace ++ (levs ++ [Ev.record])
      rw [ltr, List.append_assoc]
    · intro e he
      rcases List.mem_append.mp he with hm | hm
      · exact lde e hm
      · have : e = Ev.record := by simpa using hm
        rw [this]
        exact ⟨fun sz ok h => Ev.noConfusion h, fun c h => Ev.noConfusion h⟩
  · exact ⟨l1, l2, l3, l4, rfl, rfl, ⟨levs, ltr, lde⟩⟩

theorem C10_pinned_source_disables_staging_witness :
    ({ taW with memType := MemType.CPU_PINNED } : TensorArgs).memType =
      MemType.CPU_PINNED ∧
    (initState [true, true]).pendingBytes = 0 ∧
    (initState [true, true]).pendingOutputs = [] ∧
    ((ProcessTensor cfgW { taW with memType := MemType.CPU_PINNED }
        (initState [true, true])).allocCount = (initState [true, true]).allocCount ∧
     (ProcessTensor cfgW { taW with memType := MemType.CPU_PINNED }
        (initState [true, true])).pinnedMemories = (initState [true, true]).pinnedMemories ∧
     (ProcessTensor cfgW { taW with memType := MemType.CPU_PINNED }
        (initState [true, true])).pinnedContents = (initState [true, true]).pinnedContents ∧
     (ProcessTensor cfgW { taW with memType := MemType.CPU_PINNED }
        (initState [true, true])).deferred = (initState [true, true]).deferred ∧
     (ProcessTensor cfgW { taW with memType := MemType.CPU_PINNED }
        (initState [true, true])).pendingBytes = 0 ∧
     (ProcessTensor cfgW { taW with memType := MemType.CPU_PINNED }
        (initState [true, true])).pendingOutputs = [] ∧
     ∃ evs, (ProcessTensor cfgW { taW with memType := MemType.CPU_PINNED }
        (initState [true, true])).trace = (initState [true, true]).trace ++ evs ∧
       ∀ e ∈ evs, directOnlyEv e) :=
  ⟨rfl, rfl, rfl, C10_pinned_source_disables_staging cfgW
    { taW with memType := MemType.CPU_PINNED } (initState [true, true]) rfl rfl rfl⟩

/-! ### Trace characterizations of the flush paths (C3, C6) -/

/-- The fan-out trace and cuda flag, independent of buffer contents,
under an error-free copy oracle; aliveness and the frame are untouched. -/
theorem fanoutCopies_trace (cfg : Config) (pid : Nat) (hE : cfg.copyErr = []) :
    ∀ (frags : List (Nat × OutputData)) (off : Nat) (s : RState),
    (fanoutCopies cfg pid frags off s).1.trace = s.trace ++ fanoutEvents pid frags off ∧
    (fanoutCopies cfg pid frags off s).2 =
      frags.any (fun p => cudaUsed MemType.CPU_PINNED p.2.memType) ∧
    (∀ j, (slotAt (fanoutCopies cfg pid frags off s).1 j).alive = (slotAt s j).alive) := by
  intro frags
  induction frags with
  | nil =>
    intro off s
    exact ⟨by simp [fanoutCopies, fanoutEvents], by simp [fanoutCopies], fun j => rfl⟩
  | cons p rest ih =>
    obtain ⟨idx, od⟩ := p
    intro off s
    have herr := copyErr_none cfg hE s.copyCount
    have hrerr : (copyBuffer cfg MemType.CPU_PINNED od.memType od.size
        (CopySrc.pinnedBuf pid off) (CopyDst.resp idx)
        (sliceBytes (s.pinnedContents.getD pid []) off od.size) s).2.2 = false := by
      rw [copyBuffer_err]
      exact herr
    simp only [fanoutCopies, hrerr, Bool.false_eq_true, if_false]
    obtain ⟨ht, hc, ha⟩ := ih (off + od.size) (copyBuffer cfg MemType.CPU_PINNED od.memType
      od.size (CopySrc.pinnedBuf pid off) (CopyDst.resp idx)
      (sliceBytes (s.pinnedContents.getD pid []) off od.size) s).1
    refine ⟨?_, ?_, ?_⟩
    · rw [ht, copyBuffer_trace, herr]
      simp only [Bool.false_eq_true, if_false]
      rw [List.append_assoc]
      rfl
    · rw [hc, copyBuffer_cuda, herr, if_neg (by simp)]
      rfl
    · intro j
      rw [ha j, copyBuffer_alive]

/-- The direct-copy fallback trace and cuda flag under an error-free copy
oracle; aliveness is untouched. -/
theorem directCopies_trace (cfg : Config) (sm : MemType) (buf : List Nat) (base : Nat)
    (hE : cfg.copyErr = []) :
    ∀ (frags : List (Nat × OutputData)) (off : Nat) (s : RState),
    (directCopies cfg sm buf base frags off s).1.trace =
      s.trace ++ directEvents sm base frags off ∧
    (directCopies cfg sm buf base frags off s).2 =
      frags.any (fun p => cudaUsed sm p.2.memType) ∧
    (∀ j, (slotAt (directCopies cfg sm buf base frags off s).1 j).alive =
      (slotAt s j).alive) := by
  intro frags
  induction frags with
  | nil =>
    intro off s
    exact ⟨by simp [directCopies, directEvents], by simp [directCopies], fun j => rfl⟩
  | cons p rest ih =>
    obtain ⟨idx, od⟩ := p
    intro off s
    have herr := copyErr_none cfg hE s.copyCount
    have hrerr : (copyBuffer cfg sm od.memType od.size
        (CopySrc.tensor (base + off)) (CopyDst.resp idx)
        (sliceBytes buf (base + off) od.size) s).2.2 = false := by
      rw [copyBuffer_err]
      exact herr
    simp only [directCopies, hrerr, Bool.false_eq_true, if_false]
    obtain ⟨ht, hc, ha⟩ := ih (off + od.size) (copyBuffer cfg sm od.memType od.size
      (CopySrc.tensor (base + off)) (CopyDst.resp idx)
      (sliceBytes buf (base + off) od.size) s).1
    refine ⟨?_, ?_, ?_⟩
    · rw [ht, copyBuffer_trace, herr]
      simp only [Bool.false_eq_true, if_false]
      rw [List.append_assoc]
      rfl
    · rw [hc, copyBuffer_cuda, herr, if_neg (by simp)]
      rfl
    · intro j
      rw [ha j, copyBuffer_alive]

theorem allocPinned_fields (cfg : Config) (s : RState) :
    (allocPinned cfg s).1.deferred = s.deferred ∧
    (allocPinned cfg s).1.pendingBytes = s.pendingBytes ∧
    (allocPinned cfg s).1.pendingOffset = s.pendingOffset ∧
    (allocPinned cfg s).1.pendingOutputs = s.pendingOutputs ∧
    (allocPinned cfg s).1.slots = s.slots := by
  unfold allocPinned
  dsimp only
  split
  · split <;> exact ⟨rfl, rfl, rfl, rfl, rfl⟩
  · exact ⟨rfl, rfl, rfl, rfl, rfl⟩

/-- A flush only appends to the deferred list, for every oracle. -/
theorem flush_deferred_mono (cfg : Config) (buf : List Nat) (mem : MemType) (s : RState) :
    ∃ l, (FlushPendingPinned cfg buf mem s).1.deferred = s.deferred ++ l := by
  obtain ⟨ad, _, _, apo, _⟩ := allocPinned_fields cfg s
  unfold FlushPendingPinned
  dsimp only
  rcases ha : (allocPinned cfg s).2 with _ | pid
  · refine ⟨[], ?_⟩
    have hd := (frame_eq_fields (frameOf_directCopies cfg mem buf
      (allocPinned cfg s).1.pendingOffset (allocPinned cfg s).1.pendingOutputs 0
      (allocPinned cfg s).1)).2.2.2.1
    show (directCopies cfg mem buf (allocPinned cfg s).1.pendingOffset
      (allocPinned cfg s).1.pendingOutputs 0 (allocPinned cfg s).1).1.deferred =
      s.deferred ++ []
    rw [hd, ad, List.append_nil]
  · dsimp only
    set a1 := (allocPinned cfg s).1 with ha1
    set r := copyBuffer cfg mem MemType.CPU_PINNED a1.pendingBytes
      (CopySrc.tensor a1.pendingOffset) (CopyDst.pinned pid)
      (sliceBytes buf a1.pendingOffset a1.pendingBytes) a1 with hrd
    have hrdef : r.1.deferred = s.deferred := by
      rw [hrd]
      rw [(copyBuffer_fields cfg mem MemType.CPU_PINNED a1.pendingBytes
        (CopySrc.tensor a1.pendingOffset) (CopyDst.pinned pid)
        (sliceBytes buf a1.pendingOffset a1.pendingBytes) a1).2.2.2.1]
      exact ad
    have hs2 : ∀ s2, s2 = (if r.2.2 then killAll r.1 r.1.pendingOutputs else r.1) →
        s2.deferred = s.deferred := by
      intro s2 h2
      rw [h2]
      split
      · rw [(killAll_fields r.1.pendingOutputs r.1).2.2.2.1]
        exact hrdef
      · exact hrdef
    have hs2d := hs2 _ rfl
    by_cases hcu : r.2.1 = false
    · refine ⟨[], ?_⟩
      rw [if_pos hcu]
      have hf := (frame_eq_fields (frameOf_fanoutCopies cfg pid
        (if r.2.2 then killAll r.1 r.1.pendingOutputs else r.1).pendingOutputs 0
        (if r.2.2 then killAll r.1 r.1.pendingOutputs else r.1))).2.2.2.1
      show (fanoutCopies cfg pid
        (if r.2.2 then killAll r.1 r.1.pendingOutputs else r.1).pendingOutputs 0
        (if r.2.2 then killAll r.1 r.1.pendingOutputs else r.1)).1.deferred =
        s.deferred ++ []
      rw [hf, hs2d, List.append_nil]
    · refine ⟨[⟨pid, (if r.2.2 then killAll r.1 r.1.pendingOutputs else r.1).pendingBytes,
        (if r.2.2 then killAll r.1 r.1.pendingOutputs else r.1).pendingOutputs⟩], ?_⟩
      rw [if_neg hcu]
      show (if r.2.2 then killAll r.1 r.1.pendingOutputs else r.1).deferred ++ _ =
        s.deferred ++ _
      rw [hs2d]

theorem respondStep_deferred (cfg : Config) (ta : TensorArgs) (up : MemType)
    (idx : Nat) (s : RState) (off : Nat) :
    (respondStep cfg ta up idx s off).deferred = s.deferred := by
  unfold respondStep
  split
  · unfold SetFixedSizeOutputBuffer
    dsimp only
    split
    · show (killSlot s idx).deferred = s.deferred
      exact (killSlot_fields s idx).2.2.2.1
    · split
      · rfl
      · set r := copyBuffer cfg ta.memType (cfg.reqs.getD idx default).allocMemType
          (respSize cfg ta idx) (CopySrc.tensor off) (CopyDst.resp idx)
          (sliceBytes ta.buf off (respSize cfg ta idx)) s with hrd
        have hc : r.1.deferred = s.deferred := by
          rw [hrd]
          exact (copyBuffer_fields cfg ta.memType
            (cfg.reqs.getD idx default).allocMemType (respSize cfg ta idx)
            (CopySrc.tensor off) (CopyDst.resp idx)
            (sliceBytes ta.buf off (respSize cfg ta idx)) s).2.2.2.1
        show (if r.2.2 then killSlot r.1 idx else r.1).deferred = s.deferred
        split
        · rw [(killSlot_fields r.1 idx).2.2.2.1]
          exact hc
        · exact hc
  · rfl

theorem processOne_deferred_mono (cfg : Config) (ta : TensorArgs) (up : MemType)
    (idx : Nat) (s : RState) (off : Nat) :
    ∃ l, (processOne cfg ta up idx s off).1.deferred = s.deferred ++ l := by
  unfold processOne
  dsimp only
  rw [respondStep_deferred]
  unfold flushStep
  split
  · obtain ⟨l, hl⟩ := flush_deferred_mono cfg ta.buf ta.memType s
    exact ⟨l, hl⟩
  · exact ⟨[], by rw [List.append_nil]⟩

theorem processLoop_deferred_mono (cfg : Config) (ta : TensorArgs) (up : MemType) :
    ∀ (idxs : List Nat) (s : RState) (off : Nat),
    ∃ l, (processLoop cfg ta up idxs s off).1.deferred = s.deferred ++ l := by
  intro idxs
  induction idxs with
  | nil => intro s off; exact ⟨[], by rw [List.append_nil]; rfl⟩
  | cons i rest ih =>
    intro s off
    simp only [processLoop]
    obtain ⟨l1, h1⟩ := processOne_deferred_mono cfg ta up i s off
    obtain ⟨l2, h2⟩ := ih (processOne cfg ta up i s off).1 (processOne cfg ta up i s off).2
    exact ⟨l1 ++ l2, by rw [h2, h1, List.append_assoc]⟩

/-- ProcessTensor never consumes the deferred list: it only appends to it
(the list is consumed by Finalize alone). -/
theorem ProcessTensor_deferred_mono (cfg : Config) (ta : TensorArgs) (s : RState) :
    ∃ l, (ProcessTensor cfg ta s).deferred = s.deferred ++ l := by
  unfold ProcessTensor
  dsimp only
  obtain ⟨l1, h1⟩ := processLoop_deferred_mono cfg ta
    (usePinnedMemoryType cfg.pinnedEnabled ta.memType) (List.range s.slots.length) s 0
  obtain ⟨l2, h2⟩ := flush_deferred_mono cfg ta.buf ta.memType
    (processLoop cfg ta (usePinnedMemoryType cfg.pinnedEnabled ta.memType)
      (List.range s.slots.length) s 0).1
  split
  · refine ⟨l1 ++ l2, ?_⟩
    show (mergeSync (FlushPendingPinned cfg ta.buf ta.memType
      (processLoop cfg ta (usePinnedMemoryType cfg.pinnedEnabled ta.memType)
        (List.range s.slots.length) s 0).1)).deferred = s.deferred ++ (l1 ++ l2)
    rw [(mergeSync_proj _).2.2.2.1, h2, h1, List.append_assoc]
  · refine ⟨l1 ++ l2, ?_⟩
    rw [(mergeSync_proj _).2.2.2.1, h2, h1, List.append_assoc]

/-- C3: responder flush direction with a pinned buffer.  When the pending
byte size is positive and the allocation succeeds (error-free copy
oracle), the flush issues exactly one bulk copy of
tensor_buffer[start_offset, start_offset + size) into the fresh pinned
buffer.  A synchronous bulk copy is followed immediately by one fan-out
copy per pending fragment out of the pinned buffer; an asynchronous one
records a DeferredPinned block holding the pinned buffer, the byte size
and the fragments, with no fan-out copies issued, and ProcessTensor never
consumes the deferred list (only Finalize does). -/
theorem C3_responder_flush_direction (cfg : Config) (buf : List Nat) (mem : MemType)
    (s : RState) (hE : cfg.copyErr = []) (hpos : 0 < s.pendingBytes)
    (hok : cfg.pinnedAllocOk.getD s.allocCount true = true) :
    (cudaUsed mem MemType.CPU_PINNED = false →
      (FlushPendingPinned cfg buf mem s).1.trace =
        (s.trace ++ [Ev.alloc s.pendingBytes true,
          Ev.copy ⟨CopySrc.tensor s.pendingOffset,
            CopyDst.pinned s.pinnedContents.length, mem, MemType.CPU_PINNED,
            s.pendingBytes, false, false⟩]) ++
          fanoutEvents s.pinnedContents.length s.pendingOutputs 0 ∧
      (FlushPendingPinned cfg buf mem s).1.deferred = s.deferred) ∧
    (cudaUsed mem MemType.CPU_PINNED = true →
      (FlushPendingPinned cfg buf mem s).1.trace =
        s.trace ++ [Ev.alloc s.pendingBytes true,
          Ev.copy ⟨CopySrc.tensor s.pendingOffset,
            CopyDst.pinned s.pinnedContents.length, mem, MemType.CPU_PINNED,
            s.pendingBytes, true, false⟩] ∧
      (FlushPendingPinned cfg buf mem s).1.deferred =
        s.deferred ++ [⟨s.pinnedContents.length, s.pendingBytes, s.pendingOutputs⟩]) ∧
    (∀ (ta2 : TensorArgs) (s2 : RState),
      ∃ l, (ProcessTensor cfg ta2 s2).deferred = s2.deferred ++ l) := by
  have ha := allocPinned_ok cfg s hpos hok
  rw [FlushPendingPinned_some cfg buf mem s _ s.pinnedContents.length ha]
  dsimp only
  have herr := copyErr_none cfg hE s.copyCount
  set s1 : RState := { s with
      allocCount := s.allocCount + 1
      trace := s.trace ++ [Ev.alloc s.pendingBytes true]
      pinnedContents := s.pinnedContents ++ [List.replicate s.pendingBytes 0] } with hs1
  set r := copyBuffer cfg mem MemType.CPU_PINNED s.pendingBytes
      (CopySrc.tensor s.pendingOffset) (CopyDst.pinned s.pinnedContents.length)
      (sliceBytes buf s.pendingOffset s.pendingBytes) s1 with hrd
  have hrerr : r.2.2 = false := by
    rw [hrd, copyBuffer_err]
    exact herr
  rw [hrerr]
  simp only [Bool.false_eq_true, if_false]
  obtain ⟨hf1, hf2, hf3, hf4, hf5, hf6, hf7, hf8⟩ := copyBuffer_fields cfg mem
    MemType.CPU_PINNED s.pendingBytes (CopySrc.tensor s.pendingOffset)
    (CopyDst.pinned s.pinnedContents.length)
    (sliceBytes buf s.pendingOffset s.pendingBytes) s1
  have hrcuda : r.2.1 = cudaUsed mem MemType.CPU_PINNED := by
    rw [hrd, copyBuffer_cuda, herr, if_neg (by simp)]
  refine ⟨?_, ?_, ProcessTensor_deferred_mono cfg⟩
  · intro hcu
    have hr1 : r.2.1 = false := hrcuda.trans hcu
    rw [hr1]
    simp only [if_pos rfl]
    have hrt : r.1.trace = s.trace ++ [Ev.alloc s.pendingBytes true,
        Ev.copy ⟨CopySrc.tensor s.pendingOffset,
          CopyDst.pinned s.pinnedContents.length, mem, MemType.CPU_PINNED,
          s.pendingBytes, false, false⟩] := by
      rw [hrd, copyBuffer_trace]
      rw [show cfg.copyErr.getD s1.copyCount false = false from herr]
      rw [show (s1.trace = s.trace ++ [Ev.alloc s.pendingBytes true]) from rfl]
      rw [List.append_assoc]
      simp only [Bool.false_eq_true, if_false]
      rw [hcu]
      rfl
    obtain ⟨ft, fc, fa⟩ := fanoutCopies_trace cfg s.pinnedContents.length hE
      r.1.pendingOutputs 0 r.1
    constructor
    · show (fanoutCopies cfg s.pinnedContents.length r.1.pendingOutputs 0 r.1).1.trace = _
      rw [ft, hrt]
      rw [show r.1.pendingOutputs = s.pendingOutputs from hf3]
    · show (fanoutCopies cfg s.pinnedContents.length r.1.pendingOutputs 0 r.1).1.deferred = _
      rw [(frame_eq_fields (frameOf_fanoutCopies cfg s.pinnedContents.length
        r.1.pendingOutputs 0 r.1)).2.2.2.1]
      rw [hf4]
  · intro hcu
    have hr1 : r.2.1 = true := hrcuda.trans hcu
    rw [hr1]
    simp only [Bool.true_eq_false, if_false]
    constructor
    · show r.1.trace = _
      rw [hrd, copyBuffer_trace]
      rw [show cfg.copyErr.getD s1.copyCount false = false from herr]
      rw [show (s1.trace = s.trace ++ [Ev.alloc s.pendingBytes true]) from rfl]
      rw [List.append_assoc]
      simp only [Bool.false_eq_true, if_false]
      rw [hcu]
      rfl
    · show r.1.deferred ++ [(⟨s.pinnedContents.length, r.1.pendingBytes,
        r.1.pendingOutputs⟩ : DeferredPinned)] = _
      rw [hf4, hf1, hf3]

/-- A concrete state holding a one-fragment pending pinned run, for the
closed witnesses of the flush claims. -/
def sW3 : RState :=
  { initState [true] with
      pendingBytes := 4, pendingOffset := 0,
      pendingOutputs := [(0, ⟨"O", 0, 4, MemType.CPU, 0, 0⟩)] }

theorem C3_responder_flush_direction_witness :
    cfgW.copyErr = [] ∧ 0 < sW3.pendingBytes ∧
    cfgW.pinnedAllocOk.getD sW3.allocCount true = true ∧
    ((cudaUsed MemType.GPU MemType.CPU_PINNED = false →
      (FlushPendingPinned cfgW [9, 9, 9, 9] MemType.GPU sW3).1.trace =
        (sW3.trace ++ [Ev.alloc sW3.pendingBytes true,
          Ev.copy ⟨CopySrc.tensor sW3.pendingOffset,
            CopyDst.pinned sW3.pinnedContents.length, MemType.GPU, MemType.CPU_PINNED,
            sW3.pendingBytes, false, false⟩]) ++
          fanoutEvents sW3.pinnedContents.length sW3.pendingOutputs 0 ∧
      (FlushPendingPinned cfgW [9, 9, 9, 9] MemType.GPU sW3).1.deferred = sW3.deferred) ∧
    (cudaUsed MemType.GPU MemType.CPU_PINNED = true →
      (FlushPendingPinned cfgW [9, 9, 9, 9] MemType.GPU sW3).1.trace =
        sW3.trace ++ [Ev.alloc sW3.pendingBytes true,
          Ev.copy ⟨CopySrc.tensor sW3.pendingOffset,
            CopyDst.pinned sW3.pinnedContents.length, MemType.GPU, MemType.CPU_PINNED,
            sW3.pendingBytes, true, false⟩] ∧
      (FlushPendingPinned cfgW [9, 9, 9, 9] MemType.GPU sW3).1.deferred =
        sW3.deferred ++ [⟨sW3.pinnedContents.length, sW3.pendingBytes,
          sW3.pendingOutputs⟩]) ∧
    (∀ (ta2 : TensorArgs) (s2 : RState),
      ∃ l, (ProcessTensor cfgW ta2 s2).deferred = s2.deferred ++ l)) :=
  ⟨rfl, by decide, rfl,
   C3_responder_flush_direction cfgW [9, 9, 9, 9] MemType.GPU sW3 rfl (by decide) rfl⟩

/-- C6: pinned allocation failure during a flush.  No response slot is
failed or nulled, the stager falls back to one direct copy per pending
fragment from the tensor buffer at the fragment's offset within the run,
and the returned flag still reports an asynchronous copy when any direct
copy used the stream; no pinned buffer is retained. -/
theorem C6_alloc_failure_fallback (cfg : Config) (buf : List Nat) (mem : MemType)
    (s : RState) (hE : cfg.copyErr = []) (hpos : 0 < s.pendingBytes)
    (hok : cfg.pinnedAllocOk.getD s.allocCount true = false) :
    (∀ j, (slotAt (FlushPendingPinned cfg buf mem s).1 j).alive = (slotAt s j).alive) ∧
    (FlushPendingPinned cfg buf mem s).1.trace =
      s.trace ++ Ev.alloc s.pendingBytes false ::
        directEvents mem s.pendingOffset s.pendingOutputs 0 ∧
    (FlushPendingPinned cfg buf mem s).2 =
      s.pendingOutputs.any (fun p => cudaUsed mem p.2.memType) ∧
    (FlushPendingPinned cfg buf mem s).1.pinnedMemories = s.pinnedMemories := by
  have ha := allocPinned_fail cfg s hpos hok
  rw [FlushPendingPinned_none cfg buf mem s _ ha]
  set s1 : RState := { s with
      allocCount := s.allocCount + 1
      trace := s.trace ++ [Ev.alloc s.pendingBytes false] } with hs1
  obtain ⟨dt, dc, da⟩ := directCopies_trace cfg mem buf s1.pendingOffset hE
    s1.pendingOutputs 0 s1
  have hfr := frame_eq_fields (frameOf_directCopies cfg mem buf s1.pendingOffset
    s1.pendingOutputs 0 s1)
  refine ⟨?_, ?_, ?_, ?_⟩
  · intro j
    show (slotAt (directCopies cfg mem buf s1.pendingOffset s1.pendingOutputs 0 s1).1
      j).alive = (slotAt s j).alive
    rw [da j]
    rfl
  · show (directCopies cfg mem buf s1.pendingOffset s1.pendingOutputs 0 s1).1.trace = _
    rw [dt]
    rw [show s1.trace = s.trace ++ [Ev.alloc s.pendingBytes false] from rfl]
    rw [List.append_assoc]
    rfl
  · show (directCopies cfg mem buf s1.pendingOffset s1.pendingOutputs 0 s1).2 = _
    rw [dc]
  · show (directCopies cfg mem buf s1.pendingOffset s1.pendingOutputs 0 s1).1.pinnedMemories
      = _
    rw [hfr.2.2.2.2.1]

theorem C6_alloc_failure_fallback_witness :
    cfgW.copyErr = [] ∧ 0 < sW3.pendingBytes ∧
    ({ cfgW with pinnedAllocOk := [false] } : Config).pinnedAllocOk.getD
      sW3.allocCount true = false ∧
    ((∀ j, (slotAt (FlushPendingPinned { cfgW with pinnedAllocOk := [false] }
        [9, 9, 9, 9] MemType.GPU sW3).1 j).alive = (slotAt sW3 j).alive) ∧
     (FlushPendingPinned { cfgW with pinnedAllocOk := [false] }
        [9, 9, 9, 9] MemType.GPU sW3).1.trace =
       sW3.trace ++ Ev.alloc sW3.pendingBytes false ::
         directEvents MemType.GPU sW3.pendingOffset sW3.pendingOutputs 0 ∧
     (FlushPendingPinned { cfgW with pinnedAllocOk := [false] }
        [9, 9, 9, 9] MemType.GPU sW3).2 =
       sW3.pendingOutputs.any (fun p => cudaUsed MemType.GPU p.2.memType) ∧
     (FlushPendingPinned { cfgW with pinnedAllocOk := [false] }
        [9, 9, 9, 9] MemType.GPU sW3).1.pinnedMemories = sW3.pinnedMemories) :=
  ⟨rfl, by decide, rfl,
   C6_alloc_failure_fallback { cfgW with pinnedAllocOk := [false] }
     [9, 9, 9, 9] MemType.GPU sW3 rfl (by decide) rfl⟩

theorem anyGPU_cuda (frags : List (Nat × OutputData)) :
    (frags.any (fun p => cudaUsed MemType.CPU_PINNED p.2.memType)) =
      frags.any (fun p => p.2.memType == MemType.GPU) := by
  have hcu : ∀ m : MemType, cudaUsed MemType.CPU_PINNED m = (m == MemType.GPU) := by
    intro m
    cases m <;> rfl
  induction frags with
  | nil => rfl
  | cons p rest ih =>
    simp only [List.any_cons]
    rw [ih, hcu]

theorem finalizeBlocks_sync_trace (cfg : Config) (hE : cfg.copyErr = []) :
    ∀ (blocks : List DeferredPinned) (s : RState),
    (finalizeBlocks cfg blocks s).needSync = (s.needSync || anyGPUFrag blocks) ∧
    (finalizeBlocks cfg blocks s).trace = s.trace ++ deferredEvents blocks ∧
    (finalizeBlocks cfg blocks s).deferred = s.deferred := by
  intro blocks
  induction blocks with
  | nil =>
    intro s
    exact ⟨by simp [finalizeBlocks, anyGPUFrag], by simp [finalizeBlocks, deferredEvents],
      rfl⟩
  | cons b rest ih =>
    intro s
    simp only [finalizeBlocks]
    obtain ⟨ft, fc, _⟩ := fanoutCopies_trace cfg b.pid hE b.frags 0 s
    have hfr := frame_eq_fields (frameOf_fanoutCopies cfg b.pid b.frags 0 s)
    set r := fanoutCopies cfg b.pid b.frags 0 s with hrd
    obtain ⟨i1, i2, i3⟩ := ih { r.1 with needSync := r.1.needSync || r.2 }
    refine ⟨?_, ?_, ?_⟩
    · rw [i1]
      show ((r.1.needSync || r.2) || anyGPUFrag rest) =
        (s.needSync || anyGPUFrag (b :: rest))
      rw [hfr.2.2.2.2.2.2.1, fc, anyGPU_cuda, Bool.or_assoc]
      rfl
    · rw [i2]
      show r.1.trace ++ deferredEvents rest = s.trace ++ deferredEvents (b :: rest)
      rw [ft, List.append_assoc]
      rfl
    · rw [i3]
      exact hfr.2.2.2.1

theorem finalize_tail (cfg : Config) (bl : List DeferredPinned) (t s3 : RState)
    (hE : cfg.copyErr = []) (hn : t.needSync = false) (hbl : t.deferred = bl)
    (hs3 : s3 = if (finalizeBlocks cfg bl t).deferred ≠ [] ∧
          (finalizeBlocks cfg bl t).needSync = true ∧ cfg.hasEvent = true then
        { finalizeBlocks cfg bl t with
          trace := (finalizeBlocks cfg bl t).trace ++ [Ev.record] }
      else finalizeBlocks cfg bl t) :
    s3.needSync = anyGPUFrag bl ∧
    s3.trace = t.trace ++ deferredEvents bl ++
      (if bl ≠ [] ∧ anyGPUFrag bl = true ∧ cfg.hasEvent = true
        then [Ev.record] else []) ∧
    s3.deferred = bl := by
  subst hs3
  obtain ⟨f1, f2, f3⟩ := finalizeBlocks_sync_trace cfg hE bl t
  have hns : (finalizeBlocks cfg bl t).needSync = anyGPUFrag bl := by
    rw [f1, hn]
    rfl
  have hdd : (finalizeBlocks cfg bl t).deferred = bl := f3.trans hbl
  by_cases hrec : (finalizeBlocks cfg bl t).deferred ≠ [] ∧
      (finalizeBlocks cfg bl t).needSync = true ∧ cfg.hasEvent = true
  · rw [if_pos hrec]
    refine ⟨?_, ?_, ?_⟩
    · show (finalizeBlocks cfg bl t).needSync = _
      exact hns
    · show (finalizeBlocks cfg bl t).trace ++ [Ev.record] = _
      rw [f2, show (if bl ≠ [] ∧ anyGPUFrag bl = true ∧ cfg.hasEvent = true
          then [Ev.record] else ([] : List Ev)) = [Ev.record] from
        if_pos ⟨by rw [← hdd]; exact hrec.1, by rw [← hns]; exact hrec.2.1, hrec.2.2⟩]
    · show (finalizeBlocks cfg bl t).deferred = _
      exact hdd
  · rw [if_neg hrec]
    refine ⟨hns, ?_, hdd⟩
    rw [f2, show (if bl ≠ [] ∧ anyGPUFrag bl = true ∧ cfg.hasEvent = true
        then [Ev.record] else ([] : List Ev)) = ([] : List Ev) from
      if_neg (fun h => hrec ⟨by rw [hdd]; exact h.1, by rw [hns]; exact h.2.1, h.2.2⟩),
      List.append_nil]

/-- C4: Finalize synchronizes (on the event when one was supplied, else on
the stream) exactly when the deferred list is nonempty and need_sync is
set, clears need_sync, fans out one copy per fragment of every deferred
block from its pinned buffer, re-sets need_sync exactly when some fragment
lands on device memory, re-records the event when needed, leaves no
deferred block behind, and returns the final need_sync. -/
theorem C4_finalize (cfg : Config) (s : RState) (hE : cfg.copyErr = []) :
    (Finalize cfg s).1.deferred = [] ∧
    (Finalize cfg s).2 = (Finalize cfg s).1.needSync ∧
    (Finalize cfg s).2 =
      (if s.deferred = [] then s.needSync else anyGPUFrag s.deferred) ∧
    (Finalize cfg s).1.trace = s.trace
      ++ (if s.deferred ≠ [] ∧ s.needSync = true then [Ev.sync cfg.hasEvent] else [])
      ++ deferredEvents s.deferred
      ++ (if s.deferred ≠ [] ∧
            (if s.deferred = [] then s.needSync else anyGPUFrag s.deferred) = true ∧
            cfg.hasEvent = true then [Ev.record] else []) := by
  by_cases hd : s.deferred = []
  · simp [Finalize, finalizeBlocks, deferredEvents, hd]
  · unfold Finalize
    dsimp only
    by_cases hn : s.needSync = true
    · rw [if_pos (show s.deferred ≠ [] ∧ s.needSync = true from ⟨hd, hn⟩)]
      dsimp only
      obtain ⟨g1, g2, g3⟩ := finalize_tail cfg s.deferred
        { s with needSync := false, trace := s.trace ++ [Ev.sync cfg.hasEvent] }
        _ hE rfl rfl rfl
      refine ⟨rfl, rfl, ?_, ?_⟩
      · rw [g1, if_neg hd]
      · rw [g2]
        rw [show (if s.deferred ≠ [] ∧ s.needSync = true then [Ev.sync cfg.hasEvent]
            else ([] : List Ev)) = [Ev.sync cfg.hasEvent] from
          if_pos ⟨hd, hn⟩]
        rw [show (if s.deferred = [] then s.needSync else anyGPUFrag s.deferred) =
          anyGPUFrag s.deferred from if_neg hd]
    · have hnf : s.needSync = false := by
        cases h : s.needSync
        · rfl
        · exact absurd h hn
      rw [if_neg (show ¬(s.deferred ≠ [] ∧ s.needSync = true) from fun h => hn h.2)]
      obtain ⟨g1, g2, g3⟩ := finalize_tail cfg s.deferred s _ hE hnf rfl rfl
      refine ⟨rfl, rfl, ?_, ?_⟩
      · rw [g1, if_neg hd]
      · rw [g2]
        rw [show (if s.deferred ≠ [] ∧ s.needSync = true then [Ev.sync cfg.hasEvent]
            else ([] : List Ev)) = ([] : List Ev) from
          if_neg (fun h => hn h.2)]
        rw [show (if s.deferred = [] then s.needSync else anyGPUFrag s.deferred) =
          anyGPUFrag s.deferred from if_neg hd]
        rw [List.append_nil]

def cfgW4 : Config := { cfgW with hasEvent := true }

def sW4 : RState :=
  { initState [true] with
      needSync := true,
      deferred := [⟨0, 4, [(0, ⟨"O", 0, 4, MemType.GPU, 0, 0⟩)]⟩],
      pinnedContents := [[5, 6, 7, 8]] }

theorem C4_finalize_witness :
    cfgW4.copyErr = [] ∧
    ((Finalize cfgW4 sW4).1.deferred = [] ∧
     (Finalize cfgW4 sW4).2 = (Finalize cfgW4 sW4).1.needSync ∧
     (Finalize cfgW4 sW4).2 =
       (if sW4.deferred = [] then sW4.needSync else anyGPUFrag sW4.deferred) ∧
     (Finalize cfgW4 sW4).1.trace = sW4.trace
       ++ (if sW4.deferred ≠ [] ∧ sW4.needSync = true then [Ev.sync cfgW4.hasEvent]
           else [])
       ++ deferredEvents sW4.deferred
       ++ (if sW4.deferred ≠ [] ∧
             (if sW4.deferred = [] then sW4.needSync else anyGPUFrag sW4.deferred) = true ∧
             cfgW4.hasEvent = true then [Ev.record] else [])) :=
  ⟨rfl, C4_finalize cfgW4 sW4 rfl⟩

/-- C5: If the single bulk copy into the pinned staging buffer fails,
every response slot among the pending fragments that was still live is
sent (with the error) and nulled, already-null slots are skipped, no
other response slot is affected, and the pinned buffer is still retained
on pinned_memories_. -/
theorem C5_bulk_copy_error (cfg : Config) (buf : List Nat) (mem : MemType) (s : RState)
    (hpos : 0 < s.pendingBytes)
    (hok : cfg.pinnedAllocOk.getD s.allocCount true = true)
    (herr : cfg.copyErr.getD s.copyCount false = true) :
    (∀ p ∈ s.pendingOutputs,
      (slotAt (FlushPendingPinned cfg buf mem s).1 p.1).alive = false) ∧
    (∀ j, j ∉ pendingIdxs s →
      slotAt (FlushPendingPinned cfg buf mem s).1 j = slotAt s j) ∧
    (∃ evs, (FlushPendingPinned cfg buf mem s).1.trace =
        (s.trace ++ [Ev.alloc s.pendingBytes true,
          Ev.copy ⟨CopySrc.tensor s.pendingOffset,
            CopyDst.pinned s.pinnedContents.length, mem, MemType.CPU_PINNED,
            s.pendingBytes, false, true⟩]) ++ evs ∧
      (∀ i, Ev.send i ∈ evs ↔ (i ∈ pendingIdxs s ∧ (slotAt s i).alive = true))) ∧
    (FlushPendingPinned cfg buf mem s).1.pinnedMemories =
      s.pinnedMemories ++ [s.pinnedContents.length] := by
  have ha := allocPinned_ok cfg s hpos hok
  rw [FlushPendingPinned_some cfg buf mem s _ s.pinnedContents.length ha]
  dsimp only
  set s1 : RState := { s with
      allocCount := s.allocCount + 1
      trace := s.trace ++ [Ev.alloc s.pendingBytes true]
      pinnedContents := s.pinnedContents ++ [List.replicate s.pendingBytes 0] } with hs1
  set r := copyBuffer cfg mem MemType.CPU_PINNED s.pendingBytes
      (CopySrc.tensor s.pendingOffset) (CopyDst.pinned s.pinnedContents.length)
      (sliceBytes buf s.pendingOffset s.pendingBytes) s1 with hrd
  have herr1 : cfg.copyErr.getD s1.copyCount false = true := herr
  have hec : r.2.2 = true := by
    rw [hrd, copyBuffer_err]
    exact herr1
  have hcu : r.2.1 = false := by
    rw [hrd, copyBuffer_cuda, herr1]
    rfl
  rw [if_pos hec, if_pos hcu]
  obtain ⟨hf1, hf2, hf3, hf4, hf5, hf6, hf7, hf8⟩ := copyBuffer_fields cfg mem
    MemType.CPU_PINNED s.pendingBytes (CopySrc.tensor s.pendingOffset)
    (CopyDst.pinned s.pinnedContents.length)
    (sliceBytes buf s.pendingOffset s.pendingBytes) s1
  rw [← hrd] at hf3 hf5
  have hpo : r.1.pendingOutputs = s.pendingOutputs := hf3
  have hpm : r.1.pinnedMemories = s.pinnedMemories := hf5
  have hslots : r.1.slots = s.slots := by
    have h := (copyBuffer_err_state cfg mem MemType.CPU_PINNED s.pendingBytes
      (CopySrc.tensor s.pendingOffset) (CopyDst.pinned s.pinnedContents.length)
      (sliceBytes buf s.pendingOffset s.pendingBytes) s1 herr1).1
    rw [← hrd] at h
    exact h
  have hsa : ∀ j, slotAt r.1 j = slotAt s j := by
    intro j
    unfold slotAt
    rw [hslots]
  set K := killAll r.1 r.1.pendingOutputs with hK
  obtain ⟨hk1, hk2, hk3, hk4, hk5, hk6, hk7, hk8, hk9, hk10⟩ :=
    killAll_fields r.1.pendingOutputs r.1
  rw [← hK] at hk3 hk5
  have hKpo : K.pendingOutputs = s.pendingOutputs := hk3.trans hpo
  have hKpm : K.pinnedMemories = s.pinnedMemories := hk5.trans hpm
  obtain ⟨evsK, hKtrace, hKsend, hKall⟩ := killAll_trace r.1.pendingOutputs r.1
  rw [← hK] at hKtrace
  have hdead : ∀ p ∈ K.pendingOutputs, (slotAt K p.1).alive = false := by
    intro p hp2
    have hp3 : p ∈ r.1.pendingOutputs := by
      rw [hKpo] at hp2
      rw [hpo]
      exact hp2
    rw [hK]
    exact slotAt_killAll_alive_mem r.1.pendingOutputs r.1 p hp3
  obtain ⟨evsF, hFtrace, hFnosend⟩ := fanoutCopies_no_send cfg s.pinnedContents.length
    K.pendingOutputs 0 K hdead
  have hfr2 := frame_eq_fields (frameOf_fanoutCopies cfg s.pinnedContents.length
    K.pendingOutputs 0 K)
  have hfinal : ∀ (x : RState) (pm : List Nat) (j : Nat),
      slotAt ({ x with
        pendingBytes := 0
        pendingOffset := 0
        pendingOutputs := []
        pinnedMemories := pm } : RState) j = slotAt x j := fun x pm j => rfl
  refine ⟨?_, ?_, ⟨evsK ++ evsF, ?_, ?_⟩, ?_⟩
  · intro p hp
    rw [hfinal]
    have hp' : p ∈ r.1.pendingOutputs := by
      rw [hpo]
      exact hp
    exact fanoutCopies_alive_mono cfg s.pinnedContents.length K.pendingOutputs 0 K p.1
      (by rw [hK]; exact slotAt_killAll_alive_mem r.1.pendingOutputs r.1 p hp')
  · intro j hj
    rw [hfinal]
    have hj1 : j ∉ K.pendingOutputs.map Prod.fst := by
      rw [hKpo]
      exact hj
    rw [fanoutCopies_slot_ne cfg s.pinnedContents.length K.pendingOutputs 0 K j hj1]
    have hj2 : j ∉ r.1.pendingOutputs.map Prod.fst := by
      rw [hpo]
      exact hj
    rw [hK, slotAt_killAll_ne r.1.pendingOutputs r.1 j hj2]
    exact hsa j
  · show (fanoutCopies cfg s.pinnedContents.length K.pendingOutputs 0 K).1.trace = _
    rw [hFtrace, hKtrace]
    have hrt2 : r.1.trace = s.trace ++ [Ev.alloc s.pendingBytes true,
        Ev.copy ⟨CopySrc.tensor s.pendingOffset,
          CopyDst.pinned s.pinnedContents.length, mem, MemType.CPU_PINNED,
          s.pendingBytes, false, true⟩] := by
      rw [hrd, copyBuffer_trace, herr1]
      rw [show (s1.trace = s.trace ++ [Ev.alloc s.pendingBytes true]) from rfl]
      rw [List.append_assoc]
      rfl
    rw [hrt2, List.append_assoc]
  · intro i
    rw [List.mem_append]
    constructor
    · rintro (h | h)
      · have h2 := (hKsend i).mp h
        rw [hpo, hsa i] at h2
        exact h2
      · exact absurd h (hFnosend i)
    · intro h
      left
      refine (hKsend i).mpr ?_
      rw [hpo, hsa i]
      exact h
  · show (fanoutCopies cfg s.pinnedContents.length K.pendingOutputs 0 K).1.pinnedMemories
      ++ [s.pinnedContents.length] = _
    rw [hfr2.2.2.2.2.1, hKpm]

def cfgW5 : Config := { cfgW with copyErr := [true] }

theorem C5_bulk_copy_error_witness :
    0 < sW3.pendingBytes ∧
    cfgW5.pinnedAllocOk.getD sW3.allocCount true = true ∧
    cfgW5.copyErr.getD sW3.copyCount false = true ∧
    ((∀ p ∈ sW3.pendingOutputs,
      (slotAt (FlushPendingPinned cfgW5 [9, 9, 9, 9] MemType.GPU sW3).1 p.1).alive =
        false) ∧
    (∀ j, j ∉ pendingIdxs sW3 →
      slotAt (FlushPendingPinned cfgW5 [9, 9, 9, 9] MemType.GPU sW3).1 j = slotAt sW3 j) ∧
    (∃ evs, (FlushPendingPinned cfgW5 [9, 9, 9, 9] MemType.GPU sW3).1.trace =
        (sW3.trace ++ [Ev.alloc sW3.pendingBytes true,
          Ev.copy ⟨CopySrc.tensor sW3.pendingOffset,
            CopyDst.pinned sW3.pinnedContents.length, MemType.GPU, MemType.CPU_PINNED,
            sW3.pendingBytes, false, true⟩]) ++ evs ∧
      (∀ i, Ev.send i ∈ evs ↔ (i ∈ pendingIdxs sW3 ∧ (slotAt sW3 i).alive = true))) ∧
    (FlushPendingPinned cfgW5 [9, 9, 9, 9] MemType.GPU sW3).1.pinnedMemories =
      sW3.pinnedMemories ++ [sW3.pinnedContents.length]) :=
  ⟨by decide, rfl, rfl,
   C5_bulk_copy_error cfgW5 [9, 9, 9, 9] MemType.GPU sW3 (by decide) rfl rfl⟩

/-- Scenario S5 exactly as the spec states it: three live responses whose
actual output-buffer endpoints are HOST_PINNED, HOST, HOST_PINNED, a GPU
source tensor, pinned staging enabled, three 4-byte outputs. -/
def cfgS5 : Config :=
  { maxBatchSize := 0, pinnedEnabled := true, hasEvent := false,
    reqs := [⟨["OUT"], 1, MemType.CPU_PINNED, 0, false⟩,
             ⟨["OUT"], 1, MemType.CPU, 0, false⟩,
             ⟨["OUT"], 1, MemType.CPU_PINNED, 0, false⟩],
    pinnedAllocOk := [], copyErr := [] }

def taS5 : TensorArgs :=
  { outputName := "OUT", datatype := 4, shape := [1],
    buf := [1, 2, 3, 4, 5, 6, 7, 8, 9, 10, 11, 12], memType := MemType.GPU,
    memTypeId := 0 }

/-- The S5 scenario with the endpoint pattern HOST, HOST_PINNED, HOST:
with a GPU source the staged endpoints are the HOST ones (lines 59 to 64
and 225 to 226), so this is the endpoint pattern that actually produces
the two-runs-with-a-gap behaviour the scenario describes. -/
def cfgS5A : Config :=
  { cfgS5 with
    reqs := [⟨["OUT"], 1, MemType.CPU, 0, false⟩,
             ⟨["OUT"], 1, MemType.CPU_PINNED, 0, false⟩,
             ⟨["OUT"], 1, MemType.CPU, 0, false⟩] }

/-- C9 counterexample: in scenario S5 as stated (GPU source, endpoints
HOST_PINNED, HOST, HOST_PINNED), use_pinned_memory_type is HOST, so a
response whose actual endpoint is HOST_PINNED is never staged (line 225):
response 0 starts no pending run and the whole ProcessTensor call performs
exactly one pinned allocation (for the response-1 run), not two. -/
theorem C9_s5_counterexample :
    (processOne cfgS5 taS5 (usePinnedMemoryType cfgS5.pinnedEnabled taS5.memType) 0
      (initState [true, true, true]) 0).1.pendingBytes = 0 ∧
    (ProcessTensor cfgS5 taS5 (initState [true, true, true])).pinnedMemories.length = 1 ∧
    ¬((ProcessTensor cfgS5 taS5
        (initState [true, true, true])).pinnedMemories.length = 2) := by
  decide

/-- C9 (amended): in the S5 scenario with actual endpoints HOST,
HOST_PINNED, HOST and a GPU source, response 0 starts a pending pinned run
(and no allocation has happened yet), the run is still pending after
response 1 (whose HOST_PINNED endpoint is copied directly), the contiguity
break at the boundary before response 2 flushes it (first pinned
allocation) and response 2 starts a new pending run at tensor offset 8,
and the whole ProcessTensor call performs exactly two pinned
allocations. -/
theorem C9_contiguity_break_two_allocations :
    (processLoop cfgS5A taS5 (usePinnedMemoryType cfgS5A.pinnedEnabled taS5.memType)
      [0] (initState [true, true, true]) 0).1.pendingBytes = 4 ∧
    (processLoop cfgS5A taS5 (usePinnedMemoryType cfgS5A.pinnedEnabled taS5.memType)
      [0] (initState [true, true, true]) 0).1.pendingOffset = 0 ∧
    (processLoop cfgS5A taS5 (usePinnedMemoryType cfgS5A.pinnedEnabled taS5.memType)
      [0] (initState [true, true, true]) 0).1.pinnedMemories.length = 0 ∧
    (processLoop cfgS5A taS5 (usePinnedMemoryType cfgS5A.pinnedEnabled taS5.memType)
      [0, 1] (initState [true, true, true]) 0).1.pendingBytes = 4 ∧
    (processLoop cfgS5A taS5 (usePinnedMemoryType cfgS5A.pinnedEnabled taS5.memType)
      [0, 1] (initState [true, true, true]) 0).1.pinnedMemories.length = 0 ∧
    (processLoop cfgS5A taS5 (usePinnedMemoryType cfgS5A.pinnedEnabled taS5.memType)
      [0, 1, 2] (initState [true, true, true]) 0).1.pendingBytes = 4 ∧
    (processLoop cfgS5A taS5 (usePinnedMemoryType cfgS5A.pinnedEnabled taS5.memType)
      [0, 1, 2] (initState [true, true, true]) 0).1.pendingOffset = 8 ∧
    (processLoop cfgS5A taS5 (usePinnedMemoryType cfgS5A.pinnedEnabled taS5.memType)
      [0, 1, 2] (initState [true, true, true]) 0).1.pinnedMemories.length = 1 ∧
    (ProcessTensor cfgS5A taS5
      (initState [true, true, true])).pinnedMemories.length = 2 := by
  decide

end Backend
